import Mathlib

/-!
# Term core and persistence core of the atomspace

A shallow embedding of `opencog/atoms/core/Variables.cc` (substitution with
quotation, scoping and globs, free-variable discovery, type checks, alpha
equality, extension) and of `opencog/persist/sql/odbc/ODBCAtomStorage.cc`
(heights, type-code maps, the ID caches and the creation arbiter, the
single-atom store, the outgoing-set text, the chunked loaders, `getNode`).

* Handles are content-addressed, so a `Handle` is modelled by the atom it
  points to and handle equality is structural equality.
* `std::map` / `std::set` are association lists / lists; `find`, `erase`,
  `empty`, `count` are the functions below. The two ID caches of the store are
  finite sets.
* C++ exceptions are the `Exception` values of an `Except` result.
* The class server, the scope-link variable extraction and the deep-type
  oracle are not part of `Variables.cc`; they are the fields of `Env`.
* C arrays are functions on the indices; `TYPEMAP_SZ` and the class server of
  the persistence code are parameters.
-/

namespace opencog

/-- The class server's type number (`Type` in the sources). -/
abbrev AtomType := Nat

/-- An atom: a node `(type, name)` or a link `(type, outgoing set)`. -/
inductive Atom where
  | node (type : AtomType) (name : String)
  | link (type : AtomType) (outgoing : List Atom)
  deriving Repr

namespace Atom

mutual
/-- Structural equality of atoms is decidable. -/
def decEqAtom : (a b : Atom) → Decidable (a = b)
  | node t n, node t' n' =>
    if h : t = t' ∧ n = n' then isTrue (by rw [h.1, h.2])
    else isFalse (by intro e; cases e; exact h ⟨rfl, rfl⟩)
  | node _ _, link _ _ => isFalse (by intro e; cases e)
  | link _ _, node _ _ => isFalse (by intro e; cases e)
  | link t o, link t' o' =>
    if h : t = t' then
      match decEqAtoms o o' with
      | isTrue h2 => isTrue (by rw [h, h2])
      | isFalse h2 => isFalse (by intro e; cases e; exact h2 rfl)
    else isFalse (by intro e; cases e; exact h rfl)
/-- Structural equality of outgoing sets is decidable. -/
def decEqAtoms : (a b : List Atom) → Decidable (a = b)
  | [], [] => isTrue rfl
  | [], _ :: _ => isFalse (by intro e; cases e)
  | _ :: _, [] => isFalse (by intro e; cases e)
  | x :: xs, y :: ys =>
    match decEqAtom x y with
    | isTrue h =>
      match decEqAtoms xs ys with
      | isTrue h2 => isTrue (by rw [h, h2])
      | isFalse h2 => isFalse (by intro e; cases e; exact h2 rfl)
    | isFalse h => isFalse (by intro e; cases e; exact h rfl)
end

instance : DecidableEq Atom := decEqAtom

/-- The method `Atom::getType()`. -/
def getType : Atom → AtomType
  | node t _ => t
  | link t _ => t

/-- The method `Atom::isLink()`. -/
def isLink : Atom → Bool
  | node _ _ => false
  | link _ _ => true

/-- The method `Atom::isNode()`. -/
def isNode : Atom → Bool
  | node _ _ => true
  | link _ _ => false

/-- The method `Atom::getOutgoingSet()`; a node has no outgoing set. -/
def getOutgoingSet : Atom → List Atom
  | node _ _ => []
  | link _ out => out

end Atom

/-- The type `HandleSeq`. -/
abbrev HandleSeq := List Atom

/-- The exceptions thrown by the code of `Variables.cc`, one constructor per
throw site (and `out_of_range` for `std::vector::at`). -/
inductive Exception where
  /-- A `SyntaxException`: "Incorrect number of arguments specified, expecting %lu got %lu". -/
  | SyntaxException_arity (expecting got : Nat)
  /-- A `SyntaxException`: "Arguments fail to match variable declarations". -/
  | SyntaxException_typecheck
  /-- The silent `TypeCheckException`. -/
  | TypeCheckException
  /-- A `RuntimeException`: "Not implemented! TODO XXX FIXME". -/
  | RuntimeException_not_implemented
  /-- A `std::out_of_range`, from `args.at(i)` (and from reading a vector past its end). -/
  | out_of_range
  deriving DecidableEq, Repr

/-- Modelled from the spec: the external collaborators of the term core, none
of which is defined in `Variables.cc`: the distinguished type constants and
`isA` of the class server, the declared variables of a scope link
(`ScopeLinkCast(h)`, else a scope link built from the outgoing set, then
`get_variables().varseq`), and the deep-type oracle `value_is_type`. -/
structure Env where
  VARIABLE_NODE : AtomType
  GLOB_NODE : AtomType
  QUOTE_LINK : AtomType
  UNQUOTE_LINK : AtomType
  SCOPE_LINK : AtomType
  isA : AtomType → AtomType → Bool
  get_variables : Atom → HandleSeq
  value_is_type : Atom → Atom → Bool

/-- Modelled from the spec: the quotation tracker (`Quotation.h` is not among
the sources): an integer level, `update` shifts it by +1 for QUOTE_LINK, by -1
for UNQUOTE_LINK and by 0 otherwise, `is_unquoted` holds iff the level is 0. -/
structure Quotation where
  level : Int
  deriving DecidableEq, Repr

namespace Quotation

/-- See `Quotation`: `is_unquoted() ⇔ level == 0`. -/
def is_unquoted (q : Quotation) : Bool := q.level == 0

/-- See `Quotation`: the level after entering a link of type `t`. -/
def update (env : Env) (q : Quotation) (t : AtomType) : Quotation :=
  if t = env.QUOTE_LINK then ⟨q.level + 1⟩
  else if t = env.UNQUOTE_LINK then ⟨q.level - 1⟩
  else q

end Quotation

/-- A `std::map<Handle, β>` as an association list. -/
abbrev HandleMapOf (β : Type) := List (Atom × β)

namespace HandleMapOf

/-- The call `map.find(k)`: the value bound to `k`, `none` for `end()`. -/
def find {β : Type} : HandleMapOf β → Atom → Option β
  | [], _ => none
  | (k, v) :: rest, a => if k = a then some v else find rest a

/-- The call `map.erase(k)`. -/
def erase {β : Type} (m : HandleMapOf β) (a : Atom) : HandleMapOf β :=
  m.filter (fun p => !decide (p.1 = a))

/-- The call `map.empty()`. -/
def empty {β : Type} (m : HandleMapOf β) : Bool := m.isEmpty

end HandleMapOf

/-- The type `FreeVariables::IndexMap`: variable ↦ ordinal in `varseq`. -/
abbrev IndexMap := HandleMapOf Nat

/-- The call `args.at(i)`: throws `std::out_of_range` past the end. -/
def HandleSeq_at (args : HandleSeq) (i : Nat) : Except Exception Atom :=
  match args[i]? with
  | some a => .ok a
  | none => .error .out_of_range

/-- The call `createLink(type, oset)`: the link with that type and outgoing set. -/
def createLink (t : AtomType) (oset : HandleSeq) : Atom := Atom.link t oset

/-- Modelled from the spec: `ScopeLink::factory(type, oset)` (`ScopeLink.cc` is
not among the sources) reconstructs a scope link of the same type from the
resulting children; atoms being content-addressed, that is the link with that
type and outgoing set. -/
def ScopeLink_factory (t : AtomType) (oset : HandleSeq) : Atom := Atom.link t oset

namespace FreeVariables

/-- Lines 184-193 of `substitute_scoped`: does the scope declare a variable
that is in `index_map`? -/
def alpha_hide (index_map : IndexMap) (vees : HandleSeq) : Bool :=
  vees.any (fun v => (index_map.find v).isSome)

/-- Lines 199-208 of `substitute_scoped`: a copy of `index_map` from which the
declared variables are erased. -/
def hidden_map (index_map : IndexMap) (vees : HandleSeq) : IndexMap :=
  vees.foldl (fun m v => m.erase v) index_map

/-- The outcome of the loop over the outgoing set at lines 228-245: either the
loop returned from the whole function with an atom (`early`), or it ran
through and left `oset`. -/
inductive Loop where
  | early (glst : Atom)
  | oset (oset : HandleSeq)
  deriving DecidableEq

mutual
/-- The method `FreeVariables::substitute_scoped` (lines 146-251). The method reads no
member of `this`, so the embedding takes none. -/
def substitute_scoped (env : Env) (args : HandleSeq) (silent : Bool)
    (term : Atom) (index_map : IndexMap) (quotation : Quotation) : Except Exception Atom :=
  let unquoted := quotation.is_unquoted
  match (if unquoted then index_map.find term else none) with
  | some idx => HandleSeq_at args idx
  | none =>
    match term with
    | Atom.node _ _ => .ok term
    | Atom.link ty out =>
      let quotation' := quotation.update env ty
      let vees := env.get_variables term
      if unquoted && env.isA ty env.SCOPE_LINK && alpha_hide index_map vees then
        if (hidden_map index_map vees).empty then .ok term
        else
          match substitute_scoped_hidden env args silent out (hidden_map index_map vees) quotation' with
          | .error e => .error e
          | .ok oset => .ok (ScopeLink_factory ty oset)
      else
        match substitute_scoped_loop env args silent out index_map quotation' with
        | .error e => .error e
        | .ok (Loop.early glst) => .ok glst
        | .ok (Loop.oset oset) =>
          if env.isA ty env.SCOPE_LINK then .ok (ScopeLink_factory ty oset)
          else .ok (createLink ty oset)
/-- The loop at lines 218-222: every child is substituted under the hidden map. -/
def substitute_scoped_hidden (env : Env) (args : HandleSeq) (silent : Bool)
    (out : HandleSeq) (index_map : IndexMap) (quotation : Quotation) :
    Except Exception HandleSeq :=
  match out with
  | [] => .ok []
  | h :: rest =>
    match substitute_scoped env args silent h index_map quotation with
    | .error e => .error e
    | .ok h' =>
      match substitute_scoped_hidden env args silent rest index_map quotation with
      | .error e => .error e
      | .ok oset => .ok (h' :: oset)
/-- The loop at lines 228-245: a child of type GLOB_NODE is substituted and
either ends the whole call (its value is a node) or has the outgoing set of
its value spliced in; any other child is substituted and appended. -/
def substitute_scoped_loop (env : Env) (args : HandleSeq) (silent : Bool)
    (out : HandleSeq) (index_map : IndexMap) (quotation : Quotation) :
    Except Exception Loop :=
  match out with
  | [] => .ok (Loop.oset [])
  | h :: rest =>
    if env.GLOB_NODE = h.getType then
      match substitute_scoped env args silent h index_map quotation with
      | .error e => .error e
      | .ok glst =>
        if glst.isNode then .ok (Loop.early glst)
        else
          match substitute_scoped_loop env args silent rest index_map quotation with
          | .error e => .error e
          | .ok (Loop.early r) => .ok (Loop.early r)
          | .ok (Loop.oset oset) => .ok (Loop.oset (glst.getOutgoingSet ++ oset))
    else
      match substitute_scoped env args silent h index_map quotation with
      | .error e => .error e
      | .ok h' =>
        match substitute_scoped_loop env args silent rest index_map quotation with
        | .error e => .error e
        | .ok (Loop.early r) => .ok (Loop.early r)
        | .ok (Loop.oset oset) => .ok (Loop.oset (h' :: oset))
end

/-- The method `FreeVariables::substitute_nocheck` (lines 132-137). -/
def substitute_nocheck (env : Env) (index : IndexMap) (term : Atom) (args : HandleSeq)
    (silent : Bool) : Except Exception Atom :=
  substitute_scoped env args silent term index ⟨0⟩

end FreeVariables

/-- The class `Variables` (with the members inherited from `FreeVariables`). -/
structure Variables where
  varseq : HandleSeq
  varset : List Atom
  index : IndexMap
  _simple_typemap : HandleMapOf (List AtomType)
  _deep_typemap : HandleMapOf (List Atom)
  _fuzzy_typemap : HandleMapOf (List Atom)

namespace Variables

/-- The method `Variables::is_type(const Handle& var, const Handle& val)` (lines 364-413). -/
def is_type (env : Env) (V : Variables) (var val : Atom) : Except Exception Bool :=
  let tit := V._simple_typemap.find var
  let allow := match tit with
    | some tchoice => decide (val.getType ∈ tchoice)
    | none => false
  if allow then .ok true
  else
    let ret := tit.isNone
    let dit := V._deep_typemap.find var
    let accepted := match dit with
      | some sigset => sigset.any (fun sig => env.value_is_type sig val)
      | none => false
    if accepted then .ok true
    else
      let ret := ret && dit.isNone
      if (V._fuzzy_typemap.find var).isSome then .error .RuntimeException_not_implemented
      else if var ∉ V.varset then .ok false
      else .ok ret

/-- The loop of `is_type(const HandleSeq&)` (lines 433-436), over `varseq[i]`
and `hseq[i]` for `i < len`; reading `varseq` past its end is reported as
`out_of_range`. -/
def is_type_loop (env : Env) (V : Variables) : HandleSeq → HandleSeq → Except Exception Bool
  | _, [] => .ok true
  | [], _ :: _ => .error .out_of_range
  | v :: vs, h :: hs =>
    match V.is_type env v h with
    | .error e => .error e
    | .ok false => .ok false
    | .ok true => is_type_loop env V vs hs

/-- The method `Variables::is_type(const HandleSeq& hseq)` (lines 426-438). -/
def is_type_seq (env : Env) (V : Variables) (hseq : HandleSeq) : Except Exception Bool :=
  if V.varset.length ≠ hseq.length then .ok false
  else is_type_loop env V V.varseq hseq

/-- The method `Variables::substitute_nocheck`, inherited from `FreeVariables`. -/
def substitute_nocheck (env : Env) (V : Variables) (term : Atom) (args : HandleSeq)
    (silent : Bool) : Except Exception Atom :=
  FreeVariables.substitute_nocheck env V.index term args silent

/-- The method `Variables::substitute` (lines 500-523); the call of `substitute_nocheck`
at line 522 leaves `silent` at its default, `false`. -/
def substitute (env : Env) (V : Variables) (func : Atom) (args : HandleSeq)
    (silent : Bool) : Except Exception Atom :=
  if args.length ≠ V.varseq.length then
    .error (.SyntaxException_arity V.varseq.length args.length)
  else
    match V.is_type_seq env args with
    | .error e => .error e
    | .ok false =>
      if silent then .error .TypeCheckException else .error .SyntaxException_typecheck
    | .ok true => V.substitute_nocheck env func args false

end Variables

/-! ### Predicates used in the statements -/

/-- Equality of results is decidable. -/
instance : DecidableEq (Except Exception Atom)
  | .ok a, .ok b =>
    if h : a = b then isTrue (by rw [h]) else isFalse (by intro e; cases e; exact h rfl)
  | .error a, .error b =>
    if h : a = b then isTrue (by rw [h]) else isFalse (by intro e; cases e; exact h rfl)
  | .ok _, .error _ => isFalse (by intro e; cases e)
  | .error _, .ok _ => isFalse (by intro e; cases e)

/-- The class server gives each of the distinguished types its own number. -/
def Env.distinct (env : Env) : Prop :=
  [env.VARIABLE_NODE, env.GLOB_NODE, env.QUOTE_LINK, env.UNQUOTE_LINK, env.SCOPE_LINK].Nodup

instance (env : Env) : Decidable env.distinct := by
  unfold Env.distinct; infer_instance

/-- A link type with no special meaning for substitution: not a quotation
link, not the glob type and not a scope link. -/
def Env.plain (env : Env) (ty : AtomType) : Prop :=
  ty ≠ env.QUOTE_LINK ∧ ty ≠ env.UNQUOTE_LINK ∧ ty ≠ env.GLOB_NODE ∧
    env.isA ty env.SCOPE_LINK = false

instance (env : Env) (ty : AtomType) : Decidable (env.plain ty) := by
  unfold Env.plain; infer_instance

/-- A scope link type (one that is neither a quotation link nor the glob type). -/
def Env.scope (env : Env) (ty : AtomType) : Prop :=
  env.isA ty env.SCOPE_LINK = true ∧ ty ≠ env.QUOTE_LINK ∧ ty ≠ env.UNQUOTE_LINK ∧
    ty ≠ env.GLOB_NODE

instance (env : Env) (ty : AtomType) : Decidable (env.scope ty) := by
  unfold Env.scope; infer_instance

/-- The invariants of a Variables: the map and the set hold each key once,
`|varseq| = |varset| = |index|`, `index[varseq[i]] = i`, `varset` is a view of
`varseq`, the keys of the type maps are in `varset`, and every variable is a
node of type VARIABLE_NODE or GLOB_NODE. -/
def Variables.Invariant (env : Env) (V : Variables) : Prop :=
  (V.index.map Prod.fst).Nodup ∧ V.varset.Nodup ∧
  V.varset.length = V.varseq.length ∧ V.index.length = V.varseq.length ∧
  (∀ i, (h : i < V.varseq.length) → V.index.find (V.varseq.get ⟨i, h⟩) = some i) ∧
  (∀ v ∈ V.varset, v ∈ V.varseq) ∧
  (∀ p ∈ V._simple_typemap, p.1 ∈ V.varset) ∧
  (∀ p ∈ V._deep_typemap, p.1 ∈ V.varset) ∧
  (∀ p ∈ V._fuzzy_typemap, p.1 ∈ V.varset) ∧
  (∀ v ∈ V.varseq, v.isNode = true ∧
    (v.getType = env.VARIABLE_NODE ∨ v.getType = env.GLOB_NODE))

instance (env : Env) (V : Variables) : Decidable (V.Invariant env) := by
  unfold Variables.Invariant; infer_instance

mutual
/-- No link of the term has a child of type GLOB_NODE. -/
def Atom.glob_free (env : Env) : Atom → Bool
  | Atom.node _ _ => true
  | Atom.link _ out => glob_free_seq env out
/-- No atom of the sequence has type GLOB_NODE or holds a child of that type. -/
def glob_free_seq (env : Env) : HandleSeq → Bool
  | [] => true
  | h :: rest => (h.getType != env.GLOB_NODE) && h.glob_free env && glob_free_seq env rest
end

mutual
/-- No UNQUOTE_LINK occurs in the term. -/
def Atom.unquote_free (env : Env) : Atom → Bool
  | Atom.node _ _ => true
  | Atom.link ty out => (ty != env.UNQUOTE_LINK) && unquote_free_seq env out
/-- No UNQUOTE_LINK occurs in the atoms of the sequence. -/
def unquote_free_seq (env : Env) : HandleSeq → Bool
  | [] => true
  | h :: rest => h.unquote_free env && unquote_free_seq env rest
end

mutual
/-- No key of `index_map` occurs free in the term met at quotation `q`: not
at quotation level 0 outside the scope links that declare it. The walk is that
of `substitute_scoped`: quotation changes on the way down and a scope link met
unquoted hides the variables it declares. -/
def Atom.no_free (env : Env) : Atom → IndexMap → Quotation → Bool
  | Atom.node ty name, index_map, q =>
    !(q.is_unquoted && (index_map.find (Atom.node ty name)).isSome)
  | Atom.link ty out, index_map, q =>
    !(q.is_unquoted && (index_map.find (Atom.link ty out)).isSome) &&
      (if q.is_unquoted && env.isA ty env.SCOPE_LINK then
        no_free_seq env out
          (FreeVariables.hidden_map index_map (env.get_variables (Atom.link ty out)))
          (q.update env ty)
      else no_free_seq env out index_map (q.update env ty))
/-- No key of `index_map` occurs free in the atoms of the sequence. -/
def no_free_seq (env : Env) : HandleSeq → IndexMap → Quotation → Bool
  | [], _, _ => true
  | h :: rest, index_map, q => h.no_free env index_map q && no_free_seq env rest index_map q
end

/-- The Variables `[$x, $y]` of scenario S1 over any class server: two
VARIABLE_NODEs named `nx` and `ny`, the first restricted to the type `concept`. -/
def vars_S1 (env : Env) (nx ny : String) (concept : AtomType) : Variables :=
  ⟨[Atom.node env.VARIABLE_NODE nx, Atom.node env.VARIABLE_NODE ny],
    [Atom.node env.VARIABLE_NODE nx, Atom.node env.VARIABLE_NODE ny],
    [(Atom.node env.VARIABLE_NODE nx, 0), (Atom.node env.VARIABLE_NODE ny, 1)],
    [(Atom.node env.VARIABLE_NODE nx, [concept])], [], []⟩

/-! ### Sample inputs, for the evaluations -/

/-- A sample class server: VARIABLE_NODE 1, GLOB_NODE 2, QUOTE_LINK 3,
UNQUOTE_LINK 4, SCOPE_LINK 5, VARIABLE_LIST 6, LIST_LINK 7, CONCEPT_NODE 8,
NUMBER_NODE 9, PREDICATE_NODE 10, EVALUATION_LINK 11, AND_LINK 12; the only
scope type is SCOPE_LINK, a scope link declares the children of its first
child when that is a VARIABLE_LIST and the first child itself otherwise, and
no signature accepts any value. -/
def sampleEnv : Env where
  VARIABLE_NODE := 1
  GLOB_NODE := 2
  QUOTE_LINK := 3
  UNQUOTE_LINK := 4
  SCOPE_LINK := 5
  isA := fun t a => t == a
  get_variables := fun term =>
    match term.getOutgoingSet with
    | d :: _ => if d.getType = 6 then d.getOutgoingSet else [d]
    | [] => []
  value_is_type := fun _ _ => false

/-- Sample variable `$x`. -/
def sample_x : Atom := Atom.node 1 "$x"

/-- Sample variable `$y`. -/
def sample_y : Atom := Atom.node 1 "$y"

/-- Sample glob `$g`. -/
def sample_g : Atom := Atom.node 2 "$g"

/-- Sample constant `Concept("a")`. -/
def sample_a : Atom := Atom.node 8 "a"

/-- Sample constant `Concept("b")`. -/
def sample_b : Atom := Atom.node 8 "b"

/-- Sample constant `Concept("one")`. -/
def sample_one : Atom := Atom.node 8 "one"

/-- Sample constant `Number(2)`. -/
def sample_two : Atom := Atom.node 9 "2"

/-- Sample constant `Number(3)`. -/
def sample_three : Atom := Atom.node 9 "3"

/-- The template of scenario S1, `Eval(P, List($y, $x))`. -/
def sample_S1_term : Atom :=
  Atom.link 11 [Atom.node 10 "something", Atom.link 7 [sample_y, sample_x]]

/-- The Variables `[$x]`, without type restrictions. -/
def sampleVars_x : Variables :=
  ⟨[sample_x], [sample_x], [(sample_x, 0)], [], [], []⟩

/-- The Variables `[$x, $y]`, without type restrictions. -/
def sampleVars_xy : Variables :=
  ⟨[sample_x, sample_y], [sample_x, sample_y], [(sample_x, 0), (sample_y, 1)], [], [], []⟩

/-- The Variables `[$g]` of one glob, without type restrictions. -/
def sampleVars_g : Variables :=
  ⟨[sample_g], [sample_g], [(sample_g, 0)], [], [], []⟩

/-- The Variables `[$x, $y]` of scenario S1, `$x` restricted to CONCEPT_NODE (8). -/
def sampleVars_S1 : Variables :=
  ⟨[sample_x, sample_y], [sample_x, sample_y], [(sample_x, 0), (sample_y, 1)],
    [(sample_x, [8])], [], []⟩

/-! ### Free-variable discovery, alpha equality and extension (`Variables.cc`) -/

/-- The call `set.insert(h)` on an `OrderedHandleSet`, a `std::set<Handle>`
held as a list without repetition. -/
def HandleSet_insert (s : List Atom) (h : Atom) : List Atom :=
  if h ∈ s then s else s ++ [h]

/-- The call `map.insert({k, v})`: a key that is already bound keeps its value. -/
def HandleMapOf.insert {β : Type} (m : HandleMapOf β) (k : Atom) (v : β) : HandleMapOf β :=
  if (m.find k).isSome then m else m ++ [(k, v)]

/-- The struct `VarScraper` (lines 37-42). -/
structure VarScraper where
  _quotation : Quotation
  _bound_vars : List Atom

namespace VarScraper

mutual
/-- The body of the loop of `VarScraper::find_vars` (lines 58-100) for one
handle `h` of the outgoing set: the scraper, `varseq` and `varset` after it. -/
def find_vars_step (env : Env) (h : Atom) (vsc : VarScraper) (varseq : HandleSeq)
    (varset : List Atom) : VarScraper × HandleSeq × List Atom :=
  let t := h.getType
  let collect : Bool :=
    (decide (env.VARIABLE_NODE = t) || decide (env.GLOB_NODE = t)) &&
    vsc._quotation.is_unquoted && !decide (h ∈ varset) && !decide (h ∈ vsc._bound_vars)
  let varseq1 := if collect then varseq ++ [h] else varseq
  let varset1 := if collect then HandleSet_insert varset h else varset
  match h with
  | Atom.node _ _ => (vsc, varseq1, varset1)
  | Atom.link _ out =>
    let issco := vsc._quotation.is_unquoted && env.isA t env.SCOPE_LINK
    let bsave := vsc._bound_vars
    let vsc1 : VarScraper :=
      if issco then
        { vsc with _bound_vars := (env.get_variables h).foldl HandleSet_insert vsc._bound_vars }
      else vsc
    let save_quotation := vsc1._quotation
    let vsc2 : VarScraper := { vsc1 with _quotation := vsc1._quotation.update env t }
    match find_vars env out vsc2 varseq1 varset1 with
    | (vsc3, varseq2, varset2) =>
      let vsc4 : VarScraper := if issco then { vsc3 with _bound_vars := bsave } else vsc3
      ({ vsc4 with _quotation := save_quotation }, varseq2, varset2)
/-- The method `VarScraper::find_vars` (lines 53-102): the loop over `oset`. -/
def find_vars (env : Env) (oset : HandleSeq) (vsc : VarScraper) (varseq : HandleSeq)
    (varset : List Atom) : VarScraper × HandleSeq × List Atom :=
  match oset with
  | [] => (vsc, varseq, varset)
  | h :: rest =>
    match find_vars_step env h vsc varseq varset with
    | (vsc1, varseq1, varset1) => find_vars env rest vsc1 varseq1 varset1
end

end VarScraper

/-- The loop at lines 110-112 of `find_variables`, from ordinal `i` on:
`index.insert(pair(varseq[i], i))`. -/
def build_index : HandleSeq → Nat → IndexMap → IndexMap
  | [], _, index => index
  | v :: rest, i, index => build_index rest (i + 1) (index.insert v i)

namespace Variables

/-- The method `FreeVariables::find_variables(const HandleSeq&)` (lines 104-113). -/
def find_variables (env : Env) (V : Variables) (oset : HandleSeq) : Variables :=
  match VarScraper.find_vars env oset ⟨⟨0⟩, []⟩ V.varseq V.varset with
  | (_, varseq, varset) =>
    { V with varseq := varseq, varset := varset, index := build_index varseq 0 V.index }

/-- The empty Variables. -/
def empty : Variables := ⟨[], [], [], [], [], []⟩

/-- Equality of two `std::set`s held as lists: the same members. -/
def set_eq {α : Type} [DecidableEq α] (a b : List α) : Bool :=
  a.all (fun x => decide (x ∈ b)) && b.all (fun x => decide (x ∈ a))

/-- The side-by-side comparison of `is_equal` (lines 282-316), over
`varseq[i]` and `other.varseq[i]`. -/
def is_equal_loop (V other : Variables) : HandleSeq → HandleSeq → Bool
  | vme :: rest, voth :: orest =>
    if vme.getType ≠ voth.getType then false
    else
      let sime := V._simple_typemap.find vme
      let soth := other._simple_typemap.find voth
      if sime.isNone && soth.isSome then false
      else if (match sime, soth with
          | some _, none => true
          | some s, some s' => !set_eq s s'
          | none, _ => false) then false
      else
        let dime := V._deep_typemap.find vme
        let doth := other._deep_typemap.find voth
        if dime.isNone && doth.isSome then false
        else if (match dime, doth with
            | some _, none => true
            | some d, some d' => !set_eq d d'
            | none, _ => false) then false
        else is_equal_loop V other rest orest
  | _, _ => true

/-- The method `Variables::is_equal` (lines 276-320). -/
def is_equal (V other : Variables) : Bool :=
  if other.varseq.length ≠ V.varseq.length then false
  else is_equal_loop V other V.varseq other.varseq

/-- The body of the loop of `Variables::extend` (lines 538-568) for one
variable `h` of `vset.varseq`. The set intersection `type_intersection` of the
type utilities is not among the sources and is a parameter. -/
def extend_step (type_intersection : List AtomType → List AtomType → List AtomType)
    (vset : Variables) (V : Variables) (h : Atom) : Variables :=
  match V.index.find h with
  | some _ =>
    match vset._simple_typemap.find h with
    | some tms =>
      let mytypes := type_intersection ((V._simple_typemap.find h).getD []) tms
      { V with _simple_typemap := (V._simple_typemap.erase h).insert h mytypes }
    | none => V
  | none =>
    let V1 : Variables :=
      { V with index := V.index.insert h V.varseq.length,
               varseq := V.varseq ++ [h],
               varset := HandleSet_insert V.varset h }
    match vset._simple_typemap.find h with
    | some tms => { V1 with _simple_typemap := V1._simple_typemap.insert h tms }
    | none => V1

/-- The method `Variables::extend` (lines 534-570). -/
def extend (type_intersection : List AtomType → List AtomType → List AtomType)
    (V vset : Variables) : Variables :=
  vset.varseq.foldl (extend_step type_intersection vset) V

end Variables

/-- The invariants of a Variables that the operations keep: the map and the
sets hold each key once, `|varseq| = |varset| = |index|`,
`index[varseq[i]] = i`, `varset` is a view of `varseq` and the keys of the
type maps are in `varset`. -/
def Variables.Consistent (V : Variables) : Prop :=
  (V.index.map Prod.fst).Nodup ∧ V.varset.Nodup ∧
  V.varset.length = V.varseq.length ∧ V.index.length = V.varseq.length ∧
  (∀ i, (h : i < V.varseq.length) → V.index.find (V.varseq.get ⟨i, h⟩) = some i) ∧
  (∀ v ∈ V.varset, v ∈ V.varseq) ∧
  (∀ p ∈ V._simple_typemap, p.1 ∈ V.varset) ∧
  (∀ p ∈ V._deep_typemap, p.1 ∈ V.varset) ∧
  (∀ p ∈ V._fuzzy_typemap, p.1 ∈ V.varset)

instance (V : Variables) : Decidable V.Consistent := by
  unfold Variables.Consistent; infer_instance

/-- Sample glob `$h`, another glob than `$g`. -/
def sample_h : Atom := Atom.node 2 "$h"

/-- The Variables `[$x]` with `$x` restricted to CONCEPT_NODE (8). -/
def sampleVars_x_concept : Variables :=
  ⟨[sample_x], [sample_x], [(sample_x, 0)], [(sample_x, [8])], [], []⟩

/-- The Variables `[$y]` with `$y` restricted to CONCEPT_NODE (8). -/
def sampleVars_y_concept : Variables :=
  ⟨[sample_y], [sample_y], [(sample_y, 0)], [(sample_y, [8])], [], []⟩

/-- The Variables `[$x]` with `$x` restricted to CONCEPT_NODE (8) and with a
fuzzy entry for `$x`. -/
def sampleVars_x_fuzzy : Variables :=
  ⟨[sample_x], [sample_x], [(sample_x, 0)], [(sample_x, [8])], [], [(sample_x, [sample_a])]⟩

/-- Equality of the results of the type checks is decidable. -/
instance : DecidableEq (Except Exception Bool)
  | .ok a, .ok b =>
    if h : a = b then isTrue (by rw [h]) else isFalse (by intro e; cases e; exact h rfl)
  | .error a, .error b =>
    if h : a = b then isTrue (by rw [h]) else isFalse (by intro e; cases e; exact h rfl)
  | .ok _, .error _ => isFalse (by intro e; cases e)
  | .error _, .ok _ => isFalse (by intro e; cases e)

/-- Two restrictions are the same: both none, or the same set. -/
def same_restriction {α : Type} : Option (List α) → Option (List α) → Prop
  | none, none => True
  | some s, some s' => ∀ x, x ∈ s ↔ x ∈ s'
  | _, _ => False

/-- The variables `vme` of `V` and `voth` of `other` have the same atom type,
the same simple type set (or both none) and the same deep signature set (or
both none). -/
def Variables.alike (V other : Variables) (vme voth : Atom) : Prop :=
  vme.getType = voth.getType ∧
  same_restriction (V._simple_typemap.find vme) (other._simple_typemap.find voth) ∧
  same_restriction (V._deep_typemap.find vme) (other._deep_typemap.find voth)

/-- The Variables with every variable `v` renamed to `ρ v`, in the sequence,
the set, the index and the type maps. -/
def Variables.rename (ρ : Atom → Atom) (V : Variables) : Variables :=
  ⟨V.varseq.map ρ, V.varset.map ρ, V.index.map (fun p => (ρ p.1, p.2)),
    V._simple_typemap.map (fun p => (ρ p.1, p.2)),
    V._deep_typemap.map (fun p => (ρ p.1, p.2)),
    V._fuzzy_typemap.map (fun p => (ρ p.1, p.2))⟩

/-- The atoms on which a renaming acts: the variables and the keys of the
simple and deep type maps. -/
def Variables.renamed (V : Variables) : List Atom :=
  V.varseq ++ V._simple_typemap.map Prod.fst ++ V._deep_typemap.map Prod.fst

/-- One call on a Variables object: `find_variables(oset)` or `extend(vset)`. -/
inductive VarOp where
  | find_variables (oset : HandleSeq)
  | extend (vset : Variables)

/-- The Variables after one call. -/
def VarOp.apply (env : Env) (type_intersection : List AtomType → List AtomType → List AtomType)
    (V : Variables) : VarOp → Variables
  | VarOp.find_variables oset => V.find_variables env oset
  | VarOp.extend vset => V.extend type_intersection vset

/-- The Variables after a sequence of calls on the empty Variables. -/
def VarOp.run (env : Env) (type_intersection : List AtomType → List AtomType → List AtomType)
    (ops : List VarOp) : Variables :=
  ops.foldl (VarOp.apply env type_intersection) Variables.empty

/-- The index of a sequence of variables whose first ordinal is `i`:
`l[j] ↦ i + j`. -/
def enum_index : HandleSeq → Nat → IndexMap
  | [], _ => []
  | v :: rest, i => (v, i) :: enum_index rest (i + 1)

/-- The atoms of `l` in the order of their first appearance, after those of
`acc`, each once. -/
def first_appearances (acc l : List Atom) : List Atom :=
  l.foldl (fun acc v => if v ∈ acc then acc else acc ++ [v]) acc

mutual
/-- The free occurrences of variables in a term, in depth-first pre-order: the
occurrences of atoms of type VARIABLE_NODE or GLOB_NODE that are at quotation
level 0 and are not bound, where `bound` holds the variables declared by the
scope links around the term that are met unquoted. -/
def free_occurrences (env : Env) : Atom → Quotation → (Atom → Bool) → List Atom
  | Atom.node t n, q, bound =>
    if (decide (env.VARIABLE_NODE = t) || decide (env.GLOB_NODE = t)) && q.is_unquoted
        && !bound (Atom.node t n) then [Atom.node t n] else []
  | Atom.link t out, q, bound =>
    (if (decide (env.VARIABLE_NODE = t) || decide (env.GLOB_NODE = t)) && q.is_unquoted
        && !bound (Atom.link t out) then [Atom.link t out] else []) ++
    free_occurrences_seq env out (q.update env t)
      (if q.is_unquoted && env.isA t env.SCOPE_LINK then
        fun v => bound v || decide (v ∈ env.get_variables (Atom.link t out))
      else bound)
/-- The free occurrences of variables in a sequence of terms, left to right. -/
def free_occurrences_seq (env : Env) : HandleSeq → Quotation → (Atom → Bool) → List Atom
  | [], _, _ => []
  | h :: rest, q, bound =>
    free_occurrences env h q bound ++ free_occurrences_seq env rest q bound
end

/-- The shape of a Variables built from the empty one by `find_variables` and
`extend`: `varset` lists the variables as `varseq` does, without repetition,
`index` binds them to their ordinals in that order, the keys of the simple
type map are variables, and there are no deep or fuzzy restrictions. -/
def Variables.Canonical (V : Variables) : Prop :=
  V.varset = V.varseq ∧ V.varseq.Nodup ∧ V.index = enum_index V.varseq 0 ∧
  (∀ p ∈ V._simple_typemap, p.1 ∈ V.varseq) ∧
  V._deep_typemap = [] ∧ V._fuzzy_typemap = []

/-- A sample `type_intersection`: the types of `a` that are in `b`. -/
def sample_type_intersection (a b : List AtomType) : List AtomType :=
  a.filter (fun t => decide (t ∈ b))

/-- The Variables `[$y]` with a deep restriction of `$y` to one signature. -/
def sampleVars_y_deep : Variables :=
  ⟨[sample_y], [sample_y], [(sample_y, 0)], [], [(sample_y, [sample_a])], []⟩

/-! ### The persistence core (`ODBCAtomStorage.cc`): heights and the type-code maps -/

namespace ODBCAtomStorage

mutual
/-- The method `ODBCAtomStorage::get_height` (lines 691-707); `LinkCast` is
null exactly for a node. -/
def get_height : Atom → Int
  | Atom.node _ _ => 0
  | Atom.link _ out => get_height_loop out 0 + 1
/-- The loop of `get_height` (lines 699-704) over the outgoing set, from the
running maximum `maxd`. -/
def get_height_loop : HandleSeq → Int → Int
  | [], maxd => maxd
  | h :: rest, maxd =>
    let d := get_height h
    get_height_loop rest (if maxd < d then d else maxd)
end

mutual
/-- The method `ODBCAtomStorage::do_store_atom` (lines 768-792). The callee
`do_store_single_atom(atom, height)` is the parameter `single`, a step on the
state of the store that may throw; the result is the state after the call and
the height returned. -/
def do_store_atom {σ ε : Type} (single : Atom → Int → σ → Except ε σ) :
    Atom → σ → Except ε (σ × Int)
  | Atom.node t n, s =>
    match single (Atom.node t n) 0 s with
    | .error e => .error e
    | .ok s' => .ok (s', 0)
  | Atom.link t out, s =>
    match do_store_atom_loop single out s 0 with
    | .error e => .error e
    | .ok (s', lheight) =>
      match single (Atom.link t out) (lheight + 1) s' with
      | .error e => .error e
      | .ok s'' => .ok (s'', lheight + 1)
/-- The loop of `do_store_atom` (lines 779-784) over the outgoing set, from
the running maximum `lheight`. -/
def do_store_atom_loop {σ ε : Type} (single : Atom → Int → σ → Except ε σ) :
    HandleSeq → σ → Int → Except ε (σ × Int)
  | [], s, lheight => .ok (s, lheight)
  | h :: rest, s, lheight =>
    match do_store_atom single h s with
    | .error e => .error e
    | .ok (s', heig) => do_store_atom_loop single rest s' (if lheight < heig then heig else lheight)
end

mutual
/-- The height of an atom in the words of the spec: 0 for a node, 1 plus the
maximum of the heights of the children for a link. -/
def height : Atom → Int
  | Atom.node _ _ => 0
  | Atom.link _ out => 1 + height_max out
/-- The maximum of the heights of a sequence of atoms, 0 for none. -/
def height_max : HandleSeq → Int
  | [] => 0
  | h :: rest => max (height h) (height_max rest)
end

mutual
/-- The atoms of a term in post-order, every child (with all below it) before
its parent, each with its height. -/
def store_calls : Atom → List (Atom × Int)
  | Atom.node t n => [(Atom.node t n, 0)]
  | Atom.link t out => store_calls_seq out ++ [(Atom.link t out, height (Atom.link t out))]
/-- The post-order of a sequence of terms, left to right. -/
def store_calls_seq : HandleSeq → List (Atom × Int)
  | [] => []
  | h :: rest => store_calls h ++ store_calls_seq rest
end

/-- The calls `single(atom, height)` made one after the other, up to the first
that throws. -/
def run_calls {σ ε : Type} (single : Atom → Int → σ → Except ε σ) :
    List (Atom × Int) → σ → Except ε σ
  | [], s => .ok s
  | (a, h) :: rest, s =>
    match single a h s with
    | .error e => .error e
    | .ok s' => run_calls single rest s'

/-- A store that only records its calls. -/
def record_call (a : Atom) (h : Int) (s : List (Atom × Int)) :
    Except Exception (List (Atom × Int)) :=
  .ok (s ++ [(a, h)])

/-- Modelled from the spec: the class server as the persistence code uses it
(`ClassServer.h` is not among the sources): the number of local types, the
name of a type, the type of a name, and the constant NOTYPE that `getType`
gives for a name this process does not know. -/
structure ClassServer where
  getNumberOfClasses : Nat
  getTypeName : AtomType → String
  getType : String → AtomType
  NOTYPE : AtomType

/-- The type-code maps of the store and the table `TypeCodes` of the database.
The three arrays have `TYPEMAP_SZ` entries, a constant of the header that is
not among the sources and is a parameter of the operations; a row of
`TypeCodes` is `(type, typename)`. -/
structure TypeMaps where
  type_map_was_loaded : Bool
  loading_typemap : Nat → AtomType
  storing_typemap : Nat → Int
  db_typename : Nat → Option String
  TypeCodes : List (Nat × String)

/-- The assignment `a[i] = v` on an array held as a function. -/
def array_set {α : Type} (a : Nat → α) (i : Nat) (v : α) : Nat → α :=
  fun j => if j = i then v else a j

/-- The method `ODBCAtomStorage::set_typemap` (lines 1094-1101). -/
def set_typemap (cs : ClassServer) (st : TypeMaps) (dbval : Nat) (tname : String) : TypeMaps :=
  let realtype := cs.getType tname
  { st with
    loading_typemap := array_set st.loading_typemap dbval realtype,
    storing_typemap := array_set st.storing_typemap realtype (dbval : Int),
    db_typename := array_set st.db_typename dbval (some tname) }

/-- The statement `INSERT INTO TypeCodes (type, typename) VALUES (sqid, tname)`
of lines 1081-1087. -/
def insert_TypeCodes (st : TypeMaps) (sqid : Nat) (tname : String) : TypeMaps :=
  { st with TypeCodes := st.TypeCodes ++ [(sqid, tname)] }

/-- The loop of `setup_typemap` over the local types (lines 1048-1090);
`none` is the abort on type table overflow. -/
def setup_typemap_loop (cs : ClassServer) (TYPEMAP_SZ : Nat) :
    List Nat → TypeMaps → Option TypeMaps
  | [], st => some st
  | t :: rest, st =>
    if st.storing_typemap t = -1 then
      let tname := cs.getTypeName t
      if (st.db_typename t).isSome && st.loading_typemap t != t then
        match (List.range TYPEMAP_SZ).find? (fun sqid => (st.db_typename sqid).isNone) with
        | none => none
        | some sqid =>
          setup_typemap_loop cs TYPEMAP_SZ rest
            (set_typemap cs (insert_TypeCodes st sqid tname) sqid tname)
      else
        setup_typemap_loop cs TYPEMAP_SZ rest
          (set_typemap cs (insert_TypeCodes st t tname) t tname)
    else setup_typemap_loop cs TYPEMAP_SZ rest st

/-- The method `ODBCAtomStorage::setup_typemap` (lines 1021-1092): the maps
are reset, every row of `TypeCodes` goes through `type_cb`, that is
`set_typemap(itype, tname)`, and the local types without a code get one. -/
def setup_typemap (cs : ClassServer) (TYPEMAP_SZ : Nat) (st : TypeMaps) : Option TypeMaps :=
  if st.type_map_was_loaded then some st
  else
    let st1 : TypeMaps :=
      { st with
        type_map_was_loaded := true,
        loading_typemap := fun i => if i < TYPEMAP_SZ then cs.NOTYPE else st.loading_typemap i,
        storing_typemap := fun i => if i < TYPEMAP_SZ then -1 else st.storing_typemap i,
        db_typename := fun i => if i < TYPEMAP_SZ then none else st.db_typename i }
    let st2 := st1.TypeCodes.foldl (fun s row => set_typemap cs s row.1 row.2) st1
    setup_typemap_loop cs TYPEMAP_SZ (List.range cs.getNumberOfClasses) st2

/-- The slots of the maps that hold a type name. -/
def used_slots (TYPEMAP_SZ : Nat) (st : TypeMaps) : Nat :=
  (List.range TYPEMAP_SZ).countP (fun i => (st.db_typename i).isSome)

/-- The maps are coherent below `TYPEMAP_SZ`: a type with a code has a code
that is a slot with a name and that loads back to the type, and the type that
a named slot loads has a code. -/
def TypeMaps.Coherent (TYPEMAP_SZ : Nat) (st : TypeMaps) : Prop :=
  (∀ t, t < TYPEMAP_SZ → st.storing_typemap t ≠ -1 →
    ∃ x : Nat, st.storing_typemap t = (x : Int) ∧ x < TYPEMAP_SZ ∧
      st.loading_typemap x = t ∧ (st.db_typename x).isSome = true) ∧
  (∀ i, i < TYPEMAP_SZ → (st.db_typename i).isSome = true →
    st.storing_typemap (st.loading_typemap i) ≠ -1)

end ODBCAtomStorage

/-- A sample class server for the persistence code: the local types 0 "Notype",
1 "Node" and 2 "Link", with NOTYPE = 0 for every other name. -/
def sampleClassServer : ODBCAtomStorage.ClassServer where
  getNumberOfClasses := 3
  getTypeName := fun t => if t = 1 then "Node" else if t = 2 then "Link" else "Notype"
  getType := fun s => if s = "Node" then 1 else if s = "Link" then 2 else 0
  NOTYPE := 0

/-- A store before `setup_typemap`, on a database whose `TypeCodes` has the
rows (1, "Link") and (2, "Foo"). -/
def sampleTypeMaps : ODBCAtomStorage.TypeMaps :=
  ⟨false, fun _ => 0, fun _ => 0, fun _ => none, [(1, "Link"), (2, "Foo")]⟩

/-! ### The persistence core: the ID caches, the single-atom store, the loaders

* A `std::string` is a `String` and `size()` is its number of UTF-8 bytes; a
  C string that is walked `char` by `char` is the list of its characters.
* The two ID caches are finite sets of UUIDs.
* What a call does to the mutexes and to the database is appended, in program
  order, to the field `log` of the state.
* A call that never returns (a stall on a mutex, `abort()`, a loop that does
  not end within the fuel) has the result `none`.
-/

namespace ODBCAtomStorage

/-- The type `UUID` (`unsigned long`, 64 bits). -/
abbrev UUID := Nat

/-- The mutexes of the store. -/
inductive Mutex where
  | id_create_mutex
  | id_cache_mutex
  | table_cache_mutex
  deriving DecidableEq, Repr

/-- The SQL statements that the embedded code executes. A statement that is
printed into a fixed buffer from numbers and a type name is given by these
parameters; the statement that `do_store_single_atom` assembles in a
`std::string` is given by its text. -/
inductive Statement where
  /-- The text `SELECT * FROM TypeCodes;` (line 1042). -/
  | select_TypeCodes
  /-- The text `INSERT INTO TypeCodes (type, typename) VALUES (sqid, tname);`. -/
  | insert_TypeCodes (sqid : Nat) (tname : String)
  /-- The text `INSERT INTO Spaces (space, parent) VALUES (tab_id, parent_id);`. -/
  | insert_Spaces (tab_id parent_id : UUID)
  /-- The statement `qry` of `do_store_single_atom` (line 956). -/
  | atoms (qry : String)
  /-- The text `SELECT uuid FROM Atoms ORDER BY uuid DESC LIMIT 1;`. -/
  | select_max_uuid
  /-- The text `SELECT uuid FROM Atoms WHERE uuid > lo AND uuid <= hi;`. -/
  | select_uuid (lo hi : UUID)
  deriving DecidableEq, Repr

/-- What a thread does to the mutexes, to the connection pool and to the
database. -/
inductive Event where
  | lock (m : Mutex)
  | unlock (m : Mutex)
  | get_conn
  | put_conn
  | exec (stmt : Statement)
  deriving DecidableEq, Repr

/-- Modelled from the spec: the enumeration `TruthValueType` (`TruthValue.h`
is not among the sources), the five enumerators that the store names and
`other` for every further one. -/
inductive TruthValueType where
  | NULL_TRUTH_VALUE
  | SIMPLE_TRUTH_VALUE
  | COUNT_TRUTH_VALUE
  | INDEFINITE_TRUTH_VALUE
  | PROBABILISTIC_TRUTH_VALUE
  | other (n : Nat)
  deriving DecidableEq, Repr

/-- Modelled from the spec: a truth value as the store reads it
(`TruthValue.h` is not among the sources): its type and, for every getter,
the text that the format `%12.8g` prints for the value returned. -/
structure TruthValue where
  getType : TruthValueType
  getMean : String
  getConfidence : String
  getCount : String
  getL : String
  getU : String
  getConfidenceLevel : String

/-- Modelled from the spec: an atom table as the store reads it
(`AtomTable.h` is not among the sources): its UUID and its environment, if it
has one. -/
inductive AtomTable where
  | top (uuid : UUID)
  | sub (uuid : UUID) (environ : AtomTable)

/-- The method `AtomTable::get_uuid()`. -/
def AtomTable.get_uuid : AtomTable → UUID
  | top u => u
  | sub u _ => u

/-- The method `AtomTable::get_environ()`. -/
def AtomTable.get_environ : AtomTable → Option AtomTable
  | top _ => none
  | sub _ e => some e

/-- The exceptions thrown by `do_store_single_atom`, one per throw site. -/
inductive RuntimeException where
  /-- The message "Error: do_store_single_atom: Maxiumum Node name size is 2700." -/
  | node_name_size
  /-- The message "Error: do_store_single_atom: Maxiumum Link size is 330." -/
  | link_size
  /-- The message "Error: store_single: Unknown truth value type" -/
  | unknown_truth_value_type
  deriving DecidableEq, Repr

/-- What the store reads from outside `ODBCAtomStorage.cc`: the class server
and `TYPEMAP_SZ`, the UUID that `_tlbuf.addAtom(h, TLB::INVALID_UUID)` returns
for an atom, the truth value and the atom table of an atom, the integer value
of a truth value type, and whether `db_conn->exec` returns a record set for a
statement. -/
structure StoreEnv where
  cs : ClassServer
  TYPEMAP_SZ : Nat
  addAtom : Atom → UUID
  getTruthValue : Atom → Option TruthValue
  getAtomTable : Atom → Option AtomTable
  tvt_value : TruthValueType → Int
  exec_ok : Statement → Bool

/-- The members of the store that the embedded methods read and write, and
the log of the events of the calling thread. -/
structure Storage where
  typemaps : TypeMaps
  local_id_cache : Finset UUID
  local_id_cache_is_inited : Bool
  id_create_cache : Finset UUID
  table_id_cache : Finset UUID
  max_height : Int
  log : List Event

/-- The events `evs` happen, in this order. -/
def Storage.emit (st : Storage) (evs : List Event) : Storage :=
  { st with log := st.log ++ evs }

/-- The method `ODBCAtomStorage::add_id_to_cache` (lines 1126-1137). -/
def add_id_to_cache (st : Storage) (uuid : UUID) : Storage :=
  let st := st.emit [Event.lock Mutex.id_cache_mutex]
  let st := { st with local_id_cache := insert uuid st.local_id_cache }
  let st :=
    if uuid ∈ st.id_create_cache then
      { st with id_create_cache := st.id_create_cache.erase uuid }
    else st
  st.emit [Event.unlock Mutex.id_cache_mutex]

/-- The method `ODBCAtomStorage::maybe_create_id` (lines 1149-1184), run by
one thread with no other thread at work. The boolean is `owns_lock()` of the
lock returned. With the UUID in `id_create_cache` and not in `local_id_cache`
the call reaches `local_create_lock(id_create_mutex)` while its own
`create_lock` still holds that mutex, and does not return. -/
def maybe_create_id (st : Storage) (uuid : UUID) : Option (Bool × Storage) :=
  let st := st.emit [Event.lock Mutex.id_create_mutex, Event.lock Mutex.id_cache_mutex]
  if uuid ∈ st.local_id_cache then
    some (false, st.emit [Event.unlock Mutex.id_cache_mutex, Event.unlock Mutex.id_create_mutex])
  else if uuid ∈ st.id_create_cache then
    none
  else
    let st := { st with id_create_cache := insert uuid st.id_create_cache }
    some (true, st.emit [Event.unlock Mutex.id_cache_mutex])

end ODBCAtomStorage

namespace ODBCAtomStorage

/-- The function `std::to_string` on an `unsigned long`: the decimal digits. -/
def to_string (uuid : UUID) : String := Nat.repr uuid

/-- The text that `snprintf(buff, BUFSZ, "%u", ival)` prints for an `int`:
the decimal digits of the value taken as an `unsigned int`. -/
def fmt_u (ival : Int) : String := Nat.repr (ival % 4294967296).toNat

/-- The loop of `oset_to_string` (lines 715-721) from index `i` on, over the
atoms that are left. -/
def oset_to_string_loop (addAtom : Atom → UUID) : Nat → HandleSeq → String → String
  | _, [], str => str
  | i, h :: rest, str =>
    let uuid := addAtom h
    let str := if i ≠ 0 then str ++ ", " else str
    oset_to_string_loop addAtom (i + 1) rest (str ++ to_string uuid)

/-- The method `ODBCAtomStorage::oset_to_string` (lines 711-725). -/
def oset_to_string (addAtom : Atom → UUID) (out : HandleSeq) (arity : Nat) : String :=
  let str := "\x27\x7b"
  let str := oset_to_string_loop addAtom 0 (out.take arity) str
  str ++ "\x7d\x27"

/-- The locals `notfirst`, `cols` and `vals` of `do_store_single_atom`. -/
structure Columns where
  notfirst : Bool
  cols : String
  vals : String

/-- The macro `STMT(colname, val)` (lines 545-556). -/
def STMT (update : Bool) (c : Columns) (colname val : String) : Columns :=
  if update then
    { c with
      notfirst := true,
      cols := (if c.notfirst then c.cols ++ ", " else c.cols) ++ colname ++ " = " ++ val }
  else
    { notfirst := true,
      cols := (if c.notfirst then c.cols ++ ", " else c.cols) ++ colname,
      vals := (if c.notfirst then c.vals ++ ", " else c.vals) ++ val }

/-- The macro `STMTI(colname, ival)` (lines 558-562). -/
def STMTI (update : Bool) (c : Columns) (colname : String) (ival : Int) : Columns :=
  STMT update c colname (fmt_u ival)

/-- The macro `STMTF(colname, fval)` (lines 564-568), on the text that
`%12.8g` prints for `fval`. -/
def STMTF (update : Bool) (c : Columns) (colname fval : String) : Columns :=
  STMT update c colname fval

/-- The block of `do_store_single_atom` that runs when the atom is stored for
the first time (lines 850-927): the columns `space`, `type`, then `name` and
`height` of a node or `height` and `outgoing` of a link. The result is what
the block throws or the columns, and the member `max_height` after it. -/
def store_first_time (env : StoreEnv) (storing_typemap : Nat → Int) (atom : Atom)
    (aheight : Int) (max_height : Int) (c : Columns) :
    Except RuntimeException Columns × Int :=
  let uuidbuff :=
    match env.getAtomTable atom with
    | some tab => to_string tab.get_uuid
    | none => "0"
  let c := STMT false c "space" uuidbuff
  let dbtype := storing_typemap atom.getType
  let c := STMTI false c "type" dbtype
  match atom with
  | Atom.node _ name =>
    let qname := " $ocp$" ++ name ++ "$ocp$ "
    if 2700 < qname.utf8ByteSize then (.error RuntimeException.node_name_size, max_height)
    else
      let c := STMT false c "name" qname
      (.ok (STMTI false c "height" 0), max_height)
  | Atom.link _ out =>
    let max_height := if max_height < aheight then aheight else max_height
    let c := STMTI false c "height" aheight
    let arity := out.length
    if 330 < arity then (.error RuntimeException.link_size, max_height)
    else if arity ≠ 0 then
      (.ok { c with
             cols := c.cols ++ ", outgoing",
             vals := c.vals ++ ", " ++ oset_to_string env.addAtom out arity }, max_height)
    else (.ok c, max_height)

/-- The block of `do_store_single_atom` that stores the truth value (lines
929-954). -/
def store_truth_value (env : StoreEnv) (update : Bool) (tv : Option TruthValue)
    (c : Columns) : Except RuntimeException Columns :=
  let tvt :=
    match tv with
    | some v => v.getType
    | none => TruthValueType.NULL_TRUTH_VALUE
  let c := STMTI update c "tv_type" (env.tvt_value tvt)
  match tv with
  | none => .ok c
  | some v =>
    match v.getType with
    | TruthValueType.NULL_TRUTH_VALUE => .ok c
    | TruthValueType.SIMPLE_TRUTH_VALUE
    | TruthValueType.COUNT_TRUTH_VALUE
    | TruthValueType.PROBABILISTIC_TRUTH_VALUE =>
      let c := STMTF update c "stv_mean" v.getMean
      let c := STMTF update c "stv_confidence" v.getConfidence
      .ok (STMTF update c "stv_count" v.getCount)
    | TruthValueType.INDEFINITE_TRUTH_VALUE =>
      let c := STMTF update c "stv_mean" v.getL
      let c := STMTF update c "stv_count" v.getU
      .ok (STMTF update c "stv_confidence" v.getConfidenceLevel)
    | TruthValueType.other _ => .error RuntimeException.unknown_truth_value_type

/-- The method `ODBCAtomStorage::store_atomtable_id` (lines 506-535). -/
def store_atomtable_id : AtomTable → Storage → Storage
  | AtomTable.top tab_id, st =>
    if tab_id ∈ st.table_id_cache then st
    else
      let st := { st with table_id_cache := insert tab_id st.table_id_cache }
      st.emit [Event.lock Mutex.table_cache_mutex, Event.get_conn,
        Event.exec (Statement.insert_Spaces tab_id 1), Event.put_conn,
        Event.unlock Mutex.table_cache_mutex]
  | AtomTable.sub tab_id environ, st =>
    if tab_id ∈ st.table_id_cache then st
    else
      let st := { st with table_id_cache := insert tab_id st.table_id_cache }
      let parent_id := environ.get_uuid
      let st := store_atomtable_id environ st
      st.emit [Event.lock Mutex.table_cache_mutex, Event.get_conn,
        Event.exec (Statement.insert_Spaces tab_id parent_id), Event.put_conn,
        Event.unlock Mutex.table_cache_mutex]

/-- The call `setup_typemap()` on the state of the store, with its events:
none when the maps are loaded; else the connection, the `SELECT` on
`TypeCodes` and one `INSERT` for every row that the call adds. -/
def Storage.setup_typemap (env : StoreEnv) (st : Storage) : Option Storage :=
  match ODBCAtomStorage.setup_typemap env.cs env.TYPEMAP_SZ st.typemaps with
  | none => none
  | some tm =>
    if st.typemaps.type_map_was_loaded then some { st with typemaps := tm }
    else
      let added := tm.TypeCodes.drop st.typemaps.TypeCodes.length
      some ({ st with typemaps := tm }.emit
        ([Event.get_conn, Event.exec Statement.select_TypeCodes] ++
          added.map (fun (row : Nat × String) => Event.exec (Statement.insert_TypeCodes row.1 row.2)) ++
          [Event.put_conn]))

/-- The block of `do_store_single_atom` that executes the statement `qry`
(lines 957-972): when no record set comes back, the atom table is stored and
the statement executed again. -/
def exec_qry (env : StoreEnv) (atom : Atom) (qry : Statement) (st : Storage) : Storage :=
  let st := st.emit [Event.get_conn, Event.exec qry]
  let st :=
    if env.exec_ok qry then st
    else
      let st :=
        match env.getAtomTable atom with
        | some tab => store_atomtable_id tab st
        | none => st
      st.emit [Event.exec qry]
  st.emit [Event.put_conn]

/-- The method `ODBCAtomStorage::do_store_single_atom` (lines 812-991), run
by one thread with no other thread at work. The result is `none` when the
call does not return; else what it throws, if it throws, and the state that
it leaves. The lock `lck` is released when the call is left, by a return or
by a throw. -/
def do_store_single_atom (env : StoreEnv) (atom : Atom) (aheight : Int) (st : Storage) :
    Option (Except RuntimeException Unit × Storage) :=
  match st.setup_typemap env with
  | none => none
  | some st =>
    let uuid := env.addAtom atom
    let uuidbuff := to_string uuid
    match maybe_create_id st uuid with
    | none => none
    | some (owns_lock, st) =>
      let update := !owns_lock
      let release := if owns_lock then [Event.unlock Mutex.id_create_mutex] else []
      let coda := if update then " WHERE uuid = " ++ uuidbuff ++ ";" else ");"
      let c : Columns :=
        if update then ⟨false, "UPDATE Atoms SET ", ""⟩
        else STMT false ⟨false, "INSERT INTO Atoms (", ") VALUES ("⟩ "uuid" uuidbuff
      let first : Except RuntimeException Columns × Int :=
        if update then (.ok c, st.max_height)
        else store_first_time env st.typemaps.storing_typemap atom aheight st.max_height c
      let st := { st with max_height := first.2 }
      match first.1 with
      | .error e => some (.error e, st.emit release)
      | .ok c =>
        match store_truth_value env update (env.getTruthValue atom) c with
        | .error e => some (.error e, st.emit release)
        | .ok c =>
          let qry := Statement.atoms (c.cols ++ c.vals ++ coda)
          let st := exec_qry env atom qry st
          let st := add_id_to_cache st uuid
          some (.ok (), st.emit release)

end ODBCAtomStorage

namespace ODBCAtomStorage

/-- The constant `STEP` of `load` and `loadType` (lines 1504, 1572). -/
def STEP : Nat := 12003

/-- The loop `for (rec = 0; rec <= max_nrec; rec += step)` of `get_ids`, `load`
and `loadType`, from `rec` on: the pairs `(rec, rec + step)` that the passes
print into their queries, in `unsigned long` arithmetic. The loop may not end;
`none` is a loop that has not ended after `fuel` passes. -/
def chunk_loop (step : Nat) (max_nrec : UUID) : Nat → UUID → Option (List (UUID × UUID))
  | 0, _ => none
  | fuel + 1, rec =>
    if rec ≤ max_nrec then
      match chunk_loop step max_nrec fuel ((rec + step) % 2 ^ 64) with
      | none => none
      | some chunks => some ((rec, (rec + step) % 2 ^ 64) :: chunks)
    else some []

/-- The method `ODBCAtomStorage::getMaxObservedUUID` (lines 1786-1796) on the
column `uuid` of the table `Atoms`: the greatest, 0 for an empty table. -/
def getMaxObservedUUID (Atoms_uuid : List UUID) (st : Storage) : UUID × Storage :=
  (Atoms_uuid.foldl max 0,
    st.emit [Event.get_conn, Event.exec Statement.select_max_uuid, Event.put_conn])

/-- A row of the table `Atoms`, by the columns that the loaders read. A column
holds the value that `create_atom_column_cb` reads from its text: `strtoul` of
the text for `uuid`, `atoi` of the text for `type` and `tv_type`, the text
itself for `name`, for `outgoing` (`none` is the SQL NULL of a node) and for
the three `stv_` columns; `height` holds the value that the queries compare. -/
structure Row where
  uuid : UUID
  type : Int
  name : String
  outgoing : Option String
  height : Int
  tv_type : Int
  stv_mean : String
  stv_confidence : String
  stv_count : String
  deriving DecidableEq, Repr

/-- A query of `load`, `SELECT * FROM Atoms WHERE height = %d AND uuid > %lu
AND uuid <= %lu;` (`type = none`), or of `loadType`, the same with
`type = %d AND` in front (`type = some _`). -/
structure ChunkQuery where
  type : Option Int
  height : Int
  lo : UUID
  hi : UUID
  deriving DecidableEq, Repr

/-- The rows that a chunk query selects. -/
def ChunkQuery.selects (q : ChunkQuery) (r : Row) : Bool :=
  (match q.type with
   | none => true
   | some t => decide (r.type = t)) &&
  decide (r.height = q.height) && decide (q.lo < r.uuid) && decide (r.uuid ≤ q.hi)

/-- The C library predicate `isspace` in the "C" locale. -/
def isspace (c : Char) : Bool :=
  c.toNat = 32 || (9 ≤ c.toNat && c.toNat ≤ 13)

/-- The digits that `strtoul` reads in base 10, from the value `acc` read so
far: the value and the text from the first character that is not a digit. -/
def strtoul_digits : List Char → Nat → Nat × List Char
  | [], acc => (acc, [])
  | c :: cs, acc =>
    if c.isDigit then strtoul_digits cs (acc * 10 + (c.toNat - 48))
    else (acc, c :: cs)

/-- The sign that `strtoul` reads in front of the digits: whether it is a
minus sign, and the text after it. -/
def strtoul_sign (s : List Char) : Bool × List Char :=
  match s with
  | '-' :: r => (true, r)
  | '+' :: r => (false, r)
  | _ => (false, s)

/-- The C library function `strtoul(nptr, &endptr, 10)` on a C string: white
space is skipped, a sign is read, then the digits; the value is `ULONG_MAX`
when it does not fit 64 bits and is negated as an `unsigned long` after a minus
sign; with no digit the value is 0 and `endptr` is `nptr`. The result is the
value and `endptr`. -/
def strtoul (nptr : List Char) : Nat × List Char :=
  let s := nptr.dropWhile isspace
  let signed := strtoul_sign s
  match signed.2 with
  | [] => (0, nptr)
  | c :: _ =>
    if c.isDigit then
      let r := strtoul_digits signed.2 0
      (if 2 ^ 64 ≤ r.1 then 2 ^ 64 - 1
       else if signed.1 then (2 ^ 64 - r.1) % 2 ^ 64 else r.1, r.2)
    else (0, nptr)

/-- The loop `while (p)` of `makeAtom` (lines 1405-1412) on the C string at
`p`, with the outgoing set read so far. Every pass moves `p` forward, so the
length of the text is fuel enough. -/
def makeAtom_oset_loop : Nat → List Char → List UUID → List UUID
  | 0, _, oset => oset
  | fuel + 1, p, oset =>
    match p with
    | [] => oset
    | c :: p1 =>
      if c = '\x7d' then oset
      else
        let r := strtoul p1
        makeAtom_oset_loop fuel r.2 (oset ++ [r.1])

/-- The branch of `makeAtom` that reads the outgoing set of a link from the
column `outgoing` (lines 1402-1413); `none` is the null pointer. -/
def makeAtom_oset (outlist : Option String) : List UUID :=
  match outlist with
  | none => []
  | some s => makeAtom_oset_loop s.data.length s.data []

/-- The constant `BUFSZ` (line 372). -/
def BUFSZ : Nat := 250

/-- The C library function `snprintf(buff, size, ...)` on the text that the
format and the arguments give: the characters left in `buff` (at most
`size - 1`) and the value returned, the length of the whole text. -/
def snprintf (size : Nat) (text : List Char) : List Char × Int :=
  (text.take (size - 1), (text.length : Int))

/-- The text of the format of `getNode` (lines 1328-1329), `%hu` printing its
argument as an `unsigned short`. -/
def getNode_text (storing_typemap : Nat → Int) (t : AtomType) (str : List Char) : List Char :=
  "SELECT * FROM Atoms WHERE type = ".data ++
    (Nat.repr (storing_typemap t % 65536).toNat).data ++
    " AND name = $ocp$".data ++ str ++ "$ocp$ ;".data

/-- What `getNode` does with the database: it reports a buffer overflow and
returns the undefined handle, or it executes the query left in `buff`. -/
inductive GetNode where
  | overflow
  | query (buff : List Char)
  deriving DecidableEq, Repr

/-- The method `ODBCAtomStorage::getNode` (lines 1322-1345) up to the query;
the name `str` is a C string, `none` is the abort of `setup_typemap`. -/
def getNode (cs : ClassServer) (TYPEMAP_SZ : Nat) (tm : TypeMaps) (t : AtomType)
    (str : List Char) : Option GetNode :=
  match setup_typemap cs TYPEMAP_SZ tm with
  | none => none
  | some tm =>
    let r := snprintf (4 * BUFSZ) (getNode_text tm.storing_typemap t str)
    let buff := r.1
    let nc := r.2
    if ((40 * BUFSZ - 1 : Nat) : Int) ≤ nc then some GetNode.overflow
    else some (GetNode.query buff)

end ODBCAtomStorage

namespace ODBCAtomStorage

mutual
/-- The post-order traversal of a term in the words of the spec: the
traversals of the children, left to right, then the term itself. -/
def post_order : Atom → List Atom
  | Atom.node t n => [Atom.node t n]
  | Atom.link t out => post_order_seq out ++ [Atom.link t out]
/-- The post-order traversals of a sequence of terms, one after the other. -/
def post_order_seq : HandleSeq → List Atom
  | [] => []
  | h :: rest => post_order h ++ post_order_seq rest
end

/-- The array text of the spec after its first UUID: for every further UUID
a comma, `spaces` blanks and the decimal UUID, then the closing brace. -/
def array_tail (spaces : Nat) : List UUID → String
  | [] => "\x7d"
  | u :: rest =>
    "," ++ String.mk (List.replicate spaces ' ') ++ Nat.repr u ++ array_tail spaces rest

/-- The array text of the spec for the UUIDs `us`: an opening brace, the
decimal UUIDs in order, separated by a comma and `spaces` blanks, a closing
brace. -/
def array_text (spaces : Nat) : List UUID → String
  | [] => "\x7b\x7d"
  | u :: rest => "\x7b" ++ Nat.repr u ++ array_tail spaces rest

/-- The mutexes that the thread holds after an event, from those that it
held before. -/
def held_after (held : Mutex → Bool) : Event → Mutex → Bool
  | Event.lock m => fun x => if x = m then true else held x
  | Event.unlock m => fun x => if x = m then false else held x
  | _ => held

/-- The statements on the table `Atoms` that `do_store_single_atom` executes
in a sequence of events, in order. -/
def atoms_statements (log : List Event) : List String :=
  log.filterMap (fun e =>
    match e with
    | Event.exec (Statement.atoms qry) => some qry
    | _ => none)

/-- The statement is an `INSERT` into the table `Atoms`. -/
def is_INSERT (qry : String) : Bool := "INSERT INTO Atoms (".data.isPrefixOf qry.data

/-- The statement is an `UPDATE` of the table `Atoms`. -/
def is_UPDATE (qry : String) : Bool := "UPDATE Atoms SET ".data.isPrefixOf qry.data

/-- A run of stores of one atom, one after the other, from a state: for every
store the statements on `Atoms` that it executes, and the state at the end;
`none` when a store of the run throws or does not return. -/
def store_run (env : StoreEnv) (atom : Atom) :
    List Int → Storage → Option (List (List String) × Storage)
  | [], st => some ([], st)
  | aheight :: rest, st =>
    match do_store_single_atom env atom aheight st with
    | some (.ok (), st') =>
      match store_run env atom rest st' with
      | none => none
      | some (stmts, st'') =>
        some (atoms_statements (st'.log.drop st.log.length) :: stmts, st'')
    | _ => none

end ODBCAtomStorage

/-- A sample environment of the store: the sample class server with 8 type
codes, the length of the name as the UUID of a node and 100 plus the arity as
the UUID of a link, no truth value, no atom table, every statement
successful. -/
def sampleStoreEnv : ODBCAtomStorage.StoreEnv where
  cs := sampleClassServer
  TYPEMAP_SZ := 8
  addAtom := fun a =>
    match a with
    | Atom.node _ n => n.length
    | Atom.link _ out => 100 + out.length
  getTruthValue := fun _ => none
  getAtomTable := fun _ => none
  tvt_value := fun _ => 0
  exec_ok := fun _ => true

/-- The sample environment with a truth value of a type that the store does
not know on every atom. -/
def sampleStoreEnv_other : ODBCAtomStorage.StoreEnv :=
  { sampleStoreEnv with
    getTruthValue := fun _ =>
      some ⟨ODBCAtomStorage.TruthValueType.other 4, "", "", "", "", "", ""⟩ }

/-- A sample store: the sample type maps not yet loaded, the UUID 7 known,
no UUID in creation, nothing logged. -/
def sampleStorage : ODBCAtomStorage.Storage :=
  ⟨sampleTypeMaps, {7}, true, ∅, ∅, 0, []⟩

namespace ODBCAtomStorage

/-- The events that touch neither `id_create_mutex` nor `id_cache_mutex` and
execute no statement on the table `Atoms`. -/
def Event.is_aux : Event → Bool
  | Event.lock Mutex.table_cache_mutex => true
  | Event.unlock Mutex.table_cache_mutex => true
  | Event.get_conn => true
  | Event.put_conn => true
  | Event.exec (Statement.atoms _) => false
  | Event.exec _ => true
  | _ => false

/-- The mutexes that the thread holds after a sequence of events. -/
def held_all (held : Mutex → Bool) (evs : List Event) : Mutex → Bool :=
  evs.foldl held_after held

end ODBCAtomStorage

namespace ODBCAtomStorage

/-- The truth value is absent or of one of the five types that the store
names. -/
def tv_known : Option TruthValue → Bool
  | none => true
  | some v =>
    match v.getType with
    | TruthValueType.other _ => false
    | _ => true

end ODBCAtomStorage

namespace ODBCAtomStorage

/-- The columns `c'` are the columns `c` with text added at the end of `cols`
and at the end of `vals`. -/
def Columns.Grows (c c' : Columns) : Prop :=
  ∃ x y, c'.cols = c.cols ++ x ∧ c'.vals = c.vals ++ y

end ODBCAtomStorage

namespace ODBCAtomStorage

/-- Equality of the outcomes of `do_store_single_atom` is decidable. -/
instance : DecidableEq (Except RuntimeException Unit)
  | .ok _, .ok _ => isTrue rfl
  | .error a, .error b =>
    if h : a = b then isTrue (by rw [h]) else isFalse (by intro e; cases e; exact h rfl)
  | .ok _, .error _ => isFalse (by intro e; cases e)
  | .error _, .ok _ => isFalse (by intro e; cases e)

end ODBCAtomStorage

namespace ODBCAtomStorage

/-- The `SELECT` statements of the loaders. -/
inductive Select where
  /-- The text `SELECT height FROM Atoms ORDER BY height DESC LIMIT 1;`. -/
  | max_height
  /-- A query of the loops of `load` and `loadType`. -/
  | chunk (q : ChunkQuery)
  /-- The text `SELECT * FROM Atoms WHERE uuid = %lu;` of `petAtom`. -/
  | by_uuid (uuid : UUID)
  deriving DecidableEq, Repr

/-- What the loaders do with the table `Atoms`: a statement is executed, or
`foreach_row` hands a row of the record set to the row callback. -/
inductive LoadEvent where
  | exec (s : Select)
  | row (r : Row)
  deriving DecidableEq, Repr

/-- The exceptions thrown by `makeAtom`, one per throw site. -/
inductive MakeAtomException where
  /-- The message "Fatal Error: OpenCog does not have a type called %s", with
  `db_typename[rp.itype]`. -/
  | no_such_type (tname : Option String)
  /-- The message "Error: makeAtom: Unknown truth value type". -/
  | unknown_truth_value_type
  deriving DecidableEq, Repr

/-- Modelled from the spec: the staging record `PseudoAtom` (`AtomStorage.h`
is not among the sources): type, UUID, name, the UUIDs of the outgoing set and
the truth value, which is the type and the arguments of `createTV`. -/
structure PseudoAtom where
  type : AtomType
  uuid : UUID
  name : String
  oset : List UUID
  tv : Option (TruthValueType × List String)
  deriving DecidableEq, Repr

/-- The call `createPseudo()`: a record with nothing set. -/
def createPseudo : PseudoAtom := ⟨0, 0, "", [], none⟩

/-- The members of `Response` that the atom callbacks read and write (lines
73-84). -/
structure Response where
  uuid : UUID
  itype : Int
  name : String
  tv_type : Int
  mean : String
  confidence : String
  count : String
  outlist : Option String
  height : Int
  deriving DecidableEq, Repr

/-- The constructor `Response()` (lines 86-91); only `itype` is set by it, and
the other members stand here with empty values. -/
def Response.new : Response := ⟨0, 0, "", 0, "", "", "", none, 0⟩

/-- The method `Response::create_atom_cb` (lines 132-138) on a row of a
`SELECT *`: `create_atom_column_cb` (lines 98-131) is called on every column
and sets every member but `height`. -/
def Response.create_atom_cb (rp : Response) (row : Row) : Response :=
  { rp with
    itype := row.type,
    name := row.name,
    outlist := row.outgoing,
    tv_type := row.tv_type,
    mean := row.stv_mean,
    confidence := row.stv_confidence,
    count := row.stv_count,
    uuid := row.uuid }

/-- Modelled from the spec: the identifier buffer `TLB` (section 4.F; `TLB.h`
is not among the sources). The buffer holds the bindings of UUIDs to atoms in
the order they were made, and the next UUID that the allocator issues. -/
structure TLB where
  bound : List (UUID × Atom)
  next : UUID

/-- Modelled from the spec: `getAtom(uuid)`, the direct lookup, falling back on
the resolver that is installed. -/
def TLB.getAtom (t : TLB) (resolver : UUID → Option Atom) (uuid : UUID) : Option Atom :=
  match t.bound.find? (fun p => p.1 = uuid) with
  | some p => some p.2
  | none => resolver uuid

/-- Modelled from the spec: `addAtom(atom, candidate)`: the UUID of the atom if
it has one; else the next free UUID when the candidate is the invalid UUID,
and the candidate otherwise, is bound to the atom. -/
def TLB.addAtom (t : TLB) (INVALID_UUID : UUID) (atom : Atom) (candidate : UUID) : UUID × TLB :=
  match t.bound.find? (fun p => p.2 = atom) with
  | some p => (p.1, t)
  | none =>
    if candidate = INVALID_UUID then
      (t.next, ⟨t.bound ++ [(t.next, atom)], t.next + 1⟩)
    else (candidate, ⟨t.bound ++ [(candidate, atom)], t.next⟩)

/-- Modelled from the spec: `reserve_upto(n)`: the allocator issues no UUID up
to `n`. -/
def TLB.reserve_upto (t : TLB) (n : UUID) : TLB :=
  { t with next := max t.next (n + 1) }

/-- What the loaders read from outside `ODBCAtomStorage.cc`, on top of what the
store reads: whether a type is a node type (`classserver().isA(t, NODE)`, which
is what `classserver().isNode(t)` tests), the constant `TLB::INVALID_UUID` and
the resolver installed in the identifier buffer. -/
structure LoadEnv where
  store : StoreEnv
  isNode : AtomType → Bool
  INVALID_UUID : UUID
  resolver : UUID → Option Atom

/-- The state that the loaders read and write: the members of the store,
`load_count`, the identifier buffer `_tlbuf`, the atoms of the atom table that
is loaded, in the order they were added, and the events of the loaders on the
table `Atoms`, in program order. -/
structure LoadState where
  store : Storage
  load_count : Nat
  tlbuf : TLB
  table : List Atom
  trace : List LoadEvent

/-- The loader executes a statement, or a row is handed to the row callback. -/
def LoadState.emit (st : LoadState) (evs : List LoadEvent) : LoadState :=
  { st with trace := st.trace ++ evs }

/-- The `switch (rp.tv_type)` of `makeAtom` (lines 1421-1454): the truth value
that is created, `some none` when the atom keeps the default one, and `none`
for the `default:` label, which throws. -/
def makeAtom_tv (env : LoadEnv) (rp : Response) : Option (Option (TruthValueType × List String)) :=
  if rp.tv_type = env.store.tvt_value TruthValueType.NULL_TRUTH_VALUE then some none
  else if rp.tv_type = env.store.tvt_value TruthValueType.SIMPLE_TRUTH_VALUE then
    some (some (TruthValueType.SIMPLE_TRUTH_VALUE, [rp.mean, rp.confidence]))
  else if rp.tv_type = env.store.tvt_value TruthValueType.COUNT_TRUTH_VALUE then
    some (some (TruthValueType.COUNT_TRUTH_VALUE, [rp.mean, rp.confidence, rp.count]))
  else if rp.tv_type = env.store.tvt_value TruthValueType.INDEFINITE_TRUTH_VALUE then
    some (some (TruthValueType.INDEFINITE_TRUTH_VALUE, [rp.mean, rp.count, rp.confidence]))
  else if rp.tv_type = env.store.tvt_value TruthValueType.PROBABILISTIC_TRUTH_VALUE then
    some (some (TruthValueType.PROBABILISTIC_TRUTH_VALUE, [rp.mean, rp.confidence, rp.count]))
  else none

/-- The method `ODBCAtomStorage::makeAtom` (lines 1384-1464). The result is
`none` when `rp.itype` is not an index of the array `loading_typemap`, a read
that has no defined result; an exception leaves the state as it was. -/
def makeAtom (env : LoadEnv) (rp : Response) (uuid : UUID) (st : LoadState) :
    Option (Except MakeAtomException PseudoAtom × LoadState) :=
  if rp.itype < 0 ∨ (env.store.TYPEMAP_SZ : Int) ≤ rp.itype then none
  else
    let realtype := st.store.typemaps.loading_typemap rp.itype.toNat
    if env.store.cs.NOTYPE = realtype then
      some (.error (MakeAtomException.no_such_type
        (st.store.typemaps.db_typename rp.itype.toNat)), st)
    else
      let atom := createPseudo
      let atom :=
        if 0 = rp.height ∨ (-1 = rp.height ∧ env.isNode realtype = true) then
          { atom with name := rp.name }
        else { atom with oset := atom.oset ++ makeAtom_oset rp.outlist }
      let atom := { atom with type := realtype, uuid := uuid }
      match makeAtom_tv env rp with
      | none => some (.error MakeAtomException.unknown_truth_value_type, st)
      | some tv =>
        let atom :=
          match tv with
          | none => atom
          | some v => { atom with tv := some v }
        let st := { st with load_count := (st.load_count + 1) % 2 ^ 64 }
        let st := { st with store := add_id_to_cache st.store uuid }
        some (.ok atom, st)

/-- The method `ODBCAtomStorage::getAtom` (lines 1245-1268) for a query that
selects the rows `rows`; the pseudo atom is `none` for the null pointer
returned when no row came back. An exception of `makeAtom` leaves the method
before the connection is put back. -/
def getAtom (env : LoadEnv) (query : Select) (rows : List Row) (height : Int)
    (st : LoadState) : Option (Except MakeAtomException (Option PseudoAtom) × LoadState) :=
  let st := { st with store := st.store.emit [Event.get_conn] }
  let rp := { Response.new with uuid := env.INVALID_UUID }
  let st := st.emit [LoadEvent.exec query]
  let rp := rows.foldl Response.create_atom_cb rp
  if rp.uuid = env.INVALID_UUID then
    some (.ok none, { st with store := st.store.emit [Event.put_conn] })
  else
    let rp := { rp with height := height }
    match makeAtom env rp rp.uuid st with
    | none => none
    | some (.error e, st) => some (.error e, st)
    | some (.ok atom, st) =>
      some (.ok (some atom), { st with store := st.store.emit [Event.put_conn] })

/-- The method `ODBCAtomStorage::petAtom` (lines 1270-1277) on the table
`Atoms`; `none` when `setup_typemap` aborts or `makeAtom` has no result. -/
def petAtom (env : LoadEnv) (Atoms : List Row) (uuid : UUID) (st : LoadState) :
    Option (Except MakeAtomException (Option PseudoAtom) × LoadState) :=
  match Storage.setup_typemap env.store st.store with
  | none => none
  | some store =>
    getAtom env (Select.by_uuid uuid) (Atoms.filter (fun r => r.uuid = uuid)) (-1)
      { st with store := store }

/-- The loop of `get_recursive_if_not_exists` over the outgoing set (lines
207-218), with the recursive call as `self`: a UUID that the identifier buffer
knows gives its atom, any other is fetched with `petAtom` and resolved by the
recursive call. The result is `none` when `petAtom` returns the null pointer,
which the recursive call dereferences, and when a call does not return. -/
def get_recursive_if_not_exists_loop (env : LoadEnv) (Atoms : List Row)
    (self : PseudoAtom → LoadState → Option (Except MakeAtomException Atom × LoadState)) :
    List UUID → HandleSeq → LoadState →
      Option (Except MakeAtomException HandleSeq × LoadState)
  | [], resolved_oset, st => some (.ok resolved_oset, st)
  | idu :: rest, resolved_oset, st =>
    match st.tlbuf.getAtom env.resolver idu with
    | some h =>
      get_recursive_if_not_exists_loop env Atoms self rest (resolved_oset ++ [h]) st
    | none =>
      match petAtom env Atoms idu st with
      | none => none
      | some (.error e, st) => some (.error e, st)
      | some (.ok none, _) => none
      | some (.ok (some po), st) =>
        match self po st with
        | none => none
        | some (.error e, st) => some (.error e, st)
        | some (.ok ra, st) =>
          get_recursive_if_not_exists_loop env Atoms self rest (resolved_oset ++ [ra]) st

/-- The method `Response::get_recursive_if_not_exists` (lines 198-222) on the
table `Atoms`, with the nesting depth of its recursion bounded by `fuel`;
`none` is a call that does not return within this depth, or not at all. -/
def get_recursive_if_not_exists (env : LoadEnv) (Atoms : List Row) :
    Nat → PseudoAtom → LoadState → Option (Except MakeAtomException Atom × LoadState)
  | 0, _, _ => none
  | fuel + 1, p, st =>
    if env.isNode p.type then
      let node := Atom.node p.type p.name
      some (.ok node, { st with tlbuf := (st.tlbuf.addAtom env.INVALID_UUID node p.uuid).2 })
    else
      match get_recursive_if_not_exists_loop env Atoms
          (get_recursive_if_not_exists env Atoms fuel) p.oset [] st with
      | none => none
      | some (.error e, st) => some (.error e, st)
      | some (.ok resolved_oset, st) =>
        let link := Atom.link p.type resolved_oset
        some (.ok link, { st with tlbuf := (st.tlbuf.addAtom env.INVALID_UUID link p.uuid).2 })

/-- Modelled from the spec: `table->add(atom, true)` on the atoms of the table
(`AtomTable.h` is not among the sources): an atom that the table holds is not
added again. -/
def table_add (table : List Atom) (atom : Atom) : List Atom :=
  if atom ∈ table then table else table ++ [atom]

/-- The row callback `Response::load_all_atoms_cb` (lines 142-151) of `load`,
on the response `rp` of the loader and the row that is read. -/
def load_all_atoms_cb (env : LoadEnv) (Atoms : List Row) (fuel : Nat) (rp : Response)
    (row : Row) (st : LoadState) : Option (Except MakeAtomException Unit × LoadState) :=
  let rp := rp.create_atom_cb row
  match makeAtom env rp rp.uuid st with
  | none => none
  | some (.error e, st) => some (.error e, st)
  | some (.ok p, st) =>
    match get_recursive_if_not_exists env Atoms fuel p st with
    | none => none
    | some (.error e, st) => some (.error e, st)
    | some (.ok atom, st) => some (.ok (), { st with table := table_add st.table atom })

/-- The row callback `Response::load_if_not_exists_cb` (lines 158-177) of
`loadType`; `table->getHandle(atom)` is null when the table does not hold the
atom. -/
def load_if_not_exists_cb (env : LoadEnv) (Atoms : List Row) (fuel : Nat) (rp : Response)
    (row : Row) (st : LoadState) : Option (Except MakeAtomException Unit × LoadState) :=
  let rp := rp.create_atom_cb row
  if (st.tlbuf.getAtom env.resolver rp.uuid).isNone then
    match makeAtom env rp rp.uuid st with
    | none => none
    | some (.error e, st) => some (.error e, st)
    | some (.ok p, st) =>
      match get_recursive_if_not_exists env Atoms fuel p st with
      | none => none
      | some (.error e, st) => some (.error e, st)
      | some (.ok atom, st) =>
        if atom ∈ st.table then some (.ok (), st)
        else
          some (.ok (),
            { st with
              tlbuf := (st.tlbuf.addAtom env.INVALID_UUID atom rp.uuid).2,
              table := table_add st.table atom })
  else some (.ok (), st)

/-- The call `rs->foreach_row(cb, &rp)` on the rows of a record set: every row
is handed to the row callback, in order; an exception of the callback is not
caught and ends the walk. -/
def foreach_row (cb : Response → Row → LoadState → Option (Except MakeAtomException Unit × LoadState))
    (rp : Response) : List Row → LoadState → Option (Except MakeAtomException Unit × LoadState)
  | [], st => some (.ok (), st)
  | row :: rest, st =>
    match cb rp row (st.emit [LoadEvent.row row]) with
    | none => none
    | some (.error e, st) => some (.error e, st)
    | some (.ok (), st) => foreach_row cb rp rest st

/-- The loop `for (rec = 0; rec <= max_nrec; rec += STEP)` of `load` (lines
1505-1516, `type = none`) and of `loadType` (lines 1573-1585, `type = some
db_atom_type`) from `rec` on, at the height `hei`: the query of the pass is
executed and its rows go through the row callback. The arithmetic is that of
`unsigned long`; `none` is a loop that has not ended after `fuel` passes, or a
callback that does not return. -/
def load_chunks (cb : Response → Row → LoadState → Option (Except MakeAtomException Unit × LoadState))
    (Atoms : List Row) (type : Option Int) (hei : Int) (max_nrec : UUID) :
    Nat → UUID → LoadState → Option (Except MakeAtomException Unit × LoadState)
  | 0, _, _ => none
  | fuel + 1, rec, st =>
    if rec ≤ max_nrec then
      let q : ChunkQuery := ⟨type, hei, rec, (rec + STEP) % 2 ^ 64⟩
      let rp := { Response.new with height := hei }
      let st := st.emit [LoadEvent.exec (Select.chunk q)]
      match foreach_row cb rp (Atoms.filter (fun r => q.selects r)) st with
      | none => none
      | some (.error e, st) => some (.error e, st)
      | some (.ok (), st) => load_chunks cb Atoms type hei max_nrec fuel ((rec + STEP) % 2 ^ 64) st
    else some (.ok (), st)

/-- The loop `for (int hei=0; hei<=max_height; hei++)` of `load` (lines
1484-1519) and of `loadType` (lines 1551-1588) from `hei` on, with `passes`
passes left. -/
def load_heights (cb : Response → Row → LoadState → Option (Except MakeAtomException Unit × LoadState))
    (Atoms : List Row) (type : Option Int) (max_nrec : UUID) (fuel : Nat) :
    Nat → Int → LoadState → Option (Except MakeAtomException Unit × LoadState)
  | 0, _, st => some (.ok (), st)
  | passes + 1, hei, st =>
    match load_chunks cb Atoms type hei max_nrec fuel 0 st with
    | none => none
    | some (.error e, st) => some (.error e, st)
    | some (.ok (), st) => load_heights cb Atoms type max_nrec fuel passes (hei + 1) st

/-- The method `ODBCAtomStorage::getMaxObservedHeight` (lines 1796-1806) on the
table `Atoms`: the greatest height, 0 for an empty table. -/
def getMaxObservedHeight (Atoms : List Row) (st : LoadState) : Int × LoadState :=
  let st := { st with store := st.store.emit [Event.get_conn] }
  let st := st.emit [LoadEvent.exec Select.max_height]
  let intval : Int :=
    match Atoms.map (fun r => r.height) with
    | [] => 0
    | h :: rest => rest.foldl max h
  (intval, { st with store := st.store.emit [Event.put_conn] })

/-- The statements of `load` before its loops (lines 1470-1482) and of
`loadType` before its loops (lines 1530-1549, `atom_type = some _`): the value
of `max_nrec` and the state; `none` is the abort of `setup_typemap`. -/
def load_begin (env : LoadEnv) (Atoms : List Row) (atom_type : Option AtomType)
    (st : LoadState) : Option (UUID × LoadState) :=
  let r := getMaxObservedUUID (Atoms.map (fun r => r.uuid)) st.store
  let max_nrec := r.1
  let st := { st with store := r.2 }
  let st := { st with tlbuf := st.tlbuf.reserve_upto max_nrec }
  let st := { st with load_count := 0 }
  let st :=
    match atom_type with
    | none =>
      let r := getMaxObservedHeight Atoms st
      { r.2 with store := { r.2.store with max_height := r.1 } }
    | some t =>
      if env.isNode t then { st with store := { st.store with max_height := 0 } }
      else
        let r := getMaxObservedHeight Atoms st
        { r.2 with store := { r.2.store with max_height := r.1 } }
  match Storage.setup_typemap env.store st.store with
  | none => none
  | some store => some (max_nrec, { st with store := store.emit [Event.get_conn] })

/-- The statements of `load` and of `loadType` after their loops (lines
1520-1525, 1589-1594): the connection is put back, and `table.barrier()`
changes none of the members above; an exception of the loops leaves the method
before them. -/
def load_end (r : Option (Except MakeAtomException Unit × LoadState)) :
    Option (Except MakeAtomException Unit × LoadState) :=
  match r with
  | none => none
  | some (.error e, st) => some (.error e, st)
  | some (.ok (), st) => some (.ok (), { st with store := st.store.emit [Event.put_conn] })

/-- The method `ODBCAtomStorage::load` (lines 1468-1526) on the table `Atoms`.
The fuel bounds the passes of the loop over the UUIDs and the depth of the
recursion of the row callback. -/
def load (env : LoadEnv) (fuel : Nat) (Atoms : List Row) (st : LoadState) :
    Option (Except MakeAtomException Unit × LoadState) :=
  match load_begin env Atoms none st with
  | none => none
  | some (max_nrec, st) =>
    load_end (load_heights (load_all_atoms_cb env Atoms fuel) Atoms none max_nrec fuel
      (st.store.max_height + 1).toNat 0 st)

/-- The method `ODBCAtomStorage::loadType` (lines 1528-1595) on the table
`Atoms`. -/
def loadType (env : LoadEnv) (fuel : Nat) (Atoms : List Row) (atom_type : AtomType)
    (st : LoadState) : Option (Except MakeAtomException Unit × LoadState) :=
  match load_begin env Atoms (some atom_type) st with
  | none => none
  | some (max_nrec, st) =>
    let db_atom_type := st.store.typemaps.storing_typemap atom_type
    load_end (load_heights (load_if_not_exists_cb env Atoms fuel) Atoms (some db_atom_type)
      max_nrec fuel (st.store.max_height + 1).toNat 0 st)

/-- The chunk queries among the events of a loader, in order. -/
def trace_queries (evs : List LoadEvent) : List ChunkQuery :=
  evs.filterMap (fun e =>
    match e with
    | LoadEvent.exec (Select.chunk q) => some q
    | _ => none)

/-- The rows handed to the row callback among the events of a loader, in
order. -/
def trace_rows (evs : List LoadEvent) : List Row :=
  evs.filterMap (fun e =>
    match e with
    | LoadEvent.row r => some r
    | _ => none)

/-- The queries of the loops for the chunks `chunks` of UUIDs, at `passes`
heights from `hei` on: height by height, and chunk by chunk within a
height. -/
def height_queries (type : Option Int) (chunks : List (UUID × UUID)) : Nat → Int → List ChunkQuery
  | 0, _ => []
  | passes + 1, hei =>
    chunks.map (fun chunk => ⟨type, hei, chunk.1, chunk.2⟩) ++
      height_queries type chunks passes (hei + 1)

/-- A run of queries, one after the other: the query is executed and every row
of the table that it selects is handed to the row callback; the run ends at
the first row on which the callback throws, and has no result when the
callback has none. -/
def run_queries (cb : Response → Row → LoadState → Option (Except MakeAtomException Unit × LoadState))
    (Atoms : List Row) : List ChunkQuery → LoadState →
      Option (Except MakeAtomException Unit × LoadState)
  | [], st => some (.ok (), st)
  | q :: rest, st =>
    match foreach_row cb { Response.new with height := q.height }
        (Atoms.filter (fun r => q.selects r)) (st.emit [LoadEvent.exec (Select.chunk q)]) with
    | none => none
    | some (.error e, st) => some (.error e, st)
    | some (.ok (), st) => run_queries cb Atoms rest st

/-- Equality of the outcomes of the loaders is decidable. -/
instance : DecidableEq (Except MakeAtomException Unit)
  | .ok _, .ok _ => isTrue rfl
  | .error a, .error b =>
    if h : a = b then isTrue (by rw [h]) else isFalse (by intro e; cases e; exact h rfl)
  | .ok _, .error _ => isFalse (by intro e; cases e)
  | .error _, .ok _ => isFalse (by intro e; cases e)

end ODBCAtomStorage

/-- A sample environment of the loaders: the sample environment of the store,
the local type 1 ("Node") as the only node type, the greatest `unsigned long`
as the invalid UUID, and no resolver. -/
def sampleLoadEnv : ODBCAtomStorage.LoadEnv where
  store := sampleStoreEnv
  isNode := fun t => t == 1
  INVALID_UUID := 2 ^ 64 - 1
  resolver := fun _ => none

/-- A sample state of the loaders: the sample store, nothing loaded, an empty
identifier buffer, an empty atom table, no event. -/
def sampleLoadState : ODBCAtomStorage.LoadState :=
  ⟨sampleStorage, 0, ⟨[], 1⟩, [], []⟩

/-- A sample row of a node: type code 0, which the sample maps load as the
local type 1, height 0, the truth value type 0. -/
def sampleRow_node (uuid : Nat) (name : String) : ODBCAtomStorage.Row :=
  ⟨uuid, 0, name, none, 0, 0, "", "", ""⟩

/-- A sample row of a link: type code 1, which the sample maps load as the
local type 2, the text of the outgoing set, the height, the truth value
type 0. -/
def sampleRow_link (uuid : Nat) (outgoing : String) (height : Int) : ODBCAtomStorage.Row :=
  ⟨uuid, 1, "", some outgoing, height, 0, "", "", ""⟩

namespace ODBCAtomStorage

/-- The chunks of UUIDs up to `M`: the pairs `(k * STEP, k * STEP + STEP)` for
`k` from 0 to `M / STEP`. -/
def chunks_upto (M : UUID) : List (UUID × UUID) :=
  (List.range (M / STEP + 1)).map (fun k => (k * STEP, k * STEP + STEP))

/-- The queries of a scan of the heights 0 to `H` over the UUIDs up to `M`:
height by height, and within a height the chunks `uuid > k * STEP AND uuid <=
k * STEP + STEP` in ascending order, each with the test on the type when there
is one. -/
def load_queries (type : Option Int) (M : UUID) (H : Int) : List ChunkQuery :=
  height_queries type (chunks_upto M) (H + 1).toNat 0

/-- The rows of the table that a run of queries selects, query by query. -/
def selected_rows (Atoms : List Row) (qs : List ChunkQuery) : List Row :=
  qs.flatMap (fun q => Atoms.filter (fun r => q.selects r))

/-- The events between two states of a loader hold no chunk query and no row
handed to the row callback. -/
def LoadState.Fetches (st st' : LoadState) : Prop :=
  ∃ evs, st'.trace = st.trace ++ evs ∧ trace_queries evs = [] ∧ trace_rows evs = []

end ODBCAtomStorage

/-- A sample table `Atoms`: the nodes 1 and 2, a row of UUID 3 whose type code
2 is that of the type "Foo", which the sample class server does not have, the
node 4, and the node 12004 of the second chunk. -/
def sampleAtoms_foreign : List ODBCAtomStorage.Row :=
  [sampleRow_node 1 "a", sampleRow_node 2 "b", ⟨3, 2, "c", none, 0, 0, "", "", ""⟩,
    sampleRow_node 4 "d", sampleRow_node 12004 "e"]

/-- A sample table `Atoms`: the nodes 1 and 2, the link 3 of height 1 over
them, and the node 12004 of the second chunk. -/
def sampleAtoms : List ODBCAtomStorage.Row :=
  [sampleRow_node 1 "a", sampleRow_node 2 "b", sampleRow_link 3 "\x7b1, 2\x7d" 1,
    sampleRow_node 12004 "c"]

/-- The sample environment of the loaders with two type codes only. -/
def sampleLoadEnv_small : ODBCAtomStorage.LoadEnv :=
  { sampleLoadEnv with store := { sampleStoreEnv with TYPEMAP_SZ := 2 } }

/-- A sample state of the loaders on a database whose `TypeCodes` has the rows
(0, "Foo") and (1, "Link"), so that both type codes are taken. -/
def sampleLoadState_small : ODBCAtomStorage.LoadState :=
  { sampleLoadState with
    store := { sampleStorage with
      typemaps := ⟨false, fun _ => 0, fun _ => 0, fun _ => none, [(0, "Foo"), (1, "Link")]⟩ } }

end opencog

/-! ## Lemmas on the maps and on `substitute_scoped` -/

namespace opencog

open FreeVariables
open ODBCAtomStorage

theorem find_erase {β : Type} (m : HandleMapOf β) (a k : Atom) :
    (m.erase a).find k = if k = a then none else m.find k := by
  induction m with
  | nil => simp [HandleMapOf.erase, HandleMapOf.find]
  | cons p rest ih =>
    obtain ⟨k', v⟩ := p
    simp only [HandleMapOf.erase] at ih ⊢
    by_cases hk : k' = a
    · subst hk
      simp only [List.filter, decide_True, Bool.not_true, ih, HandleMapOf.find]
      by_cases h2 : k = k'
      · simp [h2]
      · have : ¬ k' = k := fun e => h2 e.symm
        simp [h2, this]
    · simp only [List.filter, hk, decide_False, Bool.not_false, HandleMapOf.find, ih]
      by_cases h2 : k' = k
      · subst h2; simp [hk]
      · simp [h2]

theorem find_eq_none_iff {β : Type} (m : HandleMapOf β) (k : Atom) :
    m.find k = none ↔ ∀ p ∈ m, p.1 ≠ k := by
  induction m with
  | nil => simp [HandleMapOf.find]
  | cons p rest ih =>
    obtain ⟨k', v⟩ := p
    by_cases hk : k' = k
    · simp [HandleMapOf.find, hk]
    · simp [HandleMapOf.find, hk, ih]

theorem find_some_mem {β : Type} (m : HandleMapOf β) (k : Atom) (v : β)
    (h : m.find k = some v) : (k, v) ∈ m := by
  induction m with
  | nil => simp [HandleMapOf.find] at h
  | cons p rest ih =>
    obtain ⟨k', v'⟩ := p
    by_cases hk : k' = k
    · simp [HandleMapOf.find, hk] at h
      simp [hk, h]
    · simp [HandleMapOf.find, hk] at h
      exact List.mem_cons_of_mem _ (ih h)

theorem hidden_map_eq_filter (m : IndexMap) (vees : HandleSeq) :
    hidden_map m vees = m.filter (fun p => !decide (p.1 ∈ vees)) := by
  unfold hidden_map
  induction vees generalizing m with
  | nil => simp
  | cons v rest ih =>
    rw [List.foldl_cons, ih]
    unfold HandleMapOf.erase
    rw [List.filter_filter]
    congr 1
    funext p
    by_cases h1 : p.1 = v <;> by_cases h2 : p.1 ∈ rest <;> simp [h1, h2]

theorem find_hidden_map (m : IndexMap) (vees : HandleSeq) (k : Atom) :
    (hidden_map m vees).find k = if k ∈ vees then none else m.find k := by
  unfold hidden_map
  induction vees generalizing m with
  | nil => simp
  | cons v rest ih =>
    simp only [List.foldl_cons, ih, find_erase, List.mem_cons]
    by_cases h1 : k = v <;> by_cases h2 : k ∈ rest <;> simp [h1, h2]

theorem substitute_scoped_found (env : Env) (args : HandleSeq) (silent : Bool) (term : Atom)
    (m : IndexMap) (q : Quotation) (i : Nat)
    (h : (if q.is_unquoted then m.find term else none) = some i) :
    substitute_scoped env args silent term m q = HandleSeq_at args i := by
  cases term <;> simp only [substitute_scoped, h]

theorem substitute_scoped_node (env : Env) (args : HandleSeq) (silent : Bool) (t : AtomType)
    (n : String) (m : IndexMap) (q : Quotation)
    (h : (if q.is_unquoted then m.find (Atom.node t n) else none) = none) :
    substitute_scoped env args silent (Atom.node t n) m q = .ok (Atom.node t n) := by
  simp only [substitute_scoped, h]

theorem substitute_scoped_link (env : Env) (args : HandleSeq) (silent : Bool) (ty : AtomType)
    (out : HandleSeq) (m : IndexMap) (q : Quotation)
    (h : (if q.is_unquoted then m.find (Atom.link ty out) else none) = none)
    (hs : (q.is_unquoted && env.isA ty env.SCOPE_LINK
            && alpha_hide m (env.get_variables (Atom.link ty out))) = false) :
    substitute_scoped env args silent (Atom.link ty out) m q =
      match substitute_scoped_loop env args silent out m (q.update env ty) with
        | .error e => .error e
        | .ok (Loop.early glst) => .ok glst
        | .ok (Loop.oset oset) => .ok (createLink ty oset) := by
  simp only [substitute_scoped, h, hs, ScopeLink_factory, createLink, ite_self]
  rfl

theorem substitute_scoped_link_hidden (env : Env) (args : HandleSeq) (silent : Bool)
    (ty : AtomType) (out : HandleSeq) (m : IndexMap) (q : Quotation)
    (h : (if q.is_unquoted then m.find (Atom.link ty out) else none) = none)
    (hs : (q.is_unquoted && env.isA ty env.SCOPE_LINK
            && alpha_hide m (env.get_variables (Atom.link ty out))) = true) :
    substitute_scoped env args silent (Atom.link ty out) m q =
      if (hidden_map m (env.get_variables (Atom.link ty out))).empty then .ok (Atom.link ty out)
      else
        match substitute_scoped_hidden env args silent out
            (hidden_map m (env.get_variables (Atom.link ty out))) (q.update env ty) with
        | .error e => .error e
        | .ok oset => .ok (createLink ty oset) := by
  simp only [substitute_scoped, h, hs]
  rfl

theorem loop_nil (env : Env) (args : HandleSeq) (silent : Bool) (m : IndexMap)
    (q : Quotation) :
    substitute_scoped_loop env args silent [] m q = .ok (Loop.oset []) := by
  simp only [substitute_scoped_loop]

theorem loop_cons_other (env : Env) (args : HandleSeq) (silent : Bool) (m : IndexMap)
    (q : Quotation) (h h' : Atom) (rest o : HandleSeq)
    (hg : env.GLOB_NODE ≠ h.getType)
    (hh : substitute_scoped env args silent h m q = .ok h')
    (hr : substitute_scoped_loop env args silent rest m q = .ok (Loop.oset o)) :
    substitute_scoped_loop env args silent (h :: rest) m q = .ok (Loop.oset (h' :: o)) := by
  simp only [substitute_scoped_loop, hg, hh, hr, if_false]

theorem loop_cons_glob_link (env : Env) (args : HandleSeq) (silent : Bool) (m : IndexMap)
    (q : Quotation) (h glst : Atom) (rest o : HandleSeq)
    (hg : env.GLOB_NODE = h.getType)
    (hh : substitute_scoped env args silent h m q = .ok glst)
    (hl : glst.isNode = false)
    (hr : substitute_scoped_loop env args silent rest m q = .ok (Loop.oset o)) :
    substitute_scoped_loop env args silent (h :: rest) m q =
      .ok (Loop.oset (glst.getOutgoingSet ++ o)) := by
  simp [substitute_scoped_loop, hg, hh, hr, hl]

theorem loop_cons_glob_node (env : Env) (args : HandleSeq) (silent : Bool) (m : IndexMap)
    (q : Quotation) (h glst : Atom) (rest : HandleSeq)
    (hg : env.GLOB_NODE = h.getType)
    (hh : substitute_scoped env args silent h m q = .ok glst)
    (hl : glst.isNode = true) :
    substitute_scoped_loop env args silent (h :: rest) m q = .ok (Loop.early glst) := by
  simp [substitute_scoped_loop, hg, hh, hl]

/-- Children that are nodes of a type other than GLOB_NODE and that the lookup
does not find are copied to the front of the outgoing set. -/
theorem loop_constants_append (env : Env) (args : HandleSeq) (silent : Bool) (m : IndexMap)
    (q : Quotation) (pre rest o : HandleSeq)
    (hpre : ∀ p ∈ pre, p.isNode = true ∧ env.GLOB_NODE ≠ p.getType ∧
      (if q.is_unquoted then m.find p else none) = none)
    (hr : substitute_scoped_loop env args silent rest m q = .ok (Loop.oset o)) :
    substitute_scoped_loop env args silent (pre ++ rest) m q = .ok (Loop.oset (pre ++ o)) := by
  induction pre with
  | nil => simpa using hr
  | cons p ps ih =>
    have hp := hpre p (List.mem_cons_self _ _)
    have hps : ∀ p' ∈ ps, p'.isNode = true ∧ env.GLOB_NODE ≠ p'.getType ∧
        (if q.is_unquoted then m.find p' else none) = none :=
      fun p' hp' => hpre p' (List.mem_cons_of_mem _ hp')
    cases p with
    | link t out => simp [Atom.isNode] at hp
    | node t n =>
      exact loop_cons_other env args silent m q _ _ _ _ hp.2.1
        (substitute_scoped_node env args silent t n m q hp.2.2) (ih hps)

/-- After the arity and type checks, `substitute` is `substitute_scoped` on the
index of the Variables at quotation level 0. -/
theorem substitute_of_checks (env : Env) (V : Variables) (func : Atom) (args : HandleSeq)
    (silent : Bool) (hlen : args.length = V.varseq.length)
    (htc : V.is_type_seq env args = .ok true) :
    V.substitute env func args silent = substitute_scoped env args false func V.index ⟨0⟩ := by
  simp [Variables.substitute, hlen, htc, Variables.substitute_nocheck,
    FreeVariables.substitute_nocheck]

theorem find_of_mem_nodup {β : Type} (m : HandleMapOf β) (k : Atom) (v : β)
    (hn : (m.map Prod.fst).Nodup) (h : (k, v) ∈ m) : m.find k = some v := by
  induction m with
  | nil => simp at h
  | cons p rest ih =>
    obtain ⟨k', v'⟩ := p
    simp only [List.map_cons, List.nodup_cons] at hn
    rcases List.mem_cons.mp h with h1 | h1
    · cases h1; simp [HandleMapOf.find]
    · have hne : k' ≠ k := by
        intro e; apply hn.1; rw [e]
        exact List.mem_map_of_mem Prod.fst h1
      simp [HandleMapOf.find, hne, ih hn.2 h1]

theorem Variables.Invariant.varseq_nodup {env : Env} {V : Variables} (hinv : V.Invariant env) :
    V.varseq.Nodup := by
  obtain ⟨_, _, _, _, hidx, _⟩ := hinv
  rw [List.nodup_iff_injective_get]
  intro i j hij
  have hi := hidx i.1 i.2
  have hj := hidx j.1 j.2
  have : V.varseq.get ⟨i.1, i.2⟩ = V.varseq.get ⟨j.1, j.2⟩ := hij
  rw [this, hj] at hi
  exact Fin.ext (Option.some.inj hi).symm

theorem Variables.Invariant.keys_perm {env : Env} {V : Variables} (hinv : V.Invariant env) :
    V.varseq.Perm (V.index.map Prod.fst) := by
  have hnd := hinv.varseq_nodup
  obtain ⟨hk, _, _, hlen, hidx, _⟩ := hinv
  have hsub : V.varseq ⊆ V.index.map Prod.fst := by
    intro v hv
    obtain ⟨i, hi, rfl⟩ := List.getElem_of_mem hv
    have := find_some_mem _ _ _ (hidx i hi)
    exact List.mem_map_of_mem Prod.fst this
  exact (List.subperm_of_subset hnd hsub).perm_of_length_le (by simp [hlen])

theorem Variables.Invariant.key_mem {env : Env} {V : Variables} (hinv : V.Invariant env)
    (p : Atom × Nat) (hp : p ∈ V.index) : p.1 ∈ V.varseq :=
  hinv.keys_perm.mem_iff.mpr (List.mem_map_of_mem Prod.fst hp)

theorem Variables.Invariant.value_lt {env : Env} {V : Variables} (hinv : V.Invariant env)
    (p : Atom × Nat) (hp : p ∈ V.index) : p.2 < V.varseq.length := by
  have hm := hinv.key_mem p hp
  obtain ⟨i, hi, hget⟩ := List.getElem_of_mem hm
  obtain ⟨hk, _, _, _, hidx, _⟩ := hinv
  have h1 := hidx i hi
  have h2 := find_of_mem_nodup V.index p.1 p.2 hk hp
  have : V.varseq.get ⟨i, hi⟩ = p.1 := hget
  rw [this, h2] at h1
  have := Option.some.inj h1
  omega


theorem hidden_nil (env : Env) (args : HandleSeq) (silent : Bool) (m : IndexMap)
    (q : Quotation) :
    substitute_scoped_hidden env args silent [] m q = .ok [] := by
  simp only [substitute_scoped_hidden]

theorem hidden_cons (env : Env) (args : HandleSeq) (silent : Bool) (m : IndexMap)
    (q : Quotation) (h h' : Atom) (rest o : HandleSeq)
    (hh : substitute_scoped env args silent h m q = .ok h')
    (hr : substitute_scoped_hidden env args silent rest m q = .ok o) :
    substitute_scoped_hidden env args silent (h :: rest) m q = .ok (h' :: o) := by
  simp only [substitute_scoped_hidden, hh, hr]

/-- The loop over children that are all nodes of a type other than GLOB_NODE,
outside any quotation: each child that the index finds is replaced by its
argument, the others are kept. -/
theorem loop_nodes (env : Env) (args : HandleSeq) (silent : Bool) (m : IndexMap)
    (cs : HandleSeq)
    (hcs : ∀ c ∈ cs, c.isNode = true ∧ c.getType ≠ env.GLOB_NODE)
    (hin : ∀ c ∈ cs, ∀ i, m.find c = some i → i < args.length) :
    substitute_scoped_loop env args silent cs m ⟨0⟩ =
      .ok (Loop.oset (cs.map (fun c =>
        match m.find c with
        | some i => args.getD i c
        | none => c))) := by
  induction cs with
  | nil => simp [loop_nil]
  | cons c rest ih =>
    have hc := hcs c (List.mem_cons_self _ _)
    have ih' := ih (fun c' hc' => hcs c' (List.mem_cons_of_mem _ hc'))
      (fun c' hc' => hin c' (List.mem_cons_of_mem _ hc'))
    have hsub : substitute_scoped env args silent c m ⟨0⟩ =
        .ok (match m.find c with
          | some i => args.getD i c
          | none => c) := by
      cases hf : m.find c with
      | some i =>
        rw [substitute_scoped_found env args silent c m ⟨0⟩ i
          (by simp [Quotation.is_unquoted, hf])]
        have hi := hin c (List.mem_cons_self _ _) i hf
        simp [HandleSeq_at, List.getD, List.getElem?_eq_getElem hi]
      | none =>
        cases c with
        | link t out => simp [Atom.isNode] at hc
        | node t n =>
          exact substitute_scoped_node env args silent t n m ⟨0⟩
            (by simp [Quotation.is_unquoted, hf])
    rw [loop_cons_other env args silent m ⟨0⟩ c _ rest _ (Ne.symm hc.2) hsub ih']
    simp

/-- A link of a plain type whose children are nodes as in `loop_nodes`. -/
theorem substitute_scoped_link_nodes (env : Env) (args : HandleSeq) (silent : Bool)
    (m : IndexMap) (ty : AtomType) (cs : HandleSeq)
    (hty : env.plain ty)
    (hnf : m.find (Atom.link ty cs) = none)
    (hcs : ∀ c ∈ cs, c.isNode = true ∧ c.getType ≠ env.GLOB_NODE)
    (hin : ∀ c ∈ cs, ∀ i, m.find c = some i → i < args.length) :
    substitute_scoped env args silent (Atom.link ty cs) m ⟨0⟩ =
      .ok (Atom.link ty (cs.map (fun c =>
        match m.find c with
        | some i => args.getD i c
        | none => c))) := by
  obtain ⟨htq, htu, _, hts⟩ := hty
  rw [substitute_scoped_link env args silent ty cs m ⟨0⟩ (by simp [hnf]) (by simp [hts])]
  have hq : (Quotation.update env ⟨0⟩ ty) = ⟨0⟩ := by
    simp [Quotation.update, htq, htu]
  rw [hq, loop_nodes env args silent m cs hcs hin]
  rfl

/-- The declaration child of a scope link, a bare variable or a list link
around it, is returned as it is when the index does not hold the variable. -/
theorem substitute_scoped_decl (env : Env) (args : HandleSeq) (silent : Bool) (m : IndexMap)
    (vty : AtomType) (ny : String) (vlty : AtomType) (decl : Atom)
    (hvg : vty ≠ env.GLOB_NODE)
    (hy : m.find (Atom.node vty ny) = none)
    (hdecl : decl = Atom.node vty ny ∨
      (decl = Atom.link vlty [Atom.node vty ny] ∧ env.plain vlty ∧ m.find decl = none)) :
    substitute_scoped env args silent decl m ⟨0⟩ = .ok decl := by
  rcases hdecl with rfl | ⟨rfl, hpl, hnf⟩
  · exact substitute_scoped_node env args silent _ _ m ⟨0⟩ (by simp [hy])
  · rw [substitute_scoped_link_nodes env args silent m vlty _ hpl hnf
      (by simp [Atom.isNode, Atom.getType, hvg]) (by simp [hy])]
    simp [hy]

theorem hidden_map_values (m : IndexMap) (vees : HandleSeq) (n : Nat)
    (h : ∀ p ∈ m, p.2 < n) : ∀ p ∈ hidden_map m vees, p.2 < n := by
  rw [hidden_map_eq_filter]
  intro p hp
  exact h p (List.mem_of_mem_filter hp)

mutual
/-- With every ordinal of the index map inside `args`, `substitute_scoped`
returns an atom. -/
theorem substitute_scoped_ok (env : Env) (args : HandleSeq) (silent : Bool) :
    ∀ (term : Atom) (m : IndexMap) (q : Quotation), (∀ p ∈ m, p.2 < args.length) →
      ∃ r, substitute_scoped env args silent term m q = .ok r
  | Atom.node t n, m, q, hm => by
    cases hf : (if q.is_unquoted then m.find (Atom.node t n) else none) with
    | some i =>
      rw [substitute_scoped_found env args silent _ m q i hf]
      have hi : i < args.length := by
        by_cases hq : q.is_unquoted = true
        · simp only [hq, if_true] at hf
          exact hm _ (find_some_mem m _ i hf)
        · simp [hq] at hf
      exact ⟨args[i], by simp [HandleSeq_at, List.getElem?_eq_getElem hi]⟩
    | none => exact ⟨_, substitute_scoped_node env args silent t n m q hf⟩
  | Atom.link ty out, m, q, hm => by
    cases hf : (if q.is_unquoted then m.find (Atom.link ty out) else none) with
    | some i =>
      rw [substitute_scoped_found env args silent _ m q i hf]
      have hi : i < args.length := by
        by_cases hq : q.is_unquoted = true
        · simp only [hq, if_true] at hf
          exact hm _ (find_some_mem m _ i hf)
        · simp [hq] at hf
      exact ⟨args[i], by simp [HandleSeq_at, List.getElem?_eq_getElem hi]⟩
    | none =>
      cases hs : (q.is_unquoted && env.isA ty env.SCOPE_LINK
            && alpha_hide m (env.get_variables (Atom.link ty out))) with
      | true =>
        rw [substitute_scoped_link_hidden env args silent ty out m q hf hs]
        by_cases he : (hidden_map m (env.get_variables (Atom.link ty out))).empty = true
        · exact ⟨Atom.link ty out, by simp [he]⟩
        · obtain ⟨r, hr⟩ := substitute_scoped_hidden_ok env args silent out
            (hidden_map m (env.get_variables (Atom.link ty out))) (q.update env ty)
            (hidden_map_values m _ _ hm)
          exact ⟨createLink ty r, by simp [he, hr]⟩
      | false =>
        rw [substitute_scoped_link env args silent ty out m q hf hs]
        obtain ⟨r, hr⟩ := substitute_scoped_loop_ok env args silent out m (q.update env ty) hm
        cases r with
        | early g => exact ⟨g, by simp [hr]⟩
        | oset o => exact ⟨createLink ty o, by simp [hr]⟩
/-- The loop under the hidden map returns an outgoing set. -/
theorem substitute_scoped_hidden_ok (env : Env) (args : HandleSeq) (silent : Bool) :
    ∀ (out : HandleSeq) (m : IndexMap) (q : Quotation), (∀ p ∈ m, p.2 < args.length) →
      ∃ r, substitute_scoped_hidden env args silent out m q = .ok r
  | [], m, q, _ => ⟨[], hidden_nil env args silent m q⟩
  | h :: rest, m, q, hm => by
    obtain ⟨h', hh⟩ := substitute_scoped_ok env args silent h m q hm
    obtain ⟨o, ho⟩ := substitute_scoped_hidden_ok env args silent rest m q hm
    exact ⟨h' :: o, hidden_cons env args silent m q h h' rest o hh ho⟩
/-- The loop with glob splicing returns an outcome. -/
theorem substitute_scoped_loop_ok (env : Env) (args : HandleSeq) (silent : Bool) :
    ∀ (out : HandleSeq) (m : IndexMap) (q : Quotation), (∀ p ∈ m, p.2 < args.length) →
      ∃ r, substitute_scoped_loop env args silent out m q = .ok r
  | [], m, q, _ => ⟨Loop.oset [], loop_nil env args silent m q⟩
  | h :: rest, m, q, hm => by
    obtain ⟨h', hh⟩ := substitute_scoped_ok env args silent h m q hm
    obtain ⟨o, ho⟩ := substitute_scoped_loop_ok env args silent rest m q hm
    by_cases hg : env.GLOB_NODE = h.getType
    · by_cases hn : h'.isNode = true
      · exact ⟨_, loop_cons_glob_node env args silent m q h h' rest hg hh hn⟩
      · cases o with
        | early r => exact ⟨Loop.early r, by simp [substitute_scoped_loop, hg, hh, hn, ho]⟩
        | oset o =>
          exact ⟨_, loop_cons_glob_link env args silent m q h h' rest o hg hh (by simpa using hn) ho⟩
    · cases o with
      | early r => exact ⟨Loop.early r, by simp [substitute_scoped_loop, hg, hh, ho]⟩
      | oset o => exact ⟨_, loop_cons_other env args silent m q h h' rest o hg hh ho⟩
end

/-- A failed type check, after the arity check, is the type-check error of
`substitute`: the silent exception when `silent` is set. -/
theorem substitute_of_type_error (env : Env) (V : Variables) (func : Atom) (args : HandleSeq)
    (silent : Bool) (hlen : args.length = V.varseq.length)
    (htc : V.is_type_seq env args = .ok false) :
    V.substitute env func args silent
      = .error (if silent then .TypeCheckException else .SyntaxException_typecheck) := by
  cases silent <;> simp [Variables.substitute, hlen, htc]

theorem hidden_map_of_not_alpha_hide (m : IndexMap) (vees : HandleSeq)
    (h : alpha_hide m vees = false) : hidden_map m vees = m := by
  rw [hidden_map_eq_filter, List.filter_eq_self]
  intro p hp
  simp only [alpha_hide, List.any_eq_false] at h
  by_cases hv : p.1 ∈ vees
  · exfalso
    apply h p.1 hv
    cases hf : m.find p.1 with
    | some i => rfl
    | none => exact absurd rfl ((find_eq_none_iff m p.1).mp hf p hp)
  · simp [hv]

theorem hidden_map_empty_no_find (m : IndexMap) (h : m.empty = true) (k : Atom) :
    m.find k = none := by
  cases m with
  | nil => rfl
  | cons p rest => simp [HandleMapOf.empty] at h

mutual
/-- Where no key of the index map occurs free and no link has a child of type
GLOB_NODE, `substitute_scoped` returns the term itself. -/
theorem substitute_scoped_identity (env : Env) (args : HandleSeq) (silent : Bool) :
    ∀ (term : Atom) (m : IndexMap) (q : Quotation),
      term.no_free env m q = true → term.glob_free env = true →
      substitute_scoped env args silent term m q = .ok term
  | Atom.node t n, m, q, hnf, _ => by
    apply substitute_scoped_node
    simp only [Atom.no_free] at hnf
    by_cases hq : q.is_unquoted = true
    · simp only [hq, if_true]
      cases hf : m.find (Atom.node t n) with
      | none => rfl
      | some i => simp [hq, hf] at hnf
    · simp [hq]
  | Atom.link ty out, m, q, hnf, hgf => by
    simp only [Atom.no_free, Bool.and_eq_true] at hnf
    obtain ⟨hnf1, hnf2⟩ := hnf
    simp only [Atom.glob_free] at hgf
    have hf : (if q.is_unquoted then m.find (Atom.link ty out) else none) = none := by
      by_cases hq : q.is_unquoted = true
      · simp only [hq, if_true]
        cases hf : m.find (Atom.link ty out) with
        | none => rfl
        | some i => simp [hq, hf] at hnf1
      · simp [hq]
    cases hs : (q.is_unquoted && env.isA ty env.SCOPE_LINK
          && alpha_hide m (env.get_variables (Atom.link ty out))) with
    | true =>
      rw [substitute_scoped_link_hidden env args silent ty out m q hf hs]
      by_cases he : (hidden_map m (env.get_variables (Atom.link ty out))).empty = true
      · simp [he]
      · simp only [Bool.and_eq_true] at hs
        rw [if_pos hs.1] at hnf2
        rw [substitute_scoped_hidden_identity env args silent out _ _ hnf2 hgf]
        simp [he, createLink]
    | false =>
      rw [substitute_scoped_link env args silent ty out m q hf hs]
      have hnf3 : no_free_seq env out m (q.update env ty) = true := by
        by_cases hsc : q.is_unquoted = true ∧ env.isA ty env.SCOPE_LINK = true
        · rw [if_pos hsc] at hnf2
          simp only [hsc.1, hsc.2, Bool.true_and] at hs
          rwa [hidden_map_of_not_alpha_hide m _ hs] at hnf2
        · rwa [if_neg hsc] at hnf2
      rw [substitute_scoped_loop_identity env args silent out _ _ hnf3 hgf]
      rfl
/-- The loop under the hidden map returns the outgoing set itself. -/
theorem substitute_scoped_hidden_identity (env : Env) (args : HandleSeq) (silent : Bool) :
    ∀ (out : HandleSeq) (m : IndexMap) (q : Quotation),
      no_free_seq env out m q = true → glob_free_seq env out = true →
      substitute_scoped_hidden env args silent out m q = .ok out
  | [], m, q, _, _ => hidden_nil env args silent m q
  | h :: rest, m, q, hnf, hgf => by
    simp only [no_free_seq, Bool.and_eq_true] at hnf
    simp only [glob_free_seq, Bool.and_eq_true] at hgf
    exact hidden_cons env args silent m q h h rest rest
      (substitute_scoped_identity env args silent h m q hnf.1 hgf.1.2)
      (substitute_scoped_hidden_identity env args silent rest m q hnf.2 hgf.2)
/-- The loop with glob splicing returns the outgoing set itself. -/
theorem substitute_scoped_loop_identity (env : Env) (args : HandleSeq) (silent : Bool) :
    ∀ (out : HandleSeq) (m : IndexMap) (q : Quotation),
      no_free_seq env out m q = true → glob_free_seq env out = true →
      substitute_scoped_loop env args silent out m q = .ok (Loop.oset out)
  | [], m, q, _, _ => loop_nil env args silent m q
  | h :: rest, m, q, hnf, hgf => by
    simp only [no_free_seq, Bool.and_eq_true] at hnf
    simp only [glob_free_seq, Bool.and_eq_true, bne_iff_ne, ne_eq] at hgf
    exact loop_cons_other env args silent m q h h rest rest (fun e => hgf.1.1 e.symm)
      (substitute_scoped_identity env args silent h m q hnf.1 hgf.1.2)
      (substitute_scoped_loop_identity env args silent rest m q hnf.2 hgf.2)
end

mutual
/-- Inside a quotation (level 1 or more) a term without UNQUOTE_LINK has no
free occurrence of any variable. -/
theorem no_free_of_quoted (env : Env) :
    ∀ (term : Atom) (m : IndexMap) (q : Quotation), 1 ≤ q.level →
      term.unquote_free env = true → term.no_free env m q = true
  | Atom.node t n, m, q, hq, _ => by
    have : q.is_unquoted = false := by
      simp only [Quotation.is_unquoted, beq_eq_false_iff_ne, ne_eq]; omega
    simp [Atom.no_free, this]
  | Atom.link ty out, m, q, hq, huf => by
    have hu : q.is_unquoted = false := by
      simp only [Quotation.is_unquoted, beq_eq_false_iff_ne, ne_eq]; omega
    simp only [Atom.unquote_free, Bool.and_eq_true, bne_iff_ne, ne_eq] at huf
    have hq' : 1 ≤ (q.update env ty).level := by
      unfold Quotation.update
      by_cases h1 : ty = env.QUOTE_LINK
      · simp only [h1, if_true]; omega
      · simp only [h1, if_false, huf.1]; exact hq
    simp [Atom.no_free, hu, no_free_seq_of_quoted env out m _ hq' huf.2]
/-- The same for a sequence of terms. -/
theorem no_free_seq_of_quoted (env : Env) :
    ∀ (out : HandleSeq) (m : IndexMap) (q : Quotation), 1 ≤ q.level →
      unquote_free_seq env out = true → no_free_seq env out m q = true
  | [], _, _, _, _ => rfl
  | h :: rest, m, q, hq, huf => by
    simp only [unquote_free_seq, Bool.and_eq_true] at huf
    simp [no_free_seq, no_free_of_quoted env h m q hq huf.1,
      no_free_seq_of_quoted env rest m q hq huf.2]
end

/-- Substitution identity on constants, where it holds: when no variable of
the Variables occurs free in the term and no link of the term has a child of
type GLOB_NODE, `substitute` returns the term itself. -/
theorem substitute_identity_of_glob_free (env : Env) (V : Variables) (term : Atom)
    (args : HandleSeq) (silent : Bool) (hlen : args.length = V.varseq.length)
    (htc : V.is_type_seq env args = .ok true)
    (hnf : term.no_free env V.index ⟨0⟩ = true) (hgf : term.glob_free env = true) :
    V.substitute env term args silent = .ok term := by
  rw [substitute_of_checks env V term args silent hlen htc]
  exact substitute_scoped_identity env args false term V.index ⟨0⟩ hnf hgf

/-- Quoted regions are left alone, where that holds: when the body has no
UNQUOTE_LINK, is not of type GLOB_NODE and has no child of that type in any of
its links, `substitute_nocheck(QUOTE_LINK(body), args)` is `QUOTE_LINK(body)`. -/
theorem substitute_nocheck_quoted_of_glob_free (env : Env) (V : Variables) (body : Atom)
    (args : HandleSeq) (silent : Bool)
    (hqs : env.isA env.QUOTE_LINK env.SCOPE_LINK = false)
    (hkey : V.index.find (Atom.link env.QUOTE_LINK [body]) = none)
    (huf : body.unquote_free env = true)
    (hg : body.getType ≠ env.GLOB_NODE) (hgf : body.glob_free env = true) :
    V.substitute_nocheck env (Atom.link env.QUOTE_LINK [body]) args silent
      = .ok (Atom.link env.QUOTE_LINK [body]) := by
  unfold Variables.substitute_nocheck FreeVariables.substitute_nocheck
  apply substitute_scoped_identity
  · have hq : (Quotation.update env ⟨0⟩ env.QUOTE_LINK) = ⟨1⟩ := by
      simp [Quotation.update]
    have hb := no_free_of_quoted env body V.index ⟨1⟩ (by simp) huf
    simp [Atom.no_free, hkey, hqs, hq, no_free_seq, hb]
  · simp [Atom.glob_free, glob_free_seq, hg, hgf]

mutual
/-- The flag `silent` is only passed along: it has no effect on the result of
`substitute_scoped`. -/
theorem substitute_scoped_silent (env : Env) (args : HandleSeq) (s s' : Bool) :
    ∀ (term : Atom) (m : IndexMap) (q : Quotation),
      substitute_scoped env args s term m q = substitute_scoped env args s' term m q
  | Atom.node t n, m, q => by
    simp only [substitute_scoped]
  | Atom.link ty out, m, q => by
    simp only [substitute_scoped]
    rw [substitute_scoped_hidden_silent env args s s' out,
      substitute_scoped_loop_silent env args s s' out]
/-- The same for the loop under the hidden map. -/
theorem substitute_scoped_hidden_silent (env : Env) (args : HandleSeq) (s s' : Bool) :
    ∀ (out : HandleSeq) (m : IndexMap) (q : Quotation),
      substitute_scoped_hidden env args s out m q = substitute_scoped_hidden env args s' out m q
  | [], m, q => by simp only [substitute_scoped_hidden]
  | h :: rest, m, q => by
    simp only [substitute_scoped_hidden]
    rw [substitute_scoped_silent env args s s' h, substitute_scoped_hidden_silent env args s s' rest]
/-- The same for the loop with glob splicing. -/
theorem substitute_scoped_loop_silent (env : Env) (args : HandleSeq) (s s' : Bool) :
    ∀ (out : HandleSeq) (m : IndexMap) (q : Quotation),
      substitute_scoped_loop env args s out m q = substitute_scoped_loop env args s' out m q
  | [], m, q => by simp only [substitute_scoped_loop]
  | h :: rest, m, q => by
    simp only [substitute_scoped_loop]
    rw [substitute_scoped_silent env args s s' h, substitute_scoped_loop_silent env args s s' rest]
end

/-- Without type restrictions every value passes the type check of a variable
of the set. -/
theorem is_type_of_unrestricted (env : Env) (V : Variables) (var val : Atom)
    (hs : V._simple_typemap = []) (hd : V._deep_typemap = []) (hf : V._fuzzy_typemap = [])
    (hv : var ∈ V.varset) : V.is_type env var val = .ok true := by
  simp [Variables.is_type, hs, hd, hf, HandleMapOf.find, hv]

/-- Without type restrictions every argument list of the right length passes
the type check, so `substitute` then only checks the arity. -/
theorem is_type_seq_of_unrestricted (env : Env) (V : Variables) (args : HandleSeq)
    (hs : V._simple_typemap = []) (hd : V._deep_typemap = []) (hf : V._fuzzy_typemap = [])
    (hset : V.varset = V.varseq) (hlen : args.length = V.varseq.length) :
    V.is_type_seq env args = .ok true := by
  have hloop : ∀ (vs hs' : HandleSeq), (∀ v ∈ vs, v ∈ V.varset) → hs'.length = vs.length →
      V.is_type_loop env vs hs' = .ok true := by
    intro vs
    induction vs with
    | nil =>
      intro hs' _ hl
      cases hs' with
      | nil => rfl
      | cons a as => simp at hl
    | cons v vs ih =>
      intro hs' hmem hl
      cases hs' with
      | nil => rfl
      | cons a as =>
        simp only [Variables.is_type_loop,
          is_type_of_unrestricted env V v a hs hd hf (hmem v (List.mem_cons_self _ _))]
        exact ih as (fun w hw => hmem w (List.mem_cons_of_mem _ hw)) (by simpa using hl)
  simp only [Variables.is_type_seq, hset, hlen, ne_eq, not_true_eq_false, if_false]
  exact hloop V.varseq args (fun v hv => by rw [hset]; exact hv) hlen

theorem Variables.Invariant.consistent {env : Env} {V : Variables} (h : V.Invariant env) :
    V.Consistent := by
  obtain ⟨h1, h2, h3, h4, h5, h6, h7, h8, h9, _⟩ := h
  exact ⟨h1, h2, h3, h4, h5, h6, h7, h8, h9⟩

/-- An early return of the loop over the later children is the outcome of the
whole loop when the children before are not of type GLOB_NODE. -/
theorem loop_append_early (env : Env) (args : HandleSeq) (silent : Bool) (m : IndexMap)
    (q : Quotation) (pre rest : HandleSeq) (r : Atom)
    (hm : ∀ p ∈ m, p.2 < args.length)
    (hpre : ∀ p ∈ pre, p.getType ≠ env.GLOB_NODE)
    (hr : substitute_scoped_loop env args silent rest m q = .ok (Loop.early r)) :
    substitute_scoped_loop env args silent (pre ++ rest) m q = .ok (Loop.early r) := by
  induction pre with
  | nil => simpa using hr
  | cons p ps ih =>
    have hp := hpre p (List.mem_cons_self _ _)
    have ih' := ih (fun p' hp' => hpre p' (List.mem_cons_of_mem _ hp'))
    obtain ⟨p', hp'⟩ := substitute_scoped_ok env args silent p m q hm
    have hg : ¬ env.GLOB_NODE = p.getType := fun e => hp e.symm
    show substitute_scoped_loop env args silent (p :: (ps ++ rest)) m q = _
    rw [substitute_scoped_loop]
    simp only [hg, if_false, hp', ih']

theorem set_eq_iff {α : Type} [DecidableEq α] (a b : List α) :
    Variables.set_eq a b = true ↔ ∀ x, x ∈ a ↔ x ∈ b := by
  simp only [Variables.set_eq, Bool.and_eq_true, List.all_eq_true, decide_eq_true_eq]
  constructor
  · rintro ⟨h1, h2⟩ x
    exact ⟨h1 x, h2 x⟩
  · intro h
    exact ⟨fun x hx => (h x).mp hx, fun x hx => (h x).mpr hx⟩

theorem is_equal_loop_cons (V other : Variables) (vme voth : Atom) (rest orest : HandleSeq) :
    Variables.is_equal_loop V other (vme :: rest) (voth :: orest) = true ↔
      V.alike other vme voth ∧ Variables.is_equal_loop V other rest orest = true := by
  rw [Variables.is_equal_loop]
  simp only [Variables.alike]
  by_cases ht : vme.getType = voth.getType
  · cases V._simple_typemap.find vme <;> cases other._simple_typemap.find voth <;>
      cases V._deep_typemap.find vme <;> cases other._deep_typemap.find voth <;>
      simp [same_restriction, ht, set_eq_iff, and_assoc]
  · simp [ht]

theorem is_equal_loop_iff (V other : Variables) :
    ∀ (l1 l2 : HandleSeq), l1.length = l2.length →
      (Variables.is_equal_loop V other l1 l2 = true ↔
        ∀ i, (h1 : i < l1.length) → (h2 : i < l2.length) →
          V.alike other (l1.get ⟨i, h1⟩) (l2.get ⟨i, h2⟩))
  | [], [], _ => by simp [Variables.is_equal_loop]
  | [], _ :: _, h => by simp at h
  | _ :: _, [], h => by simp at h
  | a :: l1, b :: l2, h => by
    have ih := is_equal_loop_iff V other l1 l2 (by simpa using h)
    rw [is_equal_loop_cons, ih]
    constructor
    · rintro ⟨h0, hr⟩ i h1 h2
      cases i with
      | zero => exact h0
      | succ j => exact hr j (by simpa using h1) (by simpa using h2)
    · intro hall
      exact ⟨hall 0 (by simp) (by simp),
        fun i h1 h2 => hall (i + 1) (by simpa using h1) (by simpa using h2)⟩

theorem find_map_key {β : Type} (ρ : Atom → Atom) (m : HandleMapOf β) (v : Atom)
    (hinj : ∀ p ∈ m, ρ p.1 = ρ v → p.1 = v) :
    HandleMapOf.find (m.map (fun p => (ρ p.1, p.2))) (ρ v) = m.find v := by
  induction m with
  | nil => rfl
  | cons p rest ih =>
    obtain ⟨k, b⟩ := p
    have ih' := ih (fun p hp => hinj p (List.mem_cons_of_mem _ hp))
    by_cases hk : k = v
    · subst hk; simp [HandleMapOf.find]
    · have : ρ k ≠ ρ v := fun e => hk (hinj (k, b) (List.mem_cons_self _ _) e)
      simp only [List.map_cons, HandleMapOf.find, this, hk, if_false]
      exact ih'

theorem same_restriction_refl {α : Type} (a : Option (List α)) : same_restriction a a := by
  cases a <;> simp [same_restriction]

theorem first_appearances_append (acc l1 l2 : List Atom) :
    first_appearances acc (l1 ++ l2) = first_appearances (first_appearances acc l1) l2 := by
  simp [first_appearances, List.foldl_append]

theorem first_appearances_nil (acc : List Atom) : first_appearances acc [] = acc := rfl

theorem first_appearances_singleton (acc : List Atom) (v : Atom) :
    first_appearances acc [v] = if v ∈ acc then acc else acc ++ [v] := rfl

theorem mem_first_appearances (acc l : List Atom) (v : Atom) :
    v ∈ first_appearances acc l ↔ v ∈ acc ∨ v ∈ l := by
  induction l generalizing acc with
  | nil => simp [first_appearances]
  | cons a rest ih =>
    have : first_appearances acc (a :: rest)
        = first_appearances (if a ∈ acc then acc else acc ++ [a]) rest := rfl
    rw [this, ih]
    by_cases ha : a ∈ acc
    · simp only [ha, if_true, List.mem_cons]
      constructor
      · rintro (h | h)
        · exact Or.inl h
        · exact Or.inr (Or.inr h)
      · rintro (h | h | h)
        · exact Or.inl h
        · subst h; exact Or.inl ha
        · exact Or.inr h
    · simp only [ha, if_false, List.mem_append, List.mem_singleton, List.mem_cons]
      tauto

theorem nodup_first_appearances (acc l : List Atom) (h : acc.Nodup) :
    (first_appearances acc l).Nodup := by
  induction l generalizing acc with
  | nil => exact h
  | cons a rest ih =>
    have : first_appearances acc (a :: rest)
        = first_appearances (if a ∈ acc then acc else acc ++ [a]) rest := rfl
    rw [this]
    apply ih
    by_cases ha : a ∈ acc
    · simpa [ha] using h
    · simp only [ha, if_false]
      exact List.Nodup.append h (List.nodup_singleton a) (by simpa using ha)

theorem first_appearances_prefix (acc l : List Atom) :
    ∃ extra, first_appearances acc l = acc ++ extra := by
  induction l generalizing acc with
  | nil => exact ⟨[], by simp [first_appearances]⟩
  | cons a rest ih =>
    have : first_appearances acc (a :: rest)
        = first_appearances (if a ∈ acc then acc else acc ++ [a]) rest := rfl
    rw [this]
    by_cases ha : a ∈ acc
    · simpa [ha] using ih acc
    · obtain ⟨e, he⟩ := ih (acc ++ [a])
      exact ⟨a :: e, by simp [ha, he]⟩

theorem mem_foldl_HandleSet_insert (vees s : List Atom) (v : Atom) :
    v ∈ vees.foldl HandleSet_insert s ↔ v ∈ s ∨ v ∈ vees := by
  induction vees generalizing s with
  | nil => simp
  | cons a rest ih =>
    rw [List.foldl_cons, ih]
    unfold HandleSet_insert
    by_cases ha : a ∈ s
    · simp only [ha, if_true, List.mem_cons]
      constructor
      · rintro (h | h)
        · exact Or.inl h
        · exact Or.inr (Or.inr h)
      · rintro (h | h | h)
        · exact Or.inl h
        · subst h; exact Or.inl ha
        · exact Or.inr h
    · simp only [ha, if_false, List.mem_append, List.mem_singleton, List.mem_cons]
      tauto

theorem collect_eq (c0 b : Bool) (vs : List Atom) (h : Atom) :
    (if (c0 && !decide (h ∈ vs) && !b) = true then vs ++ [h] else vs)
      = first_appearances vs (if (c0 && !b) = true then [h] else []) ∧
    (if (c0 && !decide (h ∈ vs) && !b) = true then HandleSet_insert vs h else vs)
      = first_appearances vs (if (c0 && !b) = true then [h] else []) := by
  by_cases hm : h ∈ vs <;> cases c0 <;> cases b <;>
    simp [first_appearances, HandleSet_insert, hm]

mutual
/-- One handle of the outgoing set: the scraper is left as it was, and
`varseq` and `varset`, equal before, both gain the first appearances of the
free occurrences of the term. -/
theorem find_vars_step_eq (env : Env) :
    ∀ (h : Atom) (vsc : VarScraper) (vs : List Atom) (bound : Atom → Bool),
      (∀ v, v ∈ vsc._bound_vars ↔ bound v = true) →
      VarScraper.find_vars_step env h vsc vs vs =
        (vsc, first_appearances vs (free_occurrences env h vsc._quotation bound),
          first_appearances vs (free_occurrences env h vsc._quotation bound))
  | Atom.node t n, vsc, vs, bound, hb => by
    have hbn : decide (Atom.node t n ∈ vsc._bound_vars) = bound (Atom.node t n) := by
      have := hb (Atom.node t n)
      cases hbb : bound (Atom.node t n) <;> simp_all
    simp only [VarScraper.find_vars_step, free_occurrences, Atom.getType, hbn]
    by_cases hm : Atom.node t n ∈ vs
    · by_cases hc : ((decide (env.VARIABLE_NODE = t) || decide (env.GLOB_NODE = t))
          && vsc._quotation.is_unquoted && !bound (Atom.node t n)) = true
      · simp [hc, hm, first_appearances]
      · simp only [Bool.not_eq_true] at hc
        simp [hc, hm, first_appearances]
    · by_cases hc : ((decide (env.VARIABLE_NODE = t) || decide (env.GLOB_NODE = t))
          && vsc._quotation.is_unquoted && !bound (Atom.node t n)) = true
      · have hc' := hc
        simp only [Bool.and_eq_true] at hc'
        simp [hc, hc'.1.1, hc'.1.2, hc'.2, hm, first_appearances, HandleSet_insert]
      · simp only [Bool.not_eq_true] at hc
        have : ((decide (env.VARIABLE_NODE = t) || decide (env.GLOB_NODE = t))
          && vsc._quotation.is_unquoted && !decide (Atom.node t n ∈ vs)
          && !bound (Atom.node t n)) = false := by
          cases h1 : (decide (env.VARIABLE_NODE = t) || decide (env.GLOB_NODE = t)) <;>
            cases h2 : vsc._quotation.is_unquoted <;> cases h3 : bound (Atom.node t n) <;>
            simp_all
        simp [hc, this, first_appearances]
  | Atom.link t out, vsc, vs, bound, hb => by
    have hbn : decide (Atom.link t out ∈ vsc._bound_vars) = bound (Atom.link t out) := by
      have := hb (Atom.link t out)
      cases hbb : bound (Atom.link t out) <;> simp_all
    obtain ⟨hc1, hc2⟩ := collect_eq
      ((decide (env.VARIABLE_NODE = t) || decide (env.GLOB_NODE = t))
        && vsc._quotation.is_unquoted) (bound (Atom.link t out)) vs (Atom.link t out)
    simp only [VarScraper.find_vars_step, free_occurrences, Atom.getType, hbn, hc1, hc2,
      first_appearances_append]
    by_cases hsc : (vsc._quotation.is_unquoted && env.isA t env.SCOPE_LINK) = true
    swap
    · have hsc' : (vsc._quotation.is_unquoted && env.isA t env.SCOPE_LINK) = false := by
        simpa using hsc
      simp only [hsc', Bool.false_eq_true, if_false]
      rw [find_vars_eq env out ⟨Quotation.update env vsc._quotation t, vsc._bound_vars⟩ _
        bound hb]
    · simp only [hsc, if_true]
      rw [find_vars_eq env out ⟨Quotation.update env vsc._quotation t,
          List.foldl HandleSet_insert vsc._bound_vars (env.get_variables (Atom.link t out))⟩ _
        (fun v => bound v || decide (v ∈ env.get_variables (Atom.link t out)))
        (by intro v
            simp only [mem_foldl_HandleSet_insert, hb v, Bool.or_eq_true, decide_eq_true_eq])]
/-- The loop over the outgoing set, likewise. -/
theorem find_vars_eq (env : Env) :
    ∀ (oset : HandleSeq) (vsc : VarScraper) (vs : List Atom) (bound : Atom → Bool),
      (∀ v, v ∈ vsc._bound_vars ↔ bound v = true) →
      VarScraper.find_vars env oset vsc vs vs =
        (vsc, first_appearances vs (free_occurrences_seq env oset vsc._quotation bound),
          first_appearances vs (free_occurrences_seq env oset vsc._quotation bound))
  | [], vsc, vs, bound, _ => by
    simp [VarScraper.find_vars, free_occurrences_seq, first_appearances]
  | h :: rest, vsc, vs, bound, hb => by
    rw [VarScraper.find_vars, find_vars_step_eq env h vsc vs bound hb]
    simp only
    rw [find_vars_eq env rest vsc _ bound hb, free_occurrences_seq, first_appearances_append]
end

theorem find_append {β : Type} (a b : HandleMapOf β) (k : Atom) :
    HandleMapOf.find (a ++ b) k = match a.find k with
      | some v => some v
      | none => HandleMapOf.find b k := by
  induction a with
  | nil => simp [HandleMapOf.find]
  | cons p rest ih =>
    obtain ⟨k', v⟩ := p
    by_cases hk : k' = k
    · simp [HandleMapOf.find, hk]
    · simp only [List.cons_append, HandleMapOf.find, hk, if_false]
      exact ih

theorem find_insert {β : Type} (m : HandleMapOf β) (k k' : Atom) (v : β) :
    (m.insert k v).find k' = match m.find k' with
      | some w => some w
      | none => if k = k' then some v else none := by
  unfold HandleMapOf.insert
  by_cases hk : k = k'
  · subst hk
    cases hf : m.find k with
    | some w => simp [hf]
    | none => simp [hf, find_append, HandleMapOf.find]
  · cases hf : m.find k with
    | some w => cases hf' : m.find k' <;> simp [hf, hf', hk]
    | none => simp [hf, find_append, HandleMapOf.find, hk]

theorem enum_index_append (l1 l2 : HandleSeq) (i : Nat) :
    enum_index (l1 ++ l2) i = enum_index l1 i ++ enum_index l2 (i + l1.length) := by
  induction l1 generalizing i with
  | nil => simp [enum_index]
  | cons v rest ih =>
    have e : i + 1 + rest.length = i + (rest.length + 1) := by omega
    show enum_index (v :: (rest ++ l2)) i
      = enum_index (v :: rest) i ++ enum_index l2 (i + (rest.length + 1))
    rw [enum_index, enum_index, ih, e]
    rfl

theorem enum_index_keys (l : HandleSeq) (i : Nat) : (enum_index l i).map Prod.fst = l := by
  induction l generalizing i with
  | nil => rfl
  | cons v rest ih => simp [enum_index, ih]

theorem enum_index_length (l : HandleSeq) (i : Nat) : (enum_index l i).length = l.length := by
  induction l generalizing i with
  | nil => rfl
  | cons v rest ih => simp [enum_index, ih]

theorem find_enum_index_none (l : HandleSeq) (i : Nat) (v : Atom) :
    (enum_index l i).find v = none ↔ v ∉ l := by
  rw [find_eq_none_iff]
  constructor
  · intro h hv
    have : v ∈ (enum_index l i).map Prod.fst := by rw [enum_index_keys]; exact hv
    obtain ⟨p, hp, hpv⟩ := List.mem_map.mp this
    exact h p hp hpv
  · intro h p hp e
    apply h
    have : p.1 ∈ (enum_index l i).map Prod.fst := List.mem_map_of_mem Prod.fst hp
    rw [enum_index_keys] at this
    rw [← e]; exact this

theorem find_enum_index_get (l : HandleSeq) (i : Nat) (hn : l.Nodup) :
    ∀ j, (h : j < l.length) → (enum_index l i).find (l.get ⟨j, h⟩) = some (i + j) := by
  induction l generalizing i with
  | nil => intro j h; simp at h
  | cons v rest ih =>
    intro j h
    cases j with
    | zero => simp [enum_index, HandleMapOf.find]
    | succ j =>
      have hne : v ≠ rest.get ⟨j, by simpa using h⟩ := by
        intro e
        have := (List.nodup_cons.mp hn).1
        apply this
        rw [e]
        exact List.get_mem _ _ _
      simp only [List.get_cons_succ, enum_index, HandleMapOf.find, hne, if_false]
      rw [ih (i + 1) (List.nodup_cons.mp hn).2 j (by simpa using h)]
      congr 1
      omega

theorem build_index_known (l : HandleSeq) (i : Nat) (idx : IndexMap)
    (h : ∀ v ∈ l, (idx.find v).isSome = true) : build_index l i idx = idx := by
  induction l generalizing i with
  | nil => rfl
  | cons v rest ih =>
    have hv := h v (List.mem_cons_self _ _)
    simp only [build_index, HandleMapOf.insert, hv, if_true]
    exact ih (i + 1) (fun w hw => h w (List.mem_cons_of_mem _ hw))

theorem build_index_new (l : HandleSeq) (i : Nat) (idx : IndexMap)
    (h : ∀ v ∈ l, idx.find v = none) (hn : l.Nodup) :
    build_index l i idx = idx ++ enum_index l i := by
  induction l generalizing i idx with
  | nil => simp [build_index, enum_index]
  | cons v rest ih =>
    have hv := h v (List.mem_cons_self _ _)
    have hnd := List.nodup_cons.mp hn
    simp only [build_index, HandleMapOf.insert, hv, Option.isSome_none, Bool.false_eq_true,
      if_false]
    rw [ih (i + 1) (idx ++ [(v, i)]) ?_ hnd.2]
    · simp [enum_index]
    · intro w hw
      have hne : v ≠ w := fun e => hnd.1 (e ▸ hw)
      rw [find_append, h w (List.mem_cons_of_mem _ hw)]
      simp [HandleMapOf.find, hne]

theorem build_index_append (l1 l2 : HandleSeq) (i : Nat) (idx : IndexMap) :
    build_index (l1 ++ l2) i idx = build_index l2 (i + l1.length) (build_index l1 i idx) := by
  induction l1 generalizing i idx with
  | nil => simp [build_index]
  | cons v rest ih =>
    have e : i + 1 + rest.length = i + (rest.length + 1) := by omega
    show build_index (v :: (rest ++ l2)) i idx
      = build_index l2 (i + (rest.length + 1)) (build_index (v :: rest) i idx)
    rw [build_index, build_index, ih, e]

/-- The index loop of `find_variables` on a longer `varseq`. -/
theorem build_index_enum (vs extra : HandleSeq) (hn : (vs ++ extra).Nodup) :
    build_index (vs ++ extra) 0 (enum_index vs 0) = enum_index (vs ++ extra) 0 := by
  rw [build_index_append, build_index_known vs 0 (enum_index vs 0), enum_index_append]
  · rw [List.nodup_append] at hn
    apply build_index_new _ _ _ _ hn.2.1
    intro v hv
    rw [find_enum_index_none]
    intro hv'
    exact hn.2.2 hv' hv
  · intro v hv
    cases hf : (enum_index vs 0).find v with
    | some _ => rfl
    | none => exact absurd hv ((find_enum_index_none vs 0 v).mp hf)

theorem canonical_empty : Variables.empty.Canonical := by
  simp [Variables.Canonical, Variables.empty, enum_index]

theorem canonical_find_variables (env : Env) (V : Variables) (oset : HandleSeq)
    (h : V.Canonical) : (V.find_variables env oset).Canonical := by
  obtain ⟨h1, h2, h3, h4, h5, h6⟩ := h
  unfold Variables.find_variables
  rw [h1, find_vars_eq env oset ⟨⟨0⟩, []⟩ V.varseq (fun _ => false) (by simp)]
  simp only [Variables.Canonical]
  have hnd := nodup_first_appearances V.varseq
    (free_occurrences_seq env oset ⟨0⟩ (fun _ => false)) h2
  obtain ⟨extra, he⟩ := first_appearances_prefix V.varseq
    (free_occurrences_seq env oset ⟨0⟩ (fun _ => false))
  refine ⟨trivial, hnd, ?_, ?_, h5, h6⟩
  · rw [h3, he]
    rw [he] at hnd
    exact build_index_enum V.varseq extra hnd
  · intro p hp
    rw [mem_first_appearances]
    exact Or.inl (h4 p hp)

theorem mem_erase {β : Type} (m : HandleMapOf β) (a : Atom) (p : Atom × β)
    (h : p ∈ m.erase a) : p ∈ m := by
  unfold HandleMapOf.erase at h
  exact List.mem_of_mem_filter h

theorem mem_insert {β : Type} (m : HandleMapOf β) (k : Atom) (v : β) (p : Atom × β)
    (h : p ∈ m.insert k v) : p ∈ m ∨ p = (k, v) := by
  unfold HandleMapOf.insert at h
  split at h
  · exact Or.inl h
  · simpa using h

theorem canonical_extend_step (ti : List AtomType → List AtomType → List AtomType)
    (vset V : Variables) (h : Atom) (hc : V.Canonical) :
    (Variables.extend_step ti vset V h).Canonical := by
  obtain ⟨h1, h2, h3, h4, h5, h6⟩ := hc
  unfold Variables.extend_step
  cases hf : V.index.find h with
  | some i =>
    have hmem : h ∈ V.varseq := by
      by_contra hcon
      rw [h3, (find_enum_index_none V.varseq 0 h).mpr hcon] at hf
      exact absurd hf (by simp)
    cases hs : vset._simple_typemap.find h with
    | none => exact ⟨h1, h2, h3, h4, h5, h6⟩
    | some tms =>
      refine ⟨h1, h2, h3, ?_, h5, h6⟩
      intro p hp
      rcases mem_insert _ _ _ _ hp with hp' | hp'
      · exact h4 p (mem_erase _ _ _ hp')
      · rw [hp']; exact hmem
  | none =>
    have hnm : h ∉ V.varseq := by
      rw [h3] at hf
      exact (find_enum_index_none V.varseq 0 h).mp hf
    have hnd : (V.varseq ++ [h]).Nodup :=
      List.Nodup.append h2 (List.nodup_singleton h) (by simpa using hnm)
    have hidx : V.index.insert h V.varseq.length = enum_index (V.varseq ++ [h]) 0 := by
      have hf' : (enum_index V.varseq 0).find h = none := by rw [← h3]; exact hf
      rw [h3]
      simp [HandleMapOf.insert, hf', enum_index_append, enum_index]
    have hset : HandleSet_insert V.varset h = V.varseq ++ [h] := by
      simp [HandleSet_insert, h1, hnm]
    cases hs : vset._simple_typemap.find h with
    | none =>
      refine ⟨hset, hnd, hidx, ?_, h5, h6⟩
      intro p hp
      exact List.mem_append_left _ (h4 p hp)
    | some tms =>
      refine ⟨hset, hnd, hidx, ?_, h5, h6⟩
      intro p hp
      rcases mem_insert _ _ _ _ hp with hp' | hp'
      · exact List.mem_append_left _ (h4 p hp')
      · rw [hp']; simp

theorem canonical_extend (ti : List AtomType → List AtomType → List AtomType)
    (V vset : Variables) (hc : V.Canonical) : (V.extend ti vset).Canonical := by
  unfold Variables.extend
  generalize vset.varseq = l
  induction l generalizing V with
  | nil => exact hc
  | cons h rest ih => exact ih _ (canonical_extend_step ti vset V h hc)

theorem canonical_run (env : Env) (ti : List AtomType → List AtomType → List AtomType)
    (ops : List VarOp) : (VarOp.run env ti ops).Canonical := by
  unfold VarOp.run
  have : ∀ (V : Variables), V.Canonical →
      (ops.foldl (VarOp.apply env ti) V).Canonical := by
    induction ops with
    | nil => intro V h; exact h
    | cons op rest ih =>
      intro V h
      apply ih
      cases op with
      | find_variables oset => exact canonical_find_variables env V oset h
      | extend vset => exact canonical_extend ti V vset h
  exact this _ canonical_empty

theorem Variables.Canonical.to_consistent {V : Variables} (hc : V.Canonical) : V.Consistent := by
  obtain ⟨h1, h2, h3, h4, h5, h6⟩ := hc
  refine ⟨?_, ?_, ?_, ?_, ?_, ?_, ?_, ?_, ?_⟩
  · rw [h3, enum_index_keys]; exact h2
  · rw [h1]; exact h2
  · rw [h1]
  · rw [h3, enum_index_length]
  · intro i hi
    rw [h3, find_enum_index_get V.varseq 0 h2 i hi]
    simp
  · intro v hv; rw [← h1]; exact hv
  · intro p hp; rw [h1]; exact h4 p hp
  · simp [h5]
  · simp [h6]

theorem consistent_varseq_nodup {V : Variables} (hc : V.Consistent) : V.varseq.Nodup := by
  obtain ⟨_, _, _, _, hidx, _⟩ := hc
  rw [List.nodup_iff_injective_get]
  intro i j hij
  have hi := hidx i.1 i.2
  have hj := hidx j.1 j.2
  have : V.varseq.get ⟨i.1, i.2⟩ = V.varseq.get ⟨j.1, j.2⟩ := hij
  rw [this, hj] at hi
  exact Fin.ext (Option.some.inj hi).symm

theorem consistent_keys_perm {V : Variables} (hc : V.Consistent) :
    V.varseq.Perm (V.index.map Prod.fst) := by
  have hnd := consistent_varseq_nodup hc
  obtain ⟨hk, _, _, hlen, hidx, _⟩ := hc
  have hsub : V.varseq ⊆ V.index.map Prod.fst := by
    intro v hv
    obtain ⟨i, hi, rfl⟩ := List.getElem_of_mem hv
    have := find_some_mem _ _ _ (hidx i hi)
    exact List.mem_map_of_mem Prod.fst this
  exact (List.subperm_of_subset hnd hsub).perm_of_length_le (by simp [hlen])

/-- In a consistent Variables the index knows exactly the variables. -/
theorem consistent_known_iff {V : Variables} (hc : V.Consistent) (h : Atom) :
    V.index.find h = none ↔ h ∉ V.varseq := by
  rw [find_eq_none_iff]
  constructor
  · intro hf hv
    have := (consistent_keys_perm hc).mem_iff.mp hv
    obtain ⟨p, hp, hpv⟩ := List.mem_map.mp this
    exact hf p hp hpv
  · intro hv p hp e
    apply hv
    rw [← e]
    exact (consistent_keys_perm hc).mem_iff.mpr (List.mem_map_of_mem Prod.fst hp)

theorem consistent_varset_iff {V : Variables} (hc : V.Consistent) (h : Atom) :
    h ∈ V.varset ↔ h ∈ V.varseq := by
  have hnd := consistent_varseq_nodup hc
  obtain ⟨_, hs, hlen, _, _, hsub, _⟩ := hc
  have : V.varset.Perm V.varseq :=
    (List.subperm_of_subset hs hsub).perm_of_length_le (by simp [hlen])
  exact this.mem_iff

theorem extend_step_varseq (ti : List AtomType → List AtomType → List AtomType)
    (vset W : Variables) (h : Atom) :
    (Variables.extend_step ti vset W h).varseq
      = if (W.index.find h).isNone then W.varseq ++ [h] else W.varseq := by
  unfold Variables.extend_step
  cases W.index.find h <;> cases vset._simple_typemap.find h <;> simp

theorem extend_step_index (ti : List AtomType → List AtomType → List AtomType)
    (vset W : Variables) (h k : Atom) (hk : k ≠ h) :
    (Variables.extend_step ti vset W h).index.find k = W.index.find k := by
  unfold Variables.extend_step
  cases hf : W.index.find h <;> cases vset._simple_typemap.find h <;>
    simp only [find_insert, Ne.symm hk, if_false] <;> cases W.index.find k <;> rfl

theorem extend_step_simple (ti : List AtomType → List AtomType → List AtomType)
    (vset W : Variables) (h k : Atom) (hk : k ≠ h) :
    (Variables.extend_step ti vset W h)._simple_typemap.find k = W._simple_typemap.find k := by
  unfold Variables.extend_step
  cases hf : W.index.find h <;> cases vset._simple_typemap.find h <;>
    simp only [find_insert, find_erase, hk, Ne.symm hk, if_false] <;>
    cases W._simple_typemap.find k <;> rfl

theorem extend_step_simple_new (ti : List AtomType → List AtomType → List AtomType)
    (vset W : Variables) (h : Atom) (hi : W.index.find h = none)
    (hs : W._simple_typemap.find h = none) :
    (Variables.extend_step ti vset W h)._simple_typemap.find h
      = vset._simple_typemap.find h := by
  unfold Variables.extend_step
  cases hv : vset._simple_typemap.find h <;> simp [hi, hs, find_insert]

theorem extend_step_deep (ti : List AtomType → List AtomType → List AtomType)
    (vset W : Variables) (h : Atom) :
    (Variables.extend_step ti vset W h)._deep_typemap = W._deep_typemap ∧
    (Variables.extend_step ti vset W h)._fuzzy_typemap = W._fuzzy_typemap := by
  unfold Variables.extend_step
  cases W.index.find h <;> cases vset._simple_typemap.find h <;> simp

theorem extend_step_varset (ti : List AtomType → List AtomType → List AtomType)
    (vset W : Variables) (h k : Atom) :
    k ∈ (Variables.extend_step ti vset W h).varset ↔
      k ∈ W.varset ∨ (k = h ∧ W.index.find h = none) := by
  unfold Variables.extend_step
  cases hf : W.index.find h <;> cases vset._simple_typemap.find h <;>
    simp only [HandleSet_insert] <;> by_cases hm : h ∈ W.varset <;>
    simp [hm] <;> intro e <;> subst e <;> exact hm

/-- The loop of `extend` over variables `l`, each once, from the state `W`. -/
theorem extend_fold (ti : List AtomType → List AtomType → List AtomType)
    (vset : Variables) (l : HandleSeq) (hn : l.Nodup) :
    ∀ W : Variables,
      (l.foldl (Variables.extend_step ti vset) W).varseq
        = W.varseq ++ l.filter (fun h => (W.index.find h).isNone) ∧
      (l.foldl (Variables.extend_step ti vset) W)._deep_typemap = W._deep_typemap ∧
      (l.foldl (Variables.extend_step ti vset) W)._fuzzy_typemap = W._fuzzy_typemap ∧
      (∀ k, k ∉ l →
        (l.foldl (Variables.extend_step ti vset) W)._simple_typemap.find k
          = W._simple_typemap.find k) ∧
      (∀ h ∈ l, W.index.find h = none → W._simple_typemap.find h = none →
        (l.foldl (Variables.extend_step ti vset) W)._simple_typemap.find h
          = vset._simple_typemap.find h) ∧
      (∀ k, k ∈ (l.foldl (Variables.extend_step ti vset) W).varset ↔
        k ∈ W.varset ∨ (k ∈ l ∧ W.index.find k = none)) := by
  induction l with
  | nil => intro W; simp
  | cons a rest ih =>
    intro W
    have hnd := List.nodup_cons.mp hn
    obtain ⟨i1, i2, i3, i4, i5, i6⟩ := ih hnd.2 (Variables.extend_step ti vset W a)
    have hidx : ∀ k ∈ rest, (Variables.extend_step ti vset W a).index.find k
        = W.index.find k := by
      intro k hk
      exact extend_step_index ti vset W a k (fun e => hnd.1 (e ▸ hk))
    simp only [List.foldl_cons]
    refine ⟨?_, ?_, ?_, ?_, ?_, ?_⟩
    · rw [i1, extend_step_varseq]
      have hfil : rest.filter
            (fun h => ((Variables.extend_step ti vset W a).index.find h).isNone)
          = rest.filter (fun h => (W.index.find h).isNone) := by
        apply List.filter_congr
        intro k hk
        rw [hidx k hk]
      rw [hfil]
      cases hf : W.index.find a <;> simp [List.filter_cons, hf]
    · rw [i2]; exact (extend_step_deep ti vset W a).1
    · rw [i3]; exact (extend_step_deep ti vset W a).2
    · intro k hk
      simp only [List.mem_cons, not_or] at hk
      rw [i4 k hk.2]
      exact extend_step_simple ti vset W a k hk.1
    · intro h hh hi hs
      rcases List.mem_cons.mp hh with e | hr
      · subst e
        rw [i4 h hnd.1]
        exact extend_step_simple_new ti vset W h hi hs
      · have hne : h ≠ a := fun e => hnd.1 (e ▸ hr)
        apply i5 h hr
        · rw [hidx h hr]; exact hi
        · rw [extend_step_simple ti vset W a h hne]; exact hs
    · intro k
      rw [i6, extend_step_varset]
      constructor
      · rintro ((h1 | ⟨h1, h2⟩) | ⟨h1, h2⟩)
        · exact Or.inl h1
        · exact Or.inr ⟨by simp [h1], by rw [h1]; exact h2⟩
        · exact Or.inr ⟨List.mem_cons_of_mem _ h1, by rw [← hidx k h1]; exact h2⟩
      · rintro (h1 | ⟨h1, h2⟩)
        · exact Or.inl (Or.inl h1)
        · rcases List.mem_cons.mp h1 with e | hr
          · exact Or.inl (Or.inr ⟨e, by rw [← e]; exact h2⟩)
          · exact Or.inr ⟨hr, by rw [hidx k hr]; exact h2⟩

mutual
theorem height_nonneg : ∀ a : Atom, 0 ≤ height a
  | Atom.node _ _ => by simp [height]
  | Atom.link _ out => by
    have := height_max_nonneg out
    simp only [height]; omega
theorem height_max_nonneg : ∀ l : HandleSeq, 0 ≤ height_max l
  | [] => by simp [height_max]
  | h :: rest => by
    have := height_nonneg h
    simp only [height_max]
    exact le_trans this (le_max_left _ _)
end

mutual
/-- The code's height is the height of the spec. -/
theorem get_height_eq : ∀ a : Atom, get_height a = height a
  | Atom.node _ _ => by simp [get_height, height]
  | Atom.link _ out => by
    rw [get_height, height, get_height_loop_eq out 0 (le_refl 0)]
    have := height_max_nonneg out
    rw [max_eq_right this]
    omega
theorem get_height_loop_eq : ∀ (l : HandleSeq) (maxd : Int), 0 ≤ maxd →
    get_height_loop l maxd = max maxd (height_max l)
  | [], maxd, h => by simp [get_height_loop, height_max, h]
  | a :: rest, maxd, h => by
    have ha := height_nonneg a
    rw [get_height_loop, get_height_eq a]
    rw [get_height_loop_eq rest _ (by split <;> omega), height_max]
    split <;> rename_i hlt
    · rw [← max_assoc, max_eq_right (le_of_lt hlt)]
    · rw [← max_assoc, max_eq_left (not_lt.mp hlt)]
end

theorem run_calls_append {σ ε : Type} (single : Atom → Int → σ → Except ε σ)
    (l1 l2 : List (Atom × Int)) (s : σ) :
    run_calls single (l1 ++ l2) s =
      match run_calls single l1 s with
      | .error e => .error e
      | .ok s' => run_calls single l2 s' := by
  induction l1 generalizing s with
  | nil => simp [run_calls]
  | cons p rest ih =>
    obtain ⟨a, h⟩ := p
    simp only [List.cons_append, run_calls]
    cases single a h s with
    | error e => rfl
    | ok s' => exact ih s'

mutual
/-- The calls of `do_store_atom` are those of the post-order, one after the
other, and the height returned is the height of the atom. -/
theorem do_store_atom_eq {σ ε : Type} (single : Atom → Int → σ → Except ε σ) :
    ∀ (a : Atom) (s : σ), do_store_atom single a s =
      match run_calls single (store_calls a) s with
      | .error e => .error e
      | .ok s' => .ok (s', height a)
  | Atom.node t n, s => by
    simp only [do_store_atom, store_calls, run_calls, height]
    cases single (Atom.node t n) 0 s <;> rfl
  | Atom.link t out, s => by
    rw [do_store_atom, do_store_atom_loop_eq single out s 0 (le_refl 0), store_calls,
      run_calls_append]
    have hmax : max 0 (height_max out) + 1 = height (Atom.link t out) := by
      rw [max_eq_right (height_max_nonneg out), height]; omega
    cases run_calls single (store_calls_seq out) s with
    | error e => rfl
    | ok s' =>
      simp only [run_calls, hmax]
      cases single (Atom.link t out) (height (Atom.link t out)) s' <;> rfl
theorem do_store_atom_loop_eq {σ ε : Type} (single : Atom → Int → σ → Except ε σ) :
    ∀ (l : HandleSeq) (s : σ) (lheight : Int), 0 ≤ lheight →
      do_store_atom_loop single l s lheight =
        match run_calls single (store_calls_seq l) s with
        | .error e => .error e
        | .ok s' => .ok (s', max lheight (height_max l))
  | [], s, lheight, h => by
    simp [do_store_atom_loop, store_calls_seq, run_calls, height_max, h]
  | a :: rest, s, lheight, h => by
    have ha := height_nonneg a
    rw [do_store_atom_loop, do_store_atom_eq single a s, store_calls_seq, run_calls_append]
    cases run_calls single (store_calls a) s with
    | error e => rfl
    | ok s' =>
      simp only
      rw [do_store_atom_loop_eq single rest s' _ (by split <;> omega), height_max]
      have : max (if lheight < height a then height a else lheight) (height_max rest)
          = max lheight (max (height a) (height_max rest)) := by
        split <;> rename_i hlt
        · rw [← max_assoc, max_eq_right (le_of_lt hlt)]
        · rw [← max_assoc, max_eq_left (not_lt.mp hlt)]
      rw [this]
end

mutual
theorem store_calls_height : ∀ (a : Atom), ∀ p ∈ store_calls a, p.2 = height p.1
  | Atom.node t n => by simp [store_calls, height]
  | Atom.link t out => by
    intro p hp
    simp only [store_calls, List.mem_append, List.mem_singleton] at hp
    rcases hp with hp | hp
    · exact store_calls_seq_height out p hp
    · rw [hp]
theorem store_calls_seq_height : ∀ (l : HandleSeq), ∀ p ∈ store_calls_seq l, p.2 = height p.1
  | [] => by simp [store_calls_seq]
  | a :: rest => by
    intro p hp
    simp only [store_calls_seq, List.mem_append] at hp
    rcases hp with hp | hp
    · exact store_calls_height a p hp
    · exact store_calls_seq_height rest p hp
end

theorem run_calls_record (l s : List (Atom × Int)) :
    run_calls record_call l s = .ok (s ++ l) := by
  induction l generalizing s with
  | nil => simp [run_calls]
  | cons p rest ih =>
    obtain ⟨a, h⟩ := p
    simp [run_calls, record_call, ih]

theorem countP_or_eq_le (p : Nat → Bool) (d : Nat) (l : List Nat) (hn : l.Nodup) :
    l.countP (fun i => decide (i = d) || p i) ≤ l.countP p + 1 := by
  induction l with
  | nil => simp
  | cons a rest ih =>
    have hnd := List.nodup_cons.mp hn
    by_cases ha : a = d
    · subst ha
      have hrest : rest.countP (fun i => decide (i = a) || p i) = rest.countP p := by
        apply List.countP_congr
        intro i hi
        have : i ≠ a := fun e => hnd.1 (e ▸ hi)
        simp [this]
      rw [List.countP_cons, List.countP_cons, hrest]
      simp only [decide_True, Bool.true_or, if_true]
      split <;> omega
    · have := ih hnd.2
      rw [List.countP_cons, List.countP_cons]
      simp only [ha, decide_False, Bool.false_or]
      split <;> omega

theorem used_slots_set_typemap (cs : ClassServer) (sz : Nat) (st : TypeMaps) (d : Nat)
    (name : String) : used_slots sz (set_typemap cs st d name) ≤ used_slots sz st + 1 := by
  unfold used_slots set_typemap
  have h := countP_or_eq_le (fun i => (st.db_typename i).isSome) d (List.range sz)
    (List.nodup_range sz)
  have he : (List.range sz).countP
        (fun i => (array_set st.db_typename d (some name) i).isSome)
      = (List.range sz).countP (fun i => decide (i = d) || (st.db_typename i).isSome) := by
    apply List.countP_congr
    intro i _
    unfold array_set
    by_cases hi : i = d <;> simp [hi]
  simp only [he]
  exact h

theorem used_slots_insert (sz : Nat) (st : TypeMaps) (d : Nat) (name : String) :
    used_slots sz (insert_TypeCodes st d name) = used_slots sz st := rfl

/-- While fewer than `TYPEMAP_SZ` slots are used, the search for the lowest
unused slot finds one. -/
theorem free_slot_found (sz : Nat) (st : TypeMaps) (h : used_slots sz st < sz) :
    ∃ i, (List.range sz).find? (fun sqid => (st.db_typename sqid).isNone) = some i ∧
      i < sz ∧ st.db_typename i = none := by
  cases hf : (List.range sz).find? (fun sqid => (st.db_typename sqid).isNone) with
  | none =>
    exfalso
    rw [List.find?_eq_none] at hf
    have : used_slots sz st = (List.range sz).length := by
      unfold used_slots
      rw [List.countP_eq_length]
      intro i hi
      have := hf i hi
      cases hd : st.db_typename i with
      | none => simp [hd] at this
      | some _ => rfl
    rw [this, List.length_range] at h
    omega
  | some i =>
    refine ⟨i, rfl, ?_, ?_⟩
    · exact List.mem_range.mp (List.mem_of_find?_eq_some hf)
    · have := List.find?_some hf
      cases hd : st.db_typename i with
      | none => rfl
      | some _ => simp [hd] at this

theorem coherent_set_typemap (cs : ClassServer) (sz : Nat) (st : TypeMaps) (d : Nat)
    (name : String) (hc : st.Coherent sz) (hd : d < sz) (hfree : st.db_typename d = none) :
    (set_typemap cs st d name).Coherent sz := by
  obtain ⟨h1, h3⟩ := hc
  constructor
  · intro t ht hne
    simp only [set_typemap, array_set] at hne ⊢
    by_cases htT : t = cs.getType name
    · exact ⟨d, by simp [htT], hd, by simp [htT], by simp⟩
    · simp only [htT, if_false] at hne
      obtain ⟨x, hx1, hx2, hx3, hx4⟩ := h1 t ht hne
      have hxd : x ≠ d := by
        intro e; rw [e, hfree] at hx4; simp at hx4
      exact ⟨x, by simp [htT, hx1], hx2, by simp [hxd, hx3], by simp [hxd, hx4]⟩
  · intro i hi hsome
    simp only [set_typemap, array_set] at hsome ⊢
    by_cases hid : i = d
    · simp only [hid, if_true]
      omega
    · simp only [hid, if_false] at hsome ⊢
      have := h3 i hi hsome
      by_cases hT : st.loading_typemap i = cs.getType name
      · simp only [hT, if_true]; omega
      · simp only [hT, if_false]; exact this

theorem coherent_insert (sz : Nat) (st : TypeMaps) (d : Nat) (name : String)
    (hc : st.Coherent sz) : (insert_TypeCodes st d name).Coherent sz := hc

theorem storing_set_typemap_ne (cs : ClassServer) (st : TypeMaps) (d : Nat) (name : String)
    (t : Nat) (h : st.storing_typemap t ≠ -1) :
    (set_typemap cs st d name).storing_typemap t ≠ -1 := by
  simp only [set_typemap, array_set]
  split
  · omega
  · exact h

/-- The rows of `TypeCodes`, with distinct ids, loaded into coherent maps. -/
theorem load_rows_coherent (cs : ClassServer) (sz : Nat) :
    ∀ (rows : List (Nat × String)) (st : TypeMaps), st.Coherent sz →
      (rows.map Prod.fst).Nodup →
      (∀ r ∈ rows, r.1 < sz ∧ st.db_typename r.1 = none) →
      (rows.foldl (fun s row => set_typemap cs s row.1 row.2) st).Coherent sz ∧
      used_slots sz (rows.foldl (fun s row => set_typemap cs s row.1 row.2) st)
        ≤ used_slots sz st + rows.length
  | [], st, hc, _, _ => ⟨hc, by simp⟩
  | r :: rest, st, hc, hn, hr => by
    have hnd := List.nodup_cons.mp hn
    have h0 := hr r (List.mem_cons_self _ _)
    have hc' := coherent_set_typemap cs sz st r.1 r.2 hc h0.1 h0.2
    have hr' : ∀ r' ∈ rest, r'.1 < sz ∧ (set_typemap cs st r.1 r.2).db_typename r'.1 = none := by
      intro r' hr'
      have h1 := hr r' (List.mem_cons_of_mem _ hr')
      have hne : r'.1 ≠ r.1 := by
        intro e
        apply hnd.1
        rw [← e]
        exact List.mem_map_of_mem Prod.fst hr'
      exact ⟨h1.1, by simp [set_typemap, array_set, hne, h1.2]⟩
    obtain ⟨i1, i2⟩ := load_rows_coherent cs sz rest _ hc' hnd.2 hr'
    have hu := used_slots_set_typemap cs sz st r.1 r.2
    refine ⟨i1, ?_⟩
    simp only [List.foldl_cons, List.length_cons] at i2 ⊢
    omega

/-- The loop over the local types gives every one of them a code, without
abort while there are slots left. -/
theorem setup_typemap_loop_ok (cs : ClassServer) (sz : Nat) :
    ∀ (ts : List Nat) (st : TypeMaps), st.Coherent sz →
      used_slots sz st + ts.length ≤ sz →
      (∀ t ∈ ts, t < sz ∧ cs.getType (cs.getTypeName t) = t) →
      ∃ st', setup_typemap_loop cs sz ts st = some st' ∧ st'.Coherent sz ∧
        (∀ t, st.storing_typemap t ≠ -1 → st'.storing_typemap t ≠ -1) ∧
        (∀ t ∈ ts, st'.storing_typemap t ≠ -1)
  | [], st, hc, _, _ => ⟨st, rfl, hc, fun _ h => h, by simp⟩
  | t :: rest, st, hc, hu, ht => by
    have h0 := ht t (List.mem_cons_self _ _)
    have htr : ∀ t' ∈ rest, t' < sz ∧ cs.getType (cs.getTypeName t') = t' :=
      fun t' h => ht t' (List.mem_cons_of_mem _ h)
    simp only [List.length_cons] at hu
    -- one step with a free slot `d`
    have step : ∀ d, d < sz → st.db_typename d = none →
        ∃ st', setup_typemap_loop cs sz rest
            (set_typemap cs (insert_TypeCodes st d (cs.getTypeName t)) d (cs.getTypeName t))
              = some st' ∧ st'.Coherent sz ∧
          (∀ t', st.storing_typemap t' ≠ -1 → st'.storing_typemap t' ≠ -1) ∧
          (∀ t' ∈ t :: rest, st'.storing_typemap t' ≠ -1) := by
      intro d hd hfree
      have hc' := coherent_set_typemap cs sz (insert_TypeCodes st d (cs.getTypeName t)) d
        (cs.getTypeName t) (coherent_insert sz st d _ hc) hd hfree
      have hu' := used_slots_set_typemap cs sz (insert_TypeCodes st d (cs.getTypeName t)) d
        (cs.getTypeName t)
      rw [used_slots_insert] at hu'
      obtain ⟨st', e1, e2, e3, e4⟩ := setup_typemap_loop_ok cs sz rest _ hc'
        (by omega) htr
      have hset : (set_typemap cs (insert_TypeCodes st d (cs.getTypeName t)) d
          (cs.getTypeName t)).storing_typemap t ≠ -1 := by
        simp only [set_typemap, array_set, h0.2, if_true]
        omega
      refine ⟨st', e1, e2, ?_, ?_⟩
      · intro t' h'
        exact e3 t' (storing_set_typemap_ne cs _ d _ t' h')
      · intro t' h'
        rcases List.mem_cons.mp h' with e | hr
        · rw [e]; exact e3 t hset
        · exact e4 t' hr
    rw [setup_typemap_loop]
    by_cases hs : st.storing_typemap t = -1
    · simp only [hs, if_true]
      by_cases hcond : ((st.db_typename t).isSome && st.loading_typemap t != t) = true
      · simp only [hcond, if_true]
        obtain ⟨d, hd1, hd2, hd3⟩ := free_slot_found sz st (by omega)
        rw [hd1]
        exact step d hd2 hd3
      · simp only [hcond, Bool.false_eq_true, if_false]
        apply step t h0.1
        cases hdb : st.db_typename t with
        | none => rfl
        | some nm =>
          exfalso
          have hl : st.loading_typemap t = t := by
            simpa [hdb] using hcond
          have := hc.2 t h0.1 (by simp [hdb])
          rw [hl] at this
          exact this hs
    · simp only [hs, if_false]
      obtain ⟨st', e1, e2, e3, e4⟩ := setup_typemap_loop_ok cs sz rest st hc (by omega) htr
      refine ⟨st', e1, e2, e3, ?_⟩
      intro t' h'
      rcases List.mem_cons.mp h' with e | hr
      · rw [e]; exact e3 t hs
      · exact e4 t' hr

mutual
theorem store_calls_fst : ∀ (a : Atom), (store_calls a).map Prod.fst = post_order a
  | Atom.node t n => by simp [store_calls, post_order]
  | Atom.link t out => by
    simp [store_calls, post_order, store_calls_seq_fst out]
theorem store_calls_seq_fst : ∀ (l : HandleSeq),
    (store_calls_seq l).map Prod.fst = post_order_seq l
  | [] => by simp [store_calls_seq, post_order_seq]
  | a :: rest => by
    simp [store_calls_seq, post_order_seq, store_calls_fst a, store_calls_seq_fst rest]
end

theorem post_order_getLast : ∀ (a : Atom), (post_order a).getLast? = some a
  | Atom.node t n => by simp [post_order]
  | Atom.link t out => by simp [post_order]

@[simp] theorem emit_typemaps (st : Storage) (evs : List Event) :
    (st.emit evs).typemaps = st.typemaps := rfl
@[simp] theorem emit_local_id_cache (st : Storage) (evs : List Event) :
    (st.emit evs).local_id_cache = st.local_id_cache := rfl
@[simp] theorem emit_id_create_cache (st : Storage) (evs : List Event) :
    (st.emit evs).id_create_cache = st.id_create_cache := rfl
@[simp] theorem emit_table_id_cache (st : Storage) (evs : List Event) :
    (st.emit evs).table_id_cache = st.table_id_cache := rfl
@[simp] theorem emit_max_height (st : Storage) (evs : List Event) :
    (st.emit evs).max_height = st.max_height := rfl
@[simp] theorem emit_log (st : Storage) (evs : List Event) :
    (st.emit evs).log = st.log ++ evs := rfl

theorem atoms_statements_append (a b : List Event) :
    atoms_statements (a ++ b) = atoms_statements a ++ atoms_statements b := by
  simp [atoms_statements, List.filterMap_append]

theorem atoms_statements_aux (evs : List Event) (h : ∀ e ∈ evs, e.is_aux = true) :
    atoms_statements evs = [] := by
  induction evs with
  | nil => rfl
  | cons e rest ih =>
    have he := h e (List.mem_cons_self _ _)
    have hr := ih (fun e' he' => h e' (List.mem_cons_of_mem _ he'))
    unfold atoms_statements at hr ⊢
    rw [List.filterMap_cons]
    cases e with
    | exec s => cases s <;> simp_all [Event.is_aux]
    | _ => simp_all

theorem held_all_append (held : Mutex → Bool) (a b : List Event) :
    held_all held (a ++ b) = held_all (held_all held a) b := by
  simp [held_all, List.foldl_append]

/-- What a step leaves of the state: the ID caches and the maximum height are
those of before, and the log has grown by auxiliary events. -/
theorem setup_typemap_storage (env : StoreEnv) (st st1 : Storage)
    (h : st.setup_typemap env = some st1) :
    st1.local_id_cache = st.local_id_cache ∧ st1.id_create_cache = st.id_create_cache ∧
    st1.max_height = st.max_height ∧
    ∃ evs, st1.log = st.log ++ evs ∧ ∀ e ∈ evs, e.is_aux = true := by
  unfold Storage.setup_typemap at h
  cases hs : ODBCAtomStorage.setup_typemap env.cs env.TYPEMAP_SZ st.typemaps with
  | none => simp [hs] at h
  | some tm =>
    simp only [hs] at h
    split at h
    · cases h
      exact ⟨rfl, rfl, rfl, [], by simp, by simp⟩
    · cases h
      refine ⟨rfl, rfl, rfl, _, rfl, ?_⟩
      intro e he
      simp only [List.mem_append, List.mem_cons, List.mem_map, List.mem_singleton,
        List.not_mem_nil, or_false] at he
      rcases he with ((rfl | rfl) | ⟨row, _, rfl⟩) | rfl <;> rfl

theorem store_atomtable_id_storage : ∀ (tab : AtomTable) (st : Storage),
    (store_atomtable_id tab st).local_id_cache = st.local_id_cache ∧
    (store_atomtable_id tab st).id_create_cache = st.id_create_cache ∧
    (store_atomtable_id tab st).max_height = st.max_height ∧
    ∃ evs, (store_atomtable_id tab st).log = st.log ++ evs ∧ ∀ e ∈ evs, e.is_aux = true
  | AtomTable.top tab_id, st => by
    unfold store_atomtable_id
    split
    · exact ⟨rfl, rfl, rfl, [], by simp, by simp⟩
    · refine ⟨rfl, rfl, rfl, _, rfl, ?_⟩
      intro e he
      simp only [List.mem_cons, List.mem_singleton, List.not_mem_nil, or_false] at he
      rcases he with rfl | rfl | rfl | rfl | rfl <;> rfl
  | AtomTable.sub tab_id environ, st => by
    unfold store_atomtable_id
    split
    · exact ⟨rfl, rfl, rfl, [], by simp, by simp⟩
    · obtain ⟨h1, h2, h3, evs, h4, h5⟩ := store_atomtable_id_storage environ
        { st with table_id_cache := insert tab_id st.table_id_cache }
      refine ⟨h1, h2, h3, evs ++ _, by simp only [emit_log, h4, List.append_assoc]; rfl, ?_⟩
      intro e he
      simp only [List.mem_append, List.mem_cons, List.mem_singleton, List.not_mem_nil,
        or_false] at he
      rcases he with he | rfl | rfl | rfl | rfl | rfl
      · exact h5 e he
      all_goals rfl

theorem maybe_create_id_known (st : Storage) (uuid : UUID) (h : uuid ∈ st.local_id_cache) :
    maybe_create_id st uuid = some (false,
      (st.emit [Event.lock Mutex.id_create_mutex, Event.lock Mutex.id_cache_mutex]).emit
        [Event.unlock Mutex.id_cache_mutex, Event.unlock Mutex.id_create_mutex]) := by
  simp [maybe_create_id, h]

theorem maybe_create_id_creating (st : Storage) (uuid : UUID) (h : uuid ∉ st.local_id_cache)
    (h2 : uuid ∈ st.id_create_cache) : maybe_create_id st uuid = none := by
  simp [maybe_create_id, h, h2]

theorem maybe_create_id_new (st : Storage) (uuid : UUID) (h : uuid ∉ st.local_id_cache)
    (h2 : uuid ∉ st.id_create_cache) :
    maybe_create_id st uuid = some (true,
      ({ st.emit [Event.lock Mutex.id_create_mutex, Event.lock Mutex.id_cache_mutex] with
          id_create_cache := insert uuid st.id_create_cache }).emit
        [Event.unlock Mutex.id_cache_mutex]) := by
  simp [maybe_create_id, h, h2]

theorem maybe_create_id_some (st st2 : Storage) (uuid : UUID) (owns : Bool)
    (h : maybe_create_id st uuid = some (owns, st2)) :
    st2.local_id_cache = st.local_id_cache ∧ st2.max_height = st.max_height ∧
    (owns = false → uuid ∈ st.local_id_cache ∧ st2.id_create_cache = st.id_create_cache ∧
      st2.log = st.log ++ [Event.lock Mutex.id_create_mutex, Event.lock Mutex.id_cache_mutex,
        Event.unlock Mutex.id_cache_mutex, Event.unlock Mutex.id_create_mutex]) ∧
    (owns = true → uuid ∉ st.local_id_cache ∧ uuid ∉ st.id_create_cache ∧
      st2.id_create_cache = insert uuid st.id_create_cache ∧
      st2.log = st.log ++ [Event.lock Mutex.id_create_mutex, Event.lock Mutex.id_cache_mutex,
        Event.unlock Mutex.id_cache_mutex]) := by
  by_cases h1 : uuid ∈ st.local_id_cache
  · rw [maybe_create_id_known st uuid h1] at h
    cases h
    simp [h1]
  · by_cases h2 : uuid ∈ st.id_create_cache
    · rw [maybe_create_id_creating st uuid h1 h2] at h
      cases h
    · rw [maybe_create_id_new st uuid h1 h2] at h
      cases h
      simp [h1, h2]

theorem add_id_to_cache_storage (st : Storage) (uuid : UUID) :
    (add_id_to_cache st uuid).local_id_cache = insert uuid st.local_id_cache ∧
    (add_id_to_cache st uuid).id_create_cache = st.id_create_cache.erase uuid ∧
    (add_id_to_cache st uuid).max_height = st.max_height ∧
    (add_id_to_cache st uuid).log = st.log ++
      [Event.lock Mutex.id_cache_mutex, Event.unlock Mutex.id_cache_mutex] := by
  unfold add_id_to_cache
  by_cases h : uuid ∈ st.id_create_cache
  · simp [h]
  · simp [h, Finset.erase_eq_of_not_mem]

theorem exec_qry_storage (env : StoreEnv) (atom : Atom) (qry : Statement) (st : Storage) :
    (exec_qry env atom qry st).local_id_cache = st.local_id_cache ∧
    (exec_qry env atom qry st).id_create_cache = st.id_create_cache ∧
    (exec_qry env atom qry st).max_height = st.max_height ∧
    ∃ mid, (∀ e ∈ mid, e.is_aux = true) ∧
      ((exec_qry env atom qry st).log =
          st.log ++ ([Event.get_conn, Event.exec qry] ++ [Event.put_conn]) ∨
       (exec_qry env atom qry st).log =
          st.log ++ ([Event.get_conn, Event.exec qry] ++ (mid ++ [Event.exec qry, Event.put_conn]))) := by
  unfold exec_qry
  by_cases hok : env.exec_ok qry = true
  · simp only [hok, if_true]
    exact ⟨rfl, rfl, rfl, [], by simp, Or.inl (by simp)⟩
  · simp only [hok]
    cases hat : env.getAtomTable atom with
    | none =>
      exact ⟨rfl, rfl, rfl, [], by simp, Or.inr (by simp)⟩
    | some tab =>
      obtain ⟨h1, h2, h3, evs, h4, h5⟩ := store_atomtable_id_storage tab
        (st.emit [Event.get_conn, Event.exec qry])
      refine ⟨by simpa using h1, by simpa using h2, by simpa using h3, evs, h5, Or.inr ?_⟩
      simp [h4]

theorem store_truth_value_known (env : StoreEnv) (update : Bool) (tv : Option TruthValue)
    (c : Columns) (h : tv_known tv = true) :
    ∃ c', store_truth_value env update tv c = .ok c' := by
  unfold store_truth_value
  cases tv with
  | none => exact ⟨_, rfl⟩
  | some v =>
    simp only [tv_known] at h
    cases hv : v.getType <;> simp_all

theorem store_truth_value_unknown (env : StoreEnv) (update : Bool) (tv : Option TruthValue)
    (c : Columns) (h : tv_known tv = false) :
    store_truth_value env update tv c = .error RuntimeException.unknown_truth_value_type := by
  unfold store_truth_value
  cases tv with
  | none => simp [tv_known] at h
  | some v =>
    simp only [tv_known] at h
    cases hv : v.getType <;> simp_all

@[simp] theorem emit_nil (st : Storage) : st.emit [] = st := by
  cases st; simp [Storage.emit]

theorem do_store_single_atom_update (env : StoreEnv) (atom : Atom) (aheight : Int)
    (st st1 st2 : Storage) (hs : st.setup_typemap env = some st1)
    (hm : maybe_create_id st1 (env.addAtom atom) = some (false, st2)) :
    do_store_single_atom env atom aheight st =
      match store_truth_value env true (env.getTruthValue atom)
          ⟨false, "UPDATE Atoms SET ", ""⟩ with
      | .error e => some (.error e, st2)
      | .ok c => some (.ok (), add_id_to_cache (exec_qry env atom
          (Statement.atoms (c.cols ++ c.vals ++
            (" WHERE uuid = " ++ to_string (env.addAtom atom) ++ ";"))) st2)
          (env.addAtom atom)) := by
  simp only [do_store_single_atom, hs, hm, Bool.not_false, if_true]
  cases store_truth_value env true (env.getTruthValue atom) ⟨false, "UPDATE Atoms SET ", ""⟩ with
  | error e => cases st2; simp [Storage.emit]
  | ok c => cases st2; simp [Storage.emit]

theorem do_store_single_atom_insert (env : StoreEnv) (atom : Atom) (aheight : Int)
    (st st1 st2 : Storage) (hs : st.setup_typemap env = some st1)
    (hm : maybe_create_id st1 (env.addAtom atom) = some (true, st2))
    (ft : Except RuntimeException Columns × Int)
    (hft : store_first_time env st2.typemaps.storing_typemap atom aheight st2.max_height
          (STMT false ⟨false, "INSERT INTO Atoms (", ") VALUES ("⟩ "uuid"
            (to_string (env.addAtom atom))) = ft) :
    do_store_single_atom env atom aheight st =
      match ft.1 with
      | .error e =>
        some (.error e,
          { st2 with max_height := ft.2 }.emit [Event.unlock Mutex.id_create_mutex])
      | .ok c =>
        match store_truth_value env false (env.getTruthValue atom) c with
        | .error e =>
          some (.error e,
            { st2 with max_height := ft.2 }.emit [Event.unlock Mutex.id_create_mutex])
        | .ok c' =>
          some (.ok (), (add_id_to_cache (exec_qry env atom
            (Statement.atoms (c'.cols ++ c'.vals ++ ");")) { st2 with max_height := ft.2 })
            (env.addAtom atom)).emit [Event.unlock Mutex.id_create_mutex]) := by
  subst hft
  simp only [do_store_single_atom, hs, hm, Bool.not_true, if_true]
  rfl

theorem utf8ByteSize_append (a b : String) :
    (a ++ b).utf8ByteSize = a.utf8ByteSize + b.utf8ByteSize := by
  cases a with
  | mk a =>
    cases b with
    | mk b =>
      show String.utf8ByteSize ⟨a ++ b⟩ = _
      simp [String.utf8ByteSize, String.utf8Len_append]

theorem utf8ByteSize_replicate (n : Nat) :
    (String.mk (List.replicate n 'a')).utf8ByteSize = n := by
  simp only [String.utf8ByteSize, String.utf8ByteSize.go_eq]
  induction n with
  | zero => rfl
  | succ n ih => simp only [List.replicate_succ, String.utf8Len_cons, ih]; rfl

theorem qname_size (name : String) :
    (" $ocp$" ++ name ++ "$ocp$ ").utf8ByteSize = name.utf8ByteSize + 12 := by
  rw [utf8ByteSize_append, utf8ByteSize_append]
  have h1 : " $ocp$".utf8ByteSize = 6 := by decide
  have h2 : "$ocp$ ".utf8ByteSize = 6 := by decide
  omega

theorem store_first_time_node (env : StoreEnv) (stm : Nat → Int) (t : AtomType) (name : String)
    (aheight mh : Int) (c : Columns) :
    (2688 < name.utf8ByteSize →
      store_first_time env stm (Atom.node t name) aheight mh c =
        (.error RuntimeException.node_name_size, mh)) ∧
    (name.utf8ByteSize ≤ 2688 →
      ∃ c', store_first_time env stm (Atom.node t name) aheight mh c = (.ok c', mh)) := by
  constructor
  · intro h
    have hq : 2700 < (" $ocp$" ++ name ++ "$ocp$ ").utf8ByteSize := by rw [qname_size]; omega
    simp [store_first_time, hq]
  · intro h
    have hq : ¬ 2700 < (" $ocp$" ++ name ++ "$ocp$ ").utf8ByteSize := by rw [qname_size]; omega
    simp [store_first_time, hq]

/-- The first store of a node, by the size of its name and by its truth value. -/
theorem do_store_single_atom_node (env : StoreEnv) (t : AtomType) (name : String)
    (aheight : Int) (st : Storage)
    (hs : (st.setup_typemap env).isSome = true)
    (h1 : env.addAtom (Atom.node t name) ∉ st.local_id_cache)
    (h2 : env.addAtom (Atom.node t name) ∉ st.id_create_cache) :
    ∃ r st', do_store_single_atom env (Atom.node t name) aheight st = some (r, st') ∧
      (r = .error RuntimeException.node_name_size ↔ 2688 < name.utf8ByteSize) ∧
      (r = .ok () ↔ name.utf8ByteSize ≤ 2688 ∧
        tv_known (env.getTruthValue (Atom.node t name)) = true) := by
  obtain ⟨st1, hs1⟩ := Option.isSome_iff_exists.mp hs
  obtain ⟨e1, e2, _, _⟩ := setup_typemap_storage env st st1 hs1
  have hm := maybe_create_id_new st1 _ (e1 ▸ h1) (e2 ▸ h2)
  rw [do_store_single_atom_insert env _ aheight st st1 _ hs1 hm _ rfl]
  by_cases hn : 2688 < name.utf8ByteSize
  · rw [(store_first_time_node env _ t name aheight _ _).1 hn]
    refine ⟨_, _, rfl, by simp [hn], ?_⟩
    constructor
    · intro h; cases h
    · intro h; omega
  · obtain ⟨c', hc'⟩ := (store_first_time_node env st1.typemaps.storing_typemap t name aheight
      st1.max_height (STMT false ⟨false, "INSERT INTO Atoms (", ") VALUES ("⟩ "uuid"
        (to_string (env.addAtom (Atom.node t name))))).2 (by omega)
    simp only [emit_typemaps, emit_max_height] at hc' ⊢
    rw [hc']
    simp only
    by_cases hk : tv_known (env.getTruthValue (Atom.node t name)) = true
    · obtain ⟨c'', hc''⟩ := store_truth_value_known env false _ c' hk
      rw [hc'']
      exact ⟨_, _, rfl, by simp [hn], by simp [hk]; omega⟩
    · rw [store_truth_value_unknown env false _ c' (by simpa using hk)]
      exact ⟨_, _, rfl, by simp [hn], by simp [hk]⟩

theorem grows_refl (c : Columns) : c.Grows c := ⟨"", "", by simp, by simp⟩

theorem grows_trans {a b c : Columns} (h1 : a.Grows b) (h2 : b.Grows c) : a.Grows c := by
  obtain ⟨x, y, hx, hy⟩ := h1
  obtain ⟨x', y', hx', hy'⟩ := h2
  exact ⟨x ++ x', y ++ y', by rw [hx', hx, String.append_assoc],
    by rw [hy', hy, String.append_assoc]⟩

theorem STMT_grows (update : Bool) (c : Columns) (colname val : String) :
    c.Grows (STMT update c colname val) := by
  unfold STMT
  cases update <;> cases hn : c.notfirst
  · exact ⟨colname, val, by simp, by simp⟩
  · exact ⟨", " ++ colname, ", " ++ val, by simp [String.append_assoc],
      by simp [String.append_assoc]⟩
  · exact ⟨colname ++ " = " ++ val, "", by simp [String.append_assoc], by simp⟩
  · exact ⟨", " ++ colname ++ " = " ++ val, "", by simp [String.append_assoc], by simp⟩

theorem store_truth_value_grows (env : StoreEnv) (update : Bool) (tv : Option TruthValue)
    (c c' : Columns) (h : store_truth_value env update tv c = .ok c') : c.Grows c' := by
  unfold store_truth_value at h
  cases tv with
  | none =>
    simp only [Except.ok.injEq] at h
    subst h
    exact STMT_grows _ _ _ _
  | some v =>
    simp only at h
    cases hv : v.getType <;> simp only [hv] at h <;> cases h <;>
      simp only [STMTF, STMTI] <;>
      first
        | exact STMT_grows _ _ _ _
        | exact grows_trans (STMT_grows _ _ _ _) (grows_trans (STMT_grows _ _ _ _)
            (grows_trans (STMT_grows _ _ _ _) (STMT_grows _ _ _ _)))

theorem exec_qry_log (env : StoreEnv) (atom : Atom) (qry : Statement) (st : Storage) :
    ∃ mid, (∀ e ∈ mid, e.is_aux = true ∨ e = Event.exec qry) ∧
      (exec_qry env atom qry st).log =
        st.log ++ ([Event.get_conn, Event.exec qry] ++ mid ++ [Event.put_conn]) := by
  obtain ⟨_, _, _, mid, hmid, h | h⟩ := exec_qry_storage env atom qry st
  · exact ⟨[], by simp, by simpa using h⟩
  · refine ⟨mid ++ [Event.exec qry], ?_, by simpa using h⟩
    intro e he
    simp only [List.mem_append, List.mem_singleton] at he
    rcases he with he | he
    · exact Or.inl (hmid e he)
    · exact Or.inr he

theorem is_INSERT_append (x : String) :
    is_INSERT ("INSERT INTO Atoms (" ++ x) = true ∧ is_UPDATE ("INSERT INTO Atoms (" ++ x) = false := by
  have h : "INSERT INTO Atoms (".data = ['I', 'N', 'S', 'E', 'R', 'T', ' ', 'I', 'N', 'T', 'O', ' ',
      'A', 't', 'o', 'm', 's', ' ', '('] := rfl
  have h2 : "UPDATE Atoms SET ".data = ['U', 'P', 'D', 'A', 'T', 'E', ' ', 'A', 't', 'o', 'm', 's',
      ' ', 'S', 'E', 'T', ' '] := rfl
  constructor
  · simp [is_INSERT, String.data_append]
  · simp [is_UPDATE, String.data_append, h, h2, List.isPrefixOf]

theorem is_UPDATE_append (x : String) :
    is_UPDATE ("UPDATE Atoms SET " ++ x) = true ∧ is_INSERT ("UPDATE Atoms SET " ++ x) = false := by
  have h : "INSERT INTO Atoms (".data = ['I', 'N', 'S', 'E', 'R', 'T', ' ', 'I', 'N', 'T', 'O', ' ',
      'A', 't', 'o', 'm', 's', ' ', '('] := rfl
  have h2 : "UPDATE Atoms SET ".data = ['U', 'P', 'D', 'A', 'T', 'E', ' ', 'A', 't', 'o', 'm', 's',
      ' ', 'S', 'E', 'T', ' '] := rfl
  constructor
  · simp [is_UPDATE, String.data_append]
  · simp [is_INSERT, String.data_append, h, h2, List.isPrefixOf]

theorem STMTI_grows (update : Bool) (c : Columns) (colname : String) (ival : Int) :
    c.Grows (STMTI update c colname ival) := STMT_grows _ _ _ _

theorem store_first_time_grows (env : StoreEnv) (stm : Nat → Int) (atom : Atom)
    (aheight mh : Int) (c c' : Columns)
    (h : (store_first_time env stm atom aheight mh c).1 = .ok c') : c.Grows c' := by
  have g2 : ∀ x : Columns, c.Grows (STMTI false (STMT false c "space"
      (match env.getAtomTable atom with
       | some tab => to_string tab.get_uuid
       | none => "0")) "type" (stm atom.getType)) := fun _ =>
    grows_trans (STMT_grows _ _ _ _) (STMTI_grows _ _ _ _)
  cases atom with
  | node t name =>
    simp only [store_first_time] at h
    split at h
    · cases h
    · cases h
      exact grows_trans (g2 c) (grows_trans (STMT_grows _ _ _ _) (STMTI_grows _ _ _ _))
  | link t out =>
    simp only [store_first_time] at h
    split at h
    · cases h
    · split at h
      · cases h
        exact grows_trans (g2 c) (grows_trans (STMTI_grows false _ "height" aheight)
          ⟨", outgoing", ", " ++ oset_to_string env.addAtom out out.length, rfl,
            by simp [String.append_assoc]⟩)
      · cases h
        exact grows_trans (g2 c) (STMTI_grows _ _ _ _)

theorem store_first_time_link (env : StoreEnv) (stm : Nat → Int) (t : AtomType) (out : HandleSeq)
    (aheight mh : Int) (c : Columns) :
    (330 < out.length →
      (store_first_time env stm (Atom.link t out) aheight mh c).1 =
        .error RuntimeException.link_size) ∧
    (out.length ≤ 330 →
      ∃ c', (store_first_time env stm (Atom.link t out) aheight mh c).1 = .ok c' ∧
        (out ≠ [] → ∃ x, c'.vals = x ++ oset_to_string env.addAtom out out.length)) := by
  constructor
  · intro h
    simp [store_first_time, h]
  · intro h
    have h' : ¬ 330 < out.length := by omega
    by_cases h0 : out.length = 0
    · simp only [store_first_time, h', h0, if_false, ne_eq, not_true_eq_false]
      refine ⟨_, rfl, ?_⟩
      intro hne
      exact absurd (List.length_eq_zero.mp h0) hne
    · simp only [store_first_time, h', h0, if_false, ne_eq, not_false_eq_true, if_true]
      refine ⟨_, rfl, ?_⟩
      intro _
      exact ⟨_, rfl⟩

/-- What a call of `do_store_single_atom` that returns or throws has done: the
events of `setup_typemap`, the arbitration, then, for a call that returns, the
execution of one statement `qry` (twice when the first execution gives no
record set) and the note in the cache; and what it leaves in the ID caches. -/
theorem do_store_single_atom_events (env : StoreEnv) (atom : Atom) (aheight : Int)
    (st st' : Storage) (r : Except RuntimeException Unit)
    (hr : do_store_single_atom env atom aheight st = some (r, st')) :
    ∃ (owns : Bool) (setup_evs : List Event),
      (∀ e ∈ setup_evs, e.is_aux = true) ∧
      (owns = false → env.addAtom atom ∈ st.local_id_cache) ∧
      (owns = true → env.addAtom atom ∉ st.local_id_cache ∧
        env.addAtom atom ∉ st.id_create_cache) ∧
      (∀ e, r = .error e →
        st'.log = st.log ++ (setup_evs ++
          ([Event.lock Mutex.id_create_mutex, Event.lock Mutex.id_cache_mutex,
            Event.unlock Mutex.id_cache_mutex] ++
              (if owns then [] else [Event.unlock Mutex.id_create_mutex])) ++
          (if owns then [Event.unlock Mutex.id_create_mutex] else [])) ∧
        st'.local_id_cache = st.local_id_cache ∧
        st'.id_create_cache =
          (if owns then insert (env.addAtom atom) st.id_create_cache else st.id_create_cache)) ∧
      (r = .ok () → ∃ qry mid,
        (∀ e ∈ mid, e.is_aux = true ∨ e = Event.exec (Statement.atoms qry)) ∧
        st'.log = st.log ++ (setup_evs ++
          ([Event.lock Mutex.id_create_mutex, Event.lock Mutex.id_cache_mutex,
            Event.unlock Mutex.id_cache_mutex] ++
              (if owns then [] else [Event.unlock Mutex.id_create_mutex])) ++
          ([Event.get_conn, Event.exec (Statement.atoms qry)] ++ mid ++ [Event.put_conn]) ++
          [Event.lock Mutex.id_cache_mutex, Event.unlock Mutex.id_cache_mutex] ++
          (if owns then [Event.unlock Mutex.id_create_mutex] else [])) ∧
        st'.local_id_cache = insert (env.addAtom atom) st.local_id_cache ∧
        st'.id_create_cache = st.id_create_cache.erase (env.addAtom atom) ∧
        is_INSERT qry = owns ∧ is_UPDATE qry = !owns ∧
        (owns = true → ∀ t out, atom = Atom.link t out → out ≠ [] →
          ∃ pre post, qry = pre ++ oset_to_string env.addAtom out out.length ++ post)) := by
  cases hs : st.setup_typemap env with
  | none => simp [do_store_single_atom, hs] at hr
  | some st1 =>
    obtain ⟨e1, e2, _, evs_s, e4, e5⟩ := setup_typemap_storage env st st1 hs
    cases hm : maybe_create_id st1 (env.addAtom atom) with
    | none => simp [do_store_single_atom, hs, hm] at hr
    | some p =>
      obtain ⟨owns, st2⟩ := p
      obtain ⟨m1, _, m3, m4⟩ := maybe_create_id_some st1 st2 _ owns hm
      cases owns with
      | false =>
        obtain ⟨m5, m6, m7⟩ := m3 rfl
        rw [do_store_single_atom_update env atom aheight st st1 st2 hs hm] at hr
        refine ⟨false, evs_s, e5, fun _ => e1 ▸ m5, (fun h => by cases h), ?_, ?_⟩
        · intro e he
          subst he
          cases htv : store_truth_value env true (env.getTruthValue atom)
              ⟨false, "UPDATE Atoms SET ", ""⟩ with
          | error e' =>
            simp only [htv, Option.some.injEq, Prod.mk.injEq] at hr
            obtain ⟨_, rfl⟩ := hr
            refine ⟨?_, by rw [m1, e1], by simp [m6, e2]⟩
            rw [m7, e4]; simp
          | ok c => simp [htv] at hr
        · intro he
          subst he
          cases htv : store_truth_value env true (env.getTruthValue atom)
              ⟨false, "UPDATE Atoms SET ", ""⟩ with
          | error e' => simp [htv] at hr
          | ok c =>
            simp only [htv, Option.some.injEq, Prod.mk.injEq, true_and] at hr
            subst hr
            obtain ⟨x, y, hx, hy⟩ := store_truth_value_grows env true _ _ c htv
            obtain ⟨a1, a2, _, a4⟩ := add_id_to_cache_storage (exec_qry env atom
              (Statement.atoms (c.cols ++ c.vals ++
                (" WHERE uuid = " ++ to_string (env.addAtom atom) ++ ";"))) st2) (env.addAtom atom)
            obtain ⟨x1, x2, _, _⟩ := exec_qry_storage env atom
              (Statement.atoms (c.cols ++ c.vals ++
                (" WHERE uuid = " ++ to_string (env.addAtom atom) ++ ";"))) st2
            obtain ⟨mid, hmid, hlog⟩ := exec_qry_log env atom
              (Statement.atoms (c.cols ++ c.vals ++
                (" WHERE uuid = " ++ to_string (env.addAtom atom) ++ ";"))) st2
            refine ⟨_, mid, hmid, ?_, by rw [a1, x1, m1, e1], by rw [a2, x2, m6, e2], ?_, ?_,
              fun h => by cases h⟩
            · rw [a4, hlog, m7, e4]; simp
            · rw [hx]
              simp only [String.append_assoc]
              exact (is_UPDATE_append _).2
            · rw [hx]
              simp only [String.append_assoc]
              exact (is_UPDATE_append _).1
      | true =>
        obtain ⟨m5, m6, m7, m8⟩ := m4 rfl
        obtain ⟨ft, hft0⟩ : ∃ ft, store_first_time env st2.typemaps.storing_typemap atom aheight
            st2.max_height (STMT false ⟨false, "INSERT INTO Atoms (", ") VALUES ("⟩ "uuid"
              (to_string (env.addAtom atom))) = ft := ⟨_, rfl⟩
        obtain ⟨stx, hstx⟩ : ∃ stx : Storage, { st2 with max_height := ft.2 } = stx := ⟨_, rfl⟩
        have k1 : stx.log = st2.log := by rw [← hstx]
        have k2 : stx.local_id_cache = st2.local_id_cache := by rw [← hstx]
        have k3 : stx.id_create_cache = st2.id_create_cache := by rw [← hstx]
        rw [do_store_single_atom_insert env atom aheight st st1 st2 hs hm ft hft0, hstx] at hr
        refine ⟨true, evs_s, e5, (fun h => by cases h),
          fun _ => ⟨e1 ▸ m5, e2 ▸ m6⟩, ?_, ?_⟩
        · intro e he
          subst he
          cases hft : ft.1 with
          | error e' =>
            simp only [hft, Option.some.injEq, Prod.mk.injEq] at hr
            obtain ⟨_, rfl⟩ := hr
            refine ⟨?_, by simp [k2, m1, e1], by simp [k3, m7, e2]⟩
            simp [k1, m8, e4]
          | ok c =>
            simp only [hft] at hr
            cases htv : store_truth_value env false (env.getTruthValue atom) c with
            | error e' =>
              simp only [htv, Option.some.injEq, Prod.mk.injEq] at hr
              obtain ⟨_, rfl⟩ := hr
              refine ⟨?_, by simp [k2, m1, e1], by simp [k3, m7, e2]⟩
              simp [k1, m8, e4]
            | ok c' => simp [htv] at hr
        · intro he
          subst he
          cases hft : ft.1 with
          | error e' => simp [hft] at hr
          | ok c =>
            simp only [hft] at hr
            cases htv : store_truth_value env false (env.getTruthValue atom) c with
            | error e' => simp [htv] at hr
            | ok c' =>
              simp only [htv, Option.some.injEq, Prod.mk.injEq, true_and] at hr
              subst hr
              have g1 := store_first_time_grows env st2.typemaps.storing_typemap atom aheight
                st2.max_height _ c (hft0 ▸ hft)
              have g2 := store_truth_value_grows env false _ c c' htv
              obtain ⟨x, _, hx, _⟩ := grows_trans (grows_trans (STMT_grows false
                ⟨false, "INSERT INTO Atoms (", ") VALUES ("⟩ "uuid"
                (to_string (env.addAtom atom))) g1) g2
              obtain ⟨a1, a2, _, a4⟩ := add_id_to_cache_storage (exec_qry env atom
                (Statement.atoms (c'.cols ++ c'.vals ++ ");")) stx) (env.addAtom atom)
              obtain ⟨x1, x2, _, _⟩ := exec_qry_storage env atom
                (Statement.atoms (c'.cols ++ c'.vals ++ ");")) stx
              obtain ⟨mid, hmid, hlog⟩ := exec_qry_log env atom
                (Statement.atoms (c'.cols ++ c'.vals ++ ");")) stx
              refine ⟨_, mid, hmid, ?_, ?_, ?_, ?_, ?_, ?_⟩
              · simp only [emit_log, a4, hlog, k1, m8, e4]; simp
              · simp only [emit_local_id_cache, a1, x1, k2, m1, e1]
              · simp only [emit_id_create_cache, a2, x2, k3, m7, e2]
                rw [Finset.erase_insert (e2 ▸ m6), Finset.erase_eq_of_not_mem (e2 ▸ m6)]
              · rw [hx]
                simp only [String.append_assoc]
                exact (is_INSERT_append _).1
              · rw [hx]
                simp only [String.append_assoc]
                exact (is_INSERT_append _).2
              · intro _ t out hat hne
                subst hat
                obtain ⟨h330, hle⟩ := store_first_time_link env st2.typemaps.storing_typemap t out
                  aheight st2.max_height (STMT false
                    ⟨false, "INSERT INTO Atoms (", ") VALUES ("⟩ "uuid"
                    (to_string (env.addAtom (Atom.link t out))))
                rw [hft0] at h330 hle
                by_cases hlen : 330 < out.length
                · rw [h330 hlen] at hft
                  cases hft
                · obtain ⟨c0, hc0, hv⟩ := hle (by omega)
                  rw [hc0] at hft
                  cases hft
                  obtain ⟨pre, hpre⟩ := hv hne
                  obtain ⟨_, y, _, hy⟩ := g2
                  exact ⟨c'.cols ++ pre, y ++ ");", by rw [hy, hpre]; simp [String.append_assoc]⟩

theorem atoms_statements_mid (qry : String) (mid : List Event)
    (h : ∀ e ∈ mid, e.is_aux = true ∨ e = Event.exec (Statement.atoms qry)) :
    ∀ q ∈ atoms_statements mid, q = qry := by
  induction mid with
  | nil => intro q hq; simp [atoms_statements] at hq
  | cons e rest ih =>
    intro q hq
    have hrest := ih (fun e' he' => h e' (List.mem_cons_of_mem _ he'))
    have he := h e (List.mem_cons_self _ _)
    have hsplit : atoms_statements (e :: rest) = atoms_statements [e] ++ atoms_statements rest :=
      atoms_statements_append [e] rest
    rw [hsplit, List.mem_append] at hq
    rcases hq with hq | hq
    · rcases he with he | he
      · rw [atoms_statements_aux [e] (by simpa using he)] at hq
        simp at hq
      · subst he
        simpa [atoms_statements] using hq
    · exact hrest q hq

/-- The statements on `Atoms` of a store that returns: at least one, each an
`INSERT` when the UUID was not known and an `UPDATE` when it was; and the UUID
is known afterwards. -/
theorem do_store_single_atom_statements (env : StoreEnv) (atom : Atom) (aheight : Int)
    (st st' : Storage)
    (hr : do_store_single_atom env atom aheight st = some (.ok (), st')) :
    atoms_statements (st'.log.drop st.log.length) ≠ [] ∧
    (∀ q ∈ atoms_statements (st'.log.drop st.log.length),
      is_INSERT q = decide (env.addAtom atom ∉ st.local_id_cache) ∧
      is_UPDATE q = decide (env.addAtom atom ∈ st.local_id_cache)) ∧
    st'.local_id_cache = insert (env.addAtom atom) st.local_id_cache ∧
    st'.id_create_cache = st.id_create_cache.erase (env.addAtom atom) := by
  obtain ⟨owns, setup_evs, hsetup, ho, ho', _, hok⟩ :=
    do_store_single_atom_events env atom aheight st st' _ hr
  obtain ⟨qry, mid, hmid, hlog, hl, hc, hins, hupd, _⟩ := hok rfl
  have hall : atoms_statements (st'.log.drop st.log.length) = qry :: atoms_statements mid := by
    rw [hlog, List.drop_left]
    cases owns <;>
      simp only [atoms_statements_append, atoms_statements_aux _ hsetup, List.nil_append] <;>
      simp [atoms_statements]
  refine ⟨by rw [hall]; simp, ?_, hl, hc⟩
  intro q hq
  rw [hall, List.mem_cons] at hq
  have hq' : q = qry := by
    rcases hq with hq | hq
    · exact hq
    · exact atoms_statements_mid qry mid hmid q hq
  subst hq'
  cases owns with
  | true => simp [hins, hupd, (ho' rfl).1]
  | false => simp [hins, hupd, ho rfl]

theorem store_run_cons (env : StoreEnv) (atom : Atom) (aheight : Int) (rest : List Int)
    (st st' : Storage) (stmts : List (List String))
    (h : store_run env atom (aheight :: rest) st = some (stmts, st')) :
    ∃ st1 tail, do_store_single_atom env atom aheight st = some (.ok (), st1) ∧
      store_run env atom rest st1 = some (tail, st') ∧
      stmts = atoms_statements (st1.log.drop st.log.length) :: tail := by
  rw [store_run] at h
  split at h
  · next st1 hs1 =>
    cases ht : store_run env atom rest st1 with
    | none => simp [ht] at h
    | some p =>
      obtain ⟨tail, st2⟩ := p
      simp only [ht, Option.some.injEq, Prod.mk.injEq] at h
      obtain ⟨h1, h2⟩ := h
      subst h2
      exact ⟨st1, tail, hs1, ht, h1.symm⟩
  · cases h

theorem store_run_known (env : StoreEnv) (atom : Atom) (heights : List Int) :
    ∀ (st st' : Storage) (stmts : List (List String)),
      env.addAtom atom ∈ st.local_id_cache →
      store_run env atom heights st = some (stmts, st') →
      stmts.length = heights.length ∧
      ∀ l ∈ stmts, l ≠ [] ∧ ∀ q ∈ l, is_INSERT q = false ∧ is_UPDATE q = true := by
  induction heights with
  | nil =>
    intro st st' stmts _ h
    simp only [store_run, Option.some.injEq, Prod.mk.injEq] at h
    obtain ⟨rfl, _⟩ := h
    simp
  | cons aheight rest ih =>
    intro st st' stmts hu h
    obtain ⟨st1, tail, h1, h2, rfl⟩ := store_run_cons env atom aheight rest st st' stmts h
    obtain ⟨hne, hq, hl, _⟩ := do_store_single_atom_statements env atom aheight st st1 h1
    obtain ⟨ih1, ih2⟩ := ih st1 st' tail (by rw [hl]; exact Finset.mem_insert_self _ _) h2
    refine ⟨by simp [ih1], ?_⟩
    intro l hl'
    rw [List.mem_cons] at hl'
    rcases hl' with rfl | hl'
    · refine ⟨hne, fun q hq' => ?_⟩
      have := hq q hq'
      simpa [hu] using this
    · exact ih2 l hl'

theorem do_store_single_atom_stalls (env : StoreEnv) (atom : Atom) (aheight : Int)
    (st : Storage) (h1 : env.addAtom atom ∉ st.local_id_cache)
    (h2 : env.addAtom atom ∈ st.id_create_cache) :
    do_store_single_atom env atom aheight st = none := by
  cases hs : st.setup_typemap env with
  | none => simp [do_store_single_atom, hs]
  | some st1 =>
    obtain ⟨e1, e2, _, _⟩ := setup_typemap_storage env st st1 hs
    have hm := maybe_create_id_creating st1 (env.addAtom atom) (e1 ▸ h1) (e2 ▸ h2)
    simp [do_store_single_atom, hs, hm]

/-- What a store that throws leaves in the ID caches: the known UUIDs are those
of before; the UUIDs in creation are those of before when the UUID was known,
and have the UUID of the atom added when it was not, and then no later store
of an atom of this UUID returns. -/
theorem do_store_single_atom_throws (env : StoreEnv) (atom : Atom) (aheight : Int)
    (st st' : Storage) (e : RuntimeException)
    (hr : do_store_single_atom env atom aheight st = some (.error e, st')) :
    st'.local_id_cache = st.local_id_cache ∧
    (env.addAtom atom ∈ st.local_id_cache → st'.id_create_cache = st.id_create_cache) ∧
    (env.addAtom atom ∉ st.local_id_cache →
      env.addAtom atom ∉ st.id_create_cache ∧
      st'.id_create_cache = insert (env.addAtom atom) st.id_create_cache ∧
      ∀ (env' : StoreEnv) (atom' : Atom) (aheight' : Int),
        env'.addAtom atom' = env.addAtom atom →
        do_store_single_atom env' atom' aheight' st' = none) := by
  obtain ⟨owns, setup_evs, _, ho, ho', herr, _⟩ :=
    do_store_single_atom_events env atom aheight st st' _ hr
  obtain ⟨_, hl, hc⟩ := herr e rfl
  refine ⟨hl, ?_, ?_⟩
  · intro hu
    cases owns with
    | false => simpa using hc
    | true => exact absurd hu (ho' rfl).1
  · intro hu
    cases owns with
    | false => exact absurd (ho rfl) hu
    | true =>
      have hc' : st'.id_create_cache = insert (env.addAtom atom) st.id_create_cache := by
        simpa using hc
      refine ⟨(ho' rfl).2, hc', ?_⟩
      intro env' atom' aheight' hsame
      apply do_store_single_atom_stalls
      · rw [hsame, hl]; exact hu
      · rw [hsame, hc']; exact Finset.mem_insert_self _ _

theorem chunk_loop_cover (step M : Nat) (hstep : 0 < step) (hM : M + step < 2 ^ 64) :
    ∀ (fuel rec : Nat), 1 ≤ fuel → M < rec + (fuel - 1) * step →
      ∃ cs, chunk_loop step M fuel rec = some cs ∧
        ∀ uuid, uuid ≤ M →
          cs.countP (fun c => decide (c.1 < uuid) && decide (uuid ≤ c.2)) =
            if rec < uuid then 1 else 0 := by
  intro fuel
  induction fuel with
  | zero => intro rec h; omega
  | succ f ih =>
    intro rec _ hen
    by_cases hrec : rec ≤ M
    · have hwrap : (rec + step) % 18446744073709551616 = rec + step :=
        Nat.mod_eq_of_lt (by omega)
      have hf : 1 ≤ f := by
        rcases Nat.eq_zero_or_pos f with h0 | h0
        · subst h0; simp at hen; omega
        · exact h0
      have hen' : M < rec + step + (f - 1) * step := by
        have : f + 1 - 1 = (f - 1) + 1 := by omega
        rw [this, Nat.add_mul] at hen
        omega
      obtain ⟨cs, hcs, hcount⟩ := ih (rec + step) hf hen'
      refine ⟨(rec, rec + step) :: cs, by simp [chunk_loop, hrec, hwrap, hcs], ?_⟩
      intro uuid hu
      rw [List.countP_cons, hcount uuid hu]
      by_cases h1 : rec < uuid
      · by_cases h2 : uuid ≤ rec + step
        · have : ¬ rec + step < uuid := by omega
          simp [h1, h2, this]
        · have : rec + step < uuid := by omega
          simp [h1, h2, this]
      · have : ¬ rec + step < uuid := by omega
        simp [h1, this]
    · exact ⟨[], by simp [chunk_loop, hrec], fun uuid hu => by
        have : ¬ rec < uuid := by omega
        simp [this]⟩

theorem enough_fuel (step M fuel : Nat) (hstep : 0 < step) (hfuel : M / step + 2 ≤ fuel) :
    1 ≤ fuel ∧ M < 0 + (fuel - 1) * step := by
  refine ⟨by have := Nat.zero_le (M / step); omega, ?_⟩
  have h1 : M < (M / step + 1) * step := by
    rw [Nat.mul_comm]
    exact Nat.lt_mul_div_succ M hstep
  have h2 : (M / step + 1) * step ≤ (fuel - 1) * step :=
    Nat.mul_le_mul_right _ (by omega)
  omega

theorem chunk_loop_never_ends (step : Nat) :
    ∀ (fuel rec : Nat), rec < 2 ^ 64 → chunk_loop step (2 ^ 64 - 1) fuel rec = none := by
  intro fuel
  induction fuel with
  | zero => intro rec _; rfl
  | succ f ih =>
    intro rec h
    have h1 : rec ≤ 2 ^ 64 - 1 := by omega
    have h2 : (rec + step) % 2 ^ 64 < 2 ^ 64 := Nat.mod_lt _ (by norm_num)
    have := ih _ h2
    norm_num at this h1
    simp [chunk_loop, h1, this]

theorem digitChar_digit (d : Nat) (h : d < 10) :
    (Nat.digitChar d).isDigit = true ∧ (Nat.digitChar d).toNat - 48 = d ∧
    isspace (Nat.digitChar d) = false ∧ Nat.digitChar d ≠ '-' ∧ Nat.digitChar d ≠ '+' := by
  interval_cases d <;> decide

/-- The decimal digits that `Nat.toDigits` gives: a non-empty list of digit
characters whose value, read from the left, is the number. -/
theorem toDigitsCore_digits : ∀ (n fuel : Nat), n < fuel →
    ∃ L : List Char, L ≠ [] ∧ (∀ c ∈ L, c.isDigit = true) ∧
      (∀ ds, Nat.toDigitsCore 10 fuel n ds = L ++ ds) ∧
      (∀ c, L.head? = some c → isspace c = false ∧ c ≠ '-' ∧ c ≠ '+') ∧
      ∀ acc, L.foldl (fun a c => a * 10 + (c.toNat - 48)) acc = acc * 10 ^ L.length + n := by
  intro n
  induction n using Nat.strong_induction_on with
  | _ n ih =>
    intro fuel hf
    cases fuel with
    | zero => omega
    | succ f =>
      have hd := digitChar_digit (n % 10) (Nat.mod_lt _ (by norm_num))
      by_cases h0 : n / 10 = 0
      · have hn : n < 10 := by omega
        have hmod : n % 10 = n := Nat.mod_eq_of_lt hn
        refine ⟨[Nat.digitChar (n % 10)], by simp, by simpa using hd.1, ?_, ?_, ?_⟩
        · intro ds; simp [Nat.toDigitsCore, h0]
        · intro c hc
          simp only [List.head?_cons, Option.some.injEq] at hc
          subst hc
          exact hd.2.2
        · intro acc
          simp only [List.foldl_cons, List.foldl_nil, List.length_singleton, pow_one, hd.2.1]
          omega
      · obtain ⟨L, hne, hdig, hcore, hhead, hval⟩ := ih (n / 10) (by omega) f (by omega)
        refine ⟨L ++ [Nat.digitChar (n % 10)], by simp, ?_, ?_, ?_, ?_⟩
        · intro c hc
          rw [List.mem_append, List.mem_singleton] at hc
          rcases hc with hc | rfl
          · exact hdig c hc
          · exact hd.1
        · intro ds
          simp only [Nat.toDigitsCore, h0, if_false, hcore, List.append_assoc, List.singleton_append]
        · intro c hc
          cases L with
          | nil => exact absurd rfl hne
          | cons x xs =>
            simp only [List.cons_append, List.head?_cons, Option.some.injEq] at hc
            exact hhead c (by simp [hc])
        · intro acc
          rw [List.foldl_append, hval]
          simp only [List.foldl_cons, List.foldl_nil, hd.2.1, List.length_append,
            List.length_singleton, pow_succ]
          have := Nat.div_add_mod n 10
          nlinarith [Nat.div_add_mod n 10]

theorem repr_digits (n : Nat) :
    ∃ L : List Char, L ≠ [] ∧ (∀ c ∈ L, c.isDigit = true) ∧ (Nat.repr n).data = L ∧
      (∀ c, L.head? = some c → isspace c = false ∧ c ≠ '-' ∧ c ≠ '+') ∧
      L.foldl (fun a c => a * 10 + (c.toNat - 48)) 0 = n := by
  obtain ⟨L, hne, hdig, hcore, hhead, hval⟩ := toDigitsCore_digits n (n + 1) (by omega)
  refine ⟨L, hne, hdig, ?_, hhead, by simpa using hval 0⟩
  simp [Nat.repr, Nat.toDigits, hcore, List.asString]

theorem strtoul_digits_append (L : List Char) (hdig : ∀ c ∈ L, c.isDigit = true)
    (rest : List Char) (hrest : ∀ c, rest.head? = some c → c.isDigit = false) :
    ∀ acc, strtoul_digits (L ++ rest) acc =
      (L.foldl (fun a c => a * 10 + (c.toNat - 48)) acc, rest) := by
  induction L with
  | nil =>
    intro acc
    cases rest with
    | nil => rfl
    | cons c r => simp [strtoul_digits, hrest c rfl]
  | cons x xs ih =>
    intro acc
    have hx := hdig x (List.mem_cons_self _ _)
    simp only [List.cons_append, strtoul_digits, hx, if_true, List.foldl_cons]
    exact ih (fun c hc => hdig c (List.mem_cons_of_mem _ hc)) _

theorem dropWhile_blanks (k : Nat) (l : List Char) :
    (List.replicate k ' ' ++ l).dropWhile isspace = l.dropWhile isspace := by
  induction k with
  | zero => rfl
  | succ k ih =>
    rw [List.replicate_succ, List.cons_append, List.dropWhile_cons]
    have : isspace ' ' = true := by decide
    simp [this, ih]

/-- The function `strtoul` on blanks, the decimal digits of a number that fits
64 bits and a text that does not go on with a digit: the number, and the
text. -/
theorem strtoul_repr (k u : Nat) (hu : u < 2 ^ 64) (rest : List Char)
    (hrest : ∀ c, rest.head? = some c → c.isDigit = false) :
    strtoul (List.replicate k ' ' ++ ((Nat.repr u).data ++ rest)) = (u, rest) := by
  obtain ⟨L, hne, hdig, hdata, hhead, hval⟩ := repr_digits u
  rw [hdata]
  cases L with
  | nil => exact absurd rfl hne
  | cons x xs =>
    obtain ⟨hsp, hminus, hplus⟩ := hhead x rfl
    have hx := hdig x (List.mem_cons_self _ _)
    have hdrop : (List.replicate k ' ' ++ (x :: xs ++ rest)).dropWhile isspace =
        x :: (xs ++ rest) := by
      rw [dropWhile_blanks, List.cons_append, List.dropWhile_cons, hsp]
      rfl
    have hdigits := strtoul_digits_append (x :: xs) hdig rest hrest 0
    rw [hval] at hdigits
    have hlt : ¬ (2 ^ 64 ≤ u) := by omega
    have hsign : strtoul_sign (x :: (xs ++ rest)) = (false, x :: (xs ++ rest)) := by
      unfold strtoul_sign
      split
      · next r heq =>
        simp only [List.cons.injEq] at heq
        exact absurd heq.1 hminus
      · next r heq =>
        simp only [List.cons.injEq] at heq
        exact absurd heq.1 hplus
      · rfl
    unfold strtoul
    simp only [hdrop, hsign, hx, if_true]
    rw [← List.cons_append, hdigits]
    simp only [Bool.false_eq_true, if_false, if_neg hlt]

theorem array_tail_head (k : Nat) (rest : List UUID) :
    ∀ c, (array_tail k rest).data.head? = some c → c.isDigit = false := by
  intro c hc
  cases rest with
  | nil =>
    have : (array_tail k []).data = ['\x7d'] := rfl
    rw [this] at hc
    simp only [List.head?_cons, Option.some.injEq] at hc
    subst hc
    decide
  | cons u r =>
    simp only [array_tail, String.data_append] at hc
    simp only [List.append_assoc, List.cons_append, List.nil_append, List.head?_cons,
      Option.some.injEq] at hc
    subst hc
    decide

theorem makeAtom_oset_loop_tail (k : Nat) :
    ∀ (rest : List UUID) (u : UUID) (c : Char) (k0 : Nat) (oset : List UUID) (fuel : Nat),
      c ≠ '\x7d' → u < 2 ^ 64 → (∀ x ∈ rest, x < 2 ^ 64) →
      (c :: (List.replicate k0 ' ' ++ ((Nat.repr u).data ++ (array_tail k rest).data))).length
        ≤ fuel →
      makeAtom_oset_loop fuel
        (c :: (List.replicate k0 ' ' ++ ((Nat.repr u).data ++ (array_tail k rest).data))) oset =
        oset ++ u :: rest := by
  intro rest
  induction rest with
  | nil =>
    intro u c k0 oset fuel hc hu _ hfuel
    cases fuel with
    | zero => simp at hfuel
    | succ f =>
      rw [makeAtom_oset_loop]
      simp only [hc, if_false, strtoul_repr k0 u hu _ (array_tail_head k [])]
      have : (array_tail k []).data = ['\x7d'] := rfl
      rw [this]
      cases f with
      | zero => rfl
      | succ f' => simp [makeAtom_oset_loop]
  | cons u' rest' ih =>
    intro u c k0 oset fuel hc hu hrest hfuel
    cases fuel with
    | zero => simp at hfuel
    | succ f =>
      rw [makeAtom_oset_loop]
      simp only [hc, if_false, strtoul_repr k0 u hu _ (array_tail_head k (u' :: rest'))]
      have htail : (array_tail k (u' :: rest')).data =
          ',' :: (List.replicate k ' ' ++ ((Nat.repr u').data ++ (array_tail k rest').data)) := by
        simp only [array_tail, String.data_append]
        simp only [List.append_assoc, List.cons_append, List.nil_append]
      rw [htail] at hfuel ⊢
      have := ih u' ',' k (oset ++ [u]) f (by decide) (hrest u' (List.mem_cons_self _ _))
        (fun x hx => hrest x (List.mem_cons_of_mem _ hx))
        (by
          simp only [List.length_cons, List.length_append] at hfuel ⊢
          omega)
      rw [this]
      simp

theorem oset_to_string_loop_tail (addAtom : Atom → UUID) :
    ∀ (rest : HandleSeq) (i : Nat) (str : String),
      oset_to_string_loop addAtom (i + 1) rest str ++ "\x7d" =
        str ++ array_tail 1 (rest.map addAtom) := by
  intro rest
  induction rest with
  | nil => intro i str; rfl
  | cons h rest ih =>
    intro i str
    rw [oset_to_string_loop]
    simp only [Nat.succ_ne_zero, ne_eq, not_false_eq_true, if_true, List.map_cons, array_tail]
    rw [ih]
    have : "," ++ String.mk (List.replicate 1 ' ') = ", " := by decide
    simp only [to_string, String.append_assoc, this]

/-- The three cases of `getNode`, by the length of the text of the query: up to
999 characters the whole text is executed, from 1000 to 9998 its first 999
characters are executed, from 9999 on the overflow is reported. -/
theorem getNode_cases (cs : ClassServer) (TYPEMAP_SZ : Nat) (tm tm' : TypeMaps) (t : AtomType)
    (str : List Char) (hs : setup_typemap cs TYPEMAP_SZ tm = some tm') :
    ((getNode_text tm'.storing_typemap t str).length < 9999 →
      getNode cs TYPEMAP_SZ tm t str =
        some (GetNode.query ((getNode_text tm'.storing_typemap t str).take 999))) ∧
    (9999 ≤ (getNode_text tm'.storing_typemap t str).length →
      getNode cs TYPEMAP_SZ tm t str = some GetNode.overflow) ∧
    ((getNode_text tm'.storing_typemap t str).take 999 = getNode_text tm'.storing_typemap t str ↔
      (getNode_text tm'.storing_typemap t str).length ≤ 999) := by
  refine ⟨?_, ?_, ?_⟩
  · intro h
    have h' : ¬ ((9999 : Int) ≤ ((getNode_text tm'.storing_typemap t str).length : Int)) := by
      omega
    simp only [getNode, hs, snprintf, BUFSZ]
    norm_num
    intro h''
    omega
  · intro h
    have h' : (9999 : Int) ≤ ((getNode_text tm'.storing_typemap t str).length : Int) := by
      omega
    simp only [getNode, hs, snprintf, BUFSZ]
    norm_num
    omega
  · exact List.take_eq_self_iff _

theorem getNode_text_length (stm : Nat → Int) (t : AtomType) (str : List Char) :
    (getNode_text stm t str).length =
      57 + (Nat.repr (stm t % 65536).toNat).data.length + str.length := by
  have h1 : "SELECT * FROM Atoms WHERE type = ".data.length = 33 := by decide
  have h2 : " AND name = $ocp$".data.length = 17 := by decide
  have h3 : "$ocp$ ;".data.length = 7 := by decide
  simp only [getNode_text, List.length_append, h1, h2, h3]
  omega

/-- A node whose name has 2689 bytes, no more than 2700, stored for the first
time with no truth value, is rejected with the exception of the node name
size: the test `2700 < qname.size()` counts the 12 bytes of the quoting around
the name, so it rejects the names of more than 2688 bytes. -/
theorem do_store_single_atom_name_2689 :
    (String.mk (List.replicate 2689 'a')).utf8ByteSize = 2689 ∧
    (do_store_single_atom sampleStoreEnv (Atom.node 1 (String.mk (List.replicate 2689 'a'))) 0
      sampleStorage).map (fun r => r.1) = some (.error RuntimeException.node_name_size) := by
  have hsz := utf8ByteSize_replicate 2689
  refine ⟨hsz, ?_⟩
  have hlen : sampleStoreEnv.addAtom (Atom.node 1 (String.mk (List.replicate 2689 'a'))) = 2689 := by
    show (String.mk (List.replicate 2689 'a')).length = 2689
    simp only [String.length, List.length_replicate]
  obtain ⟨r, st', h, hr, _⟩ := do_store_single_atom_node sampleStoreEnv 1
    (String.mk (List.replicate 2689 'a')) 0 sampleStorage (by decide)
    (by rw [hlen]; decide) (by rw [hlen]; decide)
  rw [h, hr.2 (by rw [hsz]; omega)]
  rfl

/-- The loop with glob splicing over children whose only glob is the one bound
variable, itself bound to a link: one segment of the result per child. -/
theorem glob_splice_loop (env : Env) (V : Variables) (ng : String) (lty : AtomType)
    (cs : HandleSeq) (silent : Bool)
    (hseq : V.varseq = [Atom.node env.GLOB_NODE ng])
    (hidx : V.index = [(Atom.node env.GLOB_NODE ng, 0)])
    (htc : V.is_type_seq env [Atom.link lty cs] = .ok true) :
    ∀ out : HandleSeq,
      (∀ c ∈ out, c.getType = env.GLOB_NODE → c = Atom.node env.GLOB_NODE ng) →
      ∃ segs : List HandleSeq,
        List.Forall₂ (fun c seg =>
          if c = Atom.node env.GLOB_NODE ng then seg = cs
          else ∃ c', seg = [c'] ∧
            V.substitute env c [Atom.link lty cs] silent = .ok c' ∧
            ((c.isNode = true ∨
              (c.no_free env V.index ⟨0⟩ = true ∧ c.glob_free env = true)) → c' = c))
          out segs ∧
        substitute_scoped_loop env [Atom.link lty cs] false out V.index ⟨0⟩
          = .ok (Loop.oset segs.flatten)
  | [], _ => ⟨[], List.Forall₂.nil, by simp [loop_nil]⟩
  | c :: rest, hglob => by
    obtain ⟨segs, hsegs, hloop⟩ := glob_splice_loop env V ng lty cs silent hseq hidx htc rest
      (fun c' hc' => hglob c' (List.mem_cons_of_mem _ hc'))
    have hsub : ∀ t, V.substitute env t [Atom.link lty cs] silent
        = substitute_scoped env [Atom.link lty cs] false t V.index ⟨0⟩ :=
      fun t => substitute_of_checks env V t _ silent (by simp [hseq]) htc
    by_cases hc : c = Atom.node env.GLOB_NODE ng
    · refine ⟨cs :: segs, List.Forall₂.cons (by simp [hc]) hsegs, ?_⟩
      have hg : substitute_scoped env [Atom.link lty cs] false c V.index ⟨0⟩
          = .ok (Atom.link lty cs) := by
        rw [hc, hidx, substitute_scoped_found env _ false _ _ _ 0
          (by simp [Quotation.is_unquoted, HandleMapOf.find])]
        rfl
      have := loop_cons_glob_link env [Atom.link lty cs] false V.index ⟨0⟩ c (Atom.link lty cs)
        rest segs.flatten (by rw [hc]; rfl) hg rfl hloop
      simpa [Atom.getOutgoingSet] using this
    · have hty : env.GLOB_NODE ≠ c.getType := fun e =>
        hc (hglob c (List.mem_cons_self _ _) e.symm)
      obtain ⟨c', hc'⟩ := substitute_scoped_ok env [Atom.link lty cs] false c V.index ⟨0⟩
        (by rw [hidx]; intro p hp; simp at hp; subst hp; simp)
      refine ⟨[c'] :: segs, List.Forall₂.cons ?_ hsegs, ?_⟩
      · simp only [hc, if_false]
        refine ⟨c', rfl, (hsub c).trans hc', ?_⟩
        intro hk
        have hid : substitute_scoped env [Atom.link lty cs] false c V.index ⟨0⟩ = .ok c := by
          rcases hk with hn | ⟨hnf, hgf⟩
          · cases c with
            | link t o => simp [Atom.isNode] at hn
            | node t n =>
              apply substitute_scoped_node
              have hne : Atom.node env.GLOB_NODE ng ≠ Atom.node t n := fun e => hc e.symm
              simp [hidx, Quotation.is_unquoted, HandleMapOf.find, hne]
          · exact substitute_scoped_identity env _ false c V.index ⟨0⟩ hnf hgf
        exact Except.ok.inj (hc'.symm.trans hid)
      · have := loop_cons_other env [Atom.link lty cs] false V.index ⟨0⟩ c c' rest segs.flatten
          hty hc' hloop
        simpa using this

/-- A run of two lists of queries is the run of the first followed, when it
ends without exception, by the run of the second. -/
theorem run_queries_append
    (cb : Response → Row → LoadState → Option (Except MakeAtomException Unit × LoadState))
    (Atoms : List Row) (qs2 : List ChunkQuery) :
    ∀ (qs1 : List ChunkQuery) (st : LoadState),
      run_queries cb Atoms (qs1 ++ qs2) st =
        match run_queries cb Atoms qs1 st with
        | none => none
        | some (.error e, st1) => some (.error e, st1)
        | some (.ok (), st1) => run_queries cb Atoms qs2 st1
  | [], st => by simp [run_queries]
  | q :: rest, st => by
    simp only [List.cons_append, run_queries]
    cases foreach_row cb { Response.new with height := q.height }
        (Atoms.filter (fun r => q.selects r)) (st.emit [LoadEvent.exec (Select.chunk q)]) with
    | none => rfl
    | some r =>
      obtain ⟨o, st1⟩ := r
      cases o with
      | error e => rfl
      | ok u =>
        cases u
        exact run_queries_append cb Atoms qs2 rest st1

/-- The loop over the UUIDs is the run of the queries of its chunks. -/
theorem load_chunks_run
    (cb : Response → Row → LoadState → Option (Except MakeAtomException Unit × LoadState))
    (Atoms : List Row) (type : Option Int) (hei : Int) (max_nrec : UUID) :
    ∀ (fuel : Nat) (rec : UUID) (chunks : List (UUID × UUID)) (st : LoadState),
      chunk_loop STEP max_nrec fuel rec = some chunks →
      load_chunks cb Atoms type hei max_nrec fuel rec st =
        run_queries cb Atoms (chunks.map (fun chunk => ⟨type, hei, chunk.1, chunk.2⟩)) st
  | 0, rec, chunks, st, h => by simp [chunk_loop] at h
  | fuel + 1, rec, chunks, st, h => by
    by_cases hrec : rec ≤ max_nrec
    · rw [chunk_loop, if_pos hrec] at h
      rw [load_chunks, if_pos hrec]
      generalize (rec + STEP) % 2 ^ 64 = nxt at h ⊢
      cases hc : chunk_loop STEP max_nrec fuel nxt with
      | none => rw [hc] at h; cases h
      | some cs =>
        rw [hc] at h
        simp only [Option.some.injEq] at h
        subst h
        simp only [List.map_cons, run_queries]
        cases foreach_row cb { Response.new with height := hei }
            (Atoms.filter (fun r => (⟨type, hei, rec, nxt⟩ : ChunkQuery).selects r))
            (st.emit [LoadEvent.exec (Select.chunk ⟨type, hei, rec, nxt⟩)]) with
        | none => rfl
        | some r =>
          obtain ⟨o, st1⟩ := r
          cases o with
          | error e => rfl
          | ok u =>
            cases u
            exact load_chunks_run cb Atoms type hei max_nrec fuel _ cs st1 hc
    · rw [chunk_loop, if_neg hrec] at h
      simp only [Option.some.injEq] at h
      subst h
      simp [load_chunks, hrec, run_queries]

/-- The loop over the heights is the run of the queries of its passes. -/
theorem load_heights_run
    (cb : Response → Row → LoadState → Option (Except MakeAtomException Unit × LoadState))
    (Atoms : List Row) (type : Option Int) (max_nrec : UUID) (fuel : Nat)
    (chunks : List (UUID × UUID)) (h : chunk_loop STEP max_nrec fuel 0 = some chunks) :
    ∀ (passes : Nat) (hei : Int) (st : LoadState),
      load_heights cb Atoms type max_nrec fuel passes hei st =
        run_queries cb Atoms (height_queries type chunks passes hei) st
  | 0, hei, st => by simp [load_heights, height_queries, run_queries]
  | passes + 1, hei, st => by
    simp only [load_heights, height_queries, run_queries_append,
      load_chunks_run cb Atoms type hei max_nrec fuel 0 chunks st h]
    cases run_queries cb Atoms (chunks.map (fun chunk => ⟨type, hei, chunk.1, chunk.2⟩)) st with
    | none => rfl
    | some r =>
      obtain ⟨o, st1⟩ := r
      cases o with
      | error e => rfl
      | ok u =>
        cases u
        exact load_heights_run cb Atoms type max_nrec fuel chunks h passes (hei + 1) st1

/-- The queries of the passes select a row of a UUID up to `M` once when its
UUID is not 0, its height is one of the heights scanned and its type is the
one asked for, and not at all otherwise. -/
theorem height_queries_cover (M : Nat) (type : Option Int) (cs : List (UUID × UUID))
    (hcount : ∀ uuid, uuid ≤ M →
      cs.countP (fun c => decide (c.1 < uuid) && decide (uuid ≤ c.2)) = if 0 < uuid then 1 else 0) :
    ∀ (passes : Nat) (hei : Int) (row : Row), row.uuid ≤ M →
      (height_queries type cs passes hei).countP (fun q => q.selects row) =
        if 0 < row.uuid ∧ hei ≤ row.height ∧ row.height < hei + passes ∧
            (type = none ∨ type = some row.type) then 1 else 0 := by
  intro passes
  induction passes with
  | zero =>
    intro hei row _
    simp only [height_queries, List.countP_nil]
    rw [if_neg]
    rintro ⟨_, h1, h2, _⟩
    push_cast at h2
    omega
  | succ n ih =>
    intro hei row hrow
    simp only [height_queries]
    rw [List.countP_append, ih (hei + 1) row hrow, List.countP_map]
    have hhead : cs.countP ((fun q : ChunkQuery => q.selects row) ∘
        (fun chunk : UUID × UUID => (⟨type, hei, chunk.1, chunk.2⟩ : ChunkQuery))) =
        if row.height = hei ∧ (type = none ∨ type = some row.type) then
          cs.countP (fun c => decide (c.1 < row.uuid) && decide (row.uuid ≤ c.2)) else 0 := by
      by_cases hh : row.height = hei ∧ (type = none ∨ type = some row.type)
      · rw [if_pos hh]
        congr 1
        funext c
        rcases hh with ⟨hh1, hh2 | hh2⟩
        · simp [ChunkQuery.selects, hh1, hh2]
        · simp [ChunkQuery.selects, hh1, hh2]
      · rw [if_neg hh, List.countP_eq_zero]
        intro c _
        simp only [Function.comp, ChunkQuery.selects]
        cases type with
        | none =>
          have : ¬ row.height = hei := fun e => hh ⟨e, Or.inl rfl⟩
          simp [this]
        | some t =>
          by_cases ht : row.type = t
          · have : ¬ row.height = hei := fun e => hh ⟨e, Or.inr (by rw [ht])⟩
            simp [this]
          · simp [ht]
    rw [hhead, hcount row.uuid hrow]
    by_cases hty : type = none ∨ type = some row.type
    · by_cases hh : row.height = hei
      · have h1 : ¬ (hei + 1 ≤ row.height) := by omega
        have h2 : row.height < hei + ((n + 1 : Nat) : Int) := by push_cast; omega
        by_cases h0 : 0 < row.uuid
        · rw [if_pos ⟨hh, hty⟩, if_pos h0, if_neg (fun h => h1 h.2.1),
            if_pos ⟨h0, by omega, h2, hty⟩]
        · rw [if_pos ⟨hh, hty⟩, if_neg h0, if_neg (fun h => h1 h.2.1),
            if_neg (fun h => h0 h.1)]
      · rw [if_neg (fun h => hh h.1), Nat.zero_add]
        by_cases hc : 0 < row.uuid ∧ hei + 1 ≤ row.height ∧
            row.height < hei + 1 + (n : Int) ∧ (type = none ∨ type = some row.type)
        · rw [if_pos hc, if_pos]
          obtain ⟨c1, c2, c3, c4⟩ := hc
          refine ⟨c1, by omega, by push_cast; omega, c4⟩
        · rw [if_neg hc, if_neg]
          rintro ⟨c1, c2, c3, c4⟩
          apply hc
          push_cast at c3
          refine ⟨c1, by omega, by omega, c4⟩
    · rw [if_neg (fun h => hty h.2), if_neg (fun h => hty h.2.2.2), if_neg (fun h => hty h.2.2.2)]

theorem fetches_refl (st : LoadState) : st.Fetches st :=
  ⟨[], by simp, rfl, rfl⟩

theorem fetches_of_trace (st st' : LoadState) (h : st'.trace = st.trace) : st.Fetches st' :=
  ⟨[], by simp [h], rfl, rfl⟩

theorem fetches_trans (a b c : LoadState) (h1 : a.Fetches b) (h2 : b.Fetches c) :
    a.Fetches c := by
  obtain ⟨e1, t1, q1, r1⟩ := h1
  obtain ⟨e2, t2, q2, r2⟩ := h2
  refine ⟨e1 ++ e2, by rw [t2, t1, List.append_assoc], ?_, ?_⟩
  · simp only [trace_queries, List.filterMap_append] at q1 q2 ⊢
    rw [q1, q2]; rfl
  · simp only [trace_rows, List.filterMap_append] at r1 r2 ⊢
    rw [r1, r2]; rfl

theorem makeAtom_trace (env : LoadEnv) (rp : Response) (uuid : UUID) (st st' : LoadState)
    (o : Except MakeAtomException PseudoAtom) (h : makeAtom env rp uuid st = some (o, st')) :
    st'.trace = st.trace := by
  unfold makeAtom at h
  by_cases h1 : rp.itype < 0 ∨ (env.store.TYPEMAP_SZ : Int) ≤ rp.itype
  · rw [if_pos h1] at h; cases h
  · rw [if_neg h1] at h
    by_cases h2 : env.store.cs.NOTYPE = st.store.typemaps.loading_typemap rp.itype.toNat
    · simp only [h2, if_true, Option.some.injEq, Prod.mk.injEq] at h
      rw [← h.2]
    · cases htv : makeAtom_tv env rp with
      | none =>
        simp only [h2, if_false, htv, Option.some.injEq, Prod.mk.injEq] at h
        rw [← h.2]
      | some tv =>
        simp only [h2, if_false, htv, Option.some.injEq, Prod.mk.injEq] at h
        rw [← h.2]

theorem getAtom_fetches (env : LoadEnv) (uuid : UUID) (rows : List Row) (height : Int)
    (st st' : LoadState) (o : Except MakeAtomException (Option PseudoAtom))
    (h : getAtom env (Select.by_uuid uuid) rows height st = some (o, st')) :
    st.Fetches st' := by
  have hstep : ∀ s : LoadState, s.trace = st.trace ++ [LoadEvent.exec (Select.by_uuid uuid)] →
      st.Fetches s := fun s hs => ⟨_, hs, rfl, rfl⟩
  unfold getAtom at h
  simp only at h
  split at h
  · cases h
    exact hstep _ rfl
  · split at h
    · cases h
    · rename_i e st1 hm
      cases h
      exact hstep _ (by rw [makeAtom_trace _ _ _ _ _ _ hm]; rfl)
    · rename_i atom st1 hm
      cases h
      exact hstep _ (by
        show st1.trace = _
        rw [makeAtom_trace _ _ _ _ _ _ hm]; rfl)

theorem petAtom_fetches (env : LoadEnv) (Atoms : List Row) (uuid : UUID)
    (st st' : LoadState) (o : Except MakeAtomException (Option PseudoAtom))
    (h : petAtom env Atoms uuid st = some (o, st')) : st.Fetches st' := by
  unfold petAtom at h
  split at h
  · cases h
  · rename_i store _
    have := getAtom_fetches env uuid _ _ _ st' o h
    obtain ⟨evs, ht, hq, hr⟩ := this
    exact ⟨evs, ht, hq, hr⟩

theorem get_recursive_loop_fetches (env : LoadEnv) (Atoms : List Row)
    (self : PseudoAtom → LoadState → Option (Except MakeAtomException Atom × LoadState))
    (hself : ∀ p st o st', self p st = some (o, st') → st.Fetches st') :
    ∀ (oset : List UUID) (resolved : HandleSeq) (st st' : LoadState)
      (o : Except MakeAtomException HandleSeq),
      get_recursive_if_not_exists_loop env Atoms self oset resolved st = some (o, st') →
      st.Fetches st'
  | [], resolved, st, st', o, h => by
    simp only [get_recursive_if_not_exists_loop] at h
    cases h
    exact fetches_refl _
  | idu :: rest, resolved, st, st', o, h => by
    simp only [get_recursive_if_not_exists_loop] at h
    split at h
    · exact get_recursive_loop_fetches env Atoms self hself rest _ st st' o h
    · split at h
      · cases h
      · rename_i e st1 hp
        cases h
        exact petAtom_fetches env Atoms idu st _ _ hp
      · cases h
      · rename_i po st1 hp
        have f1 := petAtom_fetches env Atoms idu st _ _ hp
        split at h
        · cases h
        · rename_i e st2 hs
          cases h
          exact fetches_trans _ _ _ f1 (hself _ _ _ _ hs)
        · rename_i ra st2 hs
          exact fetches_trans _ _ _ (fetches_trans _ _ _ f1 (hself _ _ _ _ hs))
            (get_recursive_loop_fetches env Atoms self hself rest _ st2 st' o h)

theorem get_recursive_fetches (env : LoadEnv) (Atoms : List Row) :
    ∀ (fuel : Nat) (p : PseudoAtom) (st : LoadState) (o : Except MakeAtomException Atom)
      (st' : LoadState),
      get_recursive_if_not_exists env Atoms fuel p st = some (o, st') → st.Fetches st'
  | 0, p, st, o, st', h => by simp [get_recursive_if_not_exists] at h
  | fuel + 1, p, st, o, st', h => by
    simp only [get_recursive_if_not_exists] at h
    split at h
    · cases h
      exact fetches_of_trace _ _ rfl
    · split at h
      · cases h
      · rename_i e st1 hl
        cases h
        exact get_recursive_loop_fetches env Atoms _
          (fun p st o st' => get_recursive_fetches env Atoms fuel p st o st') _ _ _ _ _ hl
      · rename_i res st1 hl
        cases h
        exact fetches_trans _ _ _ (get_recursive_loop_fetches env Atoms _
          (fun p st o st' => get_recursive_fetches env Atoms fuel p st o st') _ _ _ _ _ hl)
          (fetches_of_trace _ _ rfl)

theorem load_all_atoms_cb_fetches (env : LoadEnv) (Atoms : List Row) (fuel : Nat)
    (rp : Response) (row : Row) (st st' : LoadState) (o : Except MakeAtomException Unit)
    (h : load_all_atoms_cb env Atoms fuel rp row st = some (o, st')) : st.Fetches st' := by
  unfold load_all_atoms_cb at h
  simp only at h
  split at h
  · cases h
  · rename_i e st1 hm
    cases h
    exact fetches_of_trace _ _ (makeAtom_trace _ _ _ _ _ _ hm)
  · rename_i p st1 hm
    have f1 := fetches_of_trace _ _ (makeAtom_trace _ _ _ _ _ _ hm)
    split at h
    · cases h
    · rename_i e st2 hg
      cases h
      exact fetches_trans _ _ _ f1 (get_recursive_fetches _ _ _ _ _ _ _ hg)
    · rename_i atom st2 hg
      cases h
      exact fetches_trans _ _ _ (fetches_trans _ _ _ f1 (get_recursive_fetches _ _ _ _ _ _ _ hg))
        (fetches_of_trace _ _ rfl)

theorem load_if_not_exists_cb_fetches (env : LoadEnv) (Atoms : List Row) (fuel : Nat)
    (rp : Response) (row : Row) (st st' : LoadState) (o : Except MakeAtomException Unit)
    (h : load_if_not_exists_cb env Atoms fuel rp row st = some (o, st')) : st.Fetches st' := by
  unfold load_if_not_exists_cb at h
  simp only at h
  split at h
  · split at h
    · cases h
    · rename_i e st1 hm
      cases h
      exact fetches_of_trace _ _ (makeAtom_trace _ _ _ _ _ _ hm)
    · rename_i p st1 hm
      have f1 := fetches_of_trace _ _ (makeAtom_trace _ _ _ _ _ _ hm)
      split at h
      · cases h
      · rename_i e st2 hg
        cases h
        exact fetches_trans _ _ _ f1 (get_recursive_fetches _ _ _ _ _ _ _ hg)
      · rename_i atom st2 hg
        have f2 := fetches_trans _ _ _ f1 (get_recursive_fetches _ _ _ _ _ _ _ hg)
        split at h
        · cases h
          exact f2
        · cases h
          exact fetches_trans _ _ _ f2 (fetches_of_trace _ _ rfl)
  · cases h
    exact fetches_refl _

/-- The loop over the UUIDs from `k * step` on gives the chunks from `k` to
`M / step`, when `M + step` is below 2^64 and the fuel is enough. -/
theorem chunk_loop_closed (step M : Nat) (hstep : 0 < step) (hM : M + step < 2 ^ 64) :
    ∀ (fuel k : Nat), k ≤ M / step + 1 → M / step + 2 ≤ fuel + k →
      chunk_loop step M fuel (k * step) =
        some ((List.range' k (M / step + 1 - k)).map (fun j => (j * step, j * step + step))) := by
  intro fuel
  induction fuel with
  | zero =>
    intro k h1 h2
    omega
  | succ f ih =>
    intro k h1 h2
    by_cases hk : k ≤ M / step
    · have hrec : k * step ≤ M := by
        calc k * step ≤ (M / step) * step := Nat.mul_le_mul_right _ hk
          _ ≤ M := Nat.div_mul_le_self M step
      have hwrap : (k * step + step) % 2 ^ 64 = (k + 1) * step := by
        rw [Nat.mod_eq_of_lt (by omega), Nat.add_mul, Nat.one_mul]
      have hn : M / step + 1 - k = (M / step + 1 - (k + 1)) + 1 := by omega
      rw [chunk_loop, if_pos hrec, hwrap, ih (k + 1) (by omega) (by omega), hn,
        List.range'_succ]
      simp [Nat.add_mul]
    · have hk' : k = M / step + 1 := by omega
      have hrec : ¬ k * step ≤ M := by
        rw [hk', Nat.mul_comm]
        exact Nat.not_le.mpr (Nat.lt_mul_div_succ M hstep)
      rw [chunk_loop, if_neg hrec, hk']
      simp

/-- The loop over the UUIDs of the loaders gives the chunks up to `M`. -/
theorem chunk_loop_chunks_upto (M fuel : Nat) (hM : M + STEP < 2 ^ 64)
    (hfuel : M / STEP + 2 ≤ fuel) :
    chunk_loop STEP M fuel 0 = some (chunks_upto M) := by
  have h := chunk_loop_closed STEP M (by decide) hM fuel 0 (Nat.zero_le _) (by omega)
  rw [Nat.zero_mul] at h
  rw [h, chunks_upto, List.range_eq_range']
  rfl

/-- The chunks up to `M` hold every UUID from 1 to `M` once and the UUID 0
not at all. -/
theorem chunks_upto_cover (M : Nat) (hM : M + STEP < 2 ^ 64) :
    ∀ uuid, uuid ≤ M →
      (chunks_upto M).countP (fun c => decide (c.1 < uuid) && decide (uuid ≤ c.2)) =
        if 0 < uuid then 1 else 0 := by
  have hstep : 0 < STEP := by decide
  obtain ⟨hf1, hf2⟩ := enough_fuel STEP M (M / STEP + 2) hstep (Nat.le_refl _)
  obtain ⟨cs, hcs, hcount⟩ := chunk_loop_cover STEP M hstep hM (M / STEP + 2) 0 hf1 hf2
  rw [chunk_loop_chunks_upto M _ hM (Nat.le_refl _)] at hcs
  cases hcs
  exact hcount

/-- No UUID of the table is above the maximum observed UUID. -/
theorem le_getMaxObservedUUID (ids : List UUID) (st : Storage) :
    ∀ u ∈ ids, u ≤ (getMaxObservedUUID ids st).1 := by
  have key : ∀ (l : List UUID) (a : UUID), a ≤ l.foldl max a ∧ ∀ u ∈ l, u ≤ l.foldl max a := by
    intro l
    induction l with
    | nil => intro a; exact ⟨Nat.le_refl _, by simp⟩
    | cons x xs ih =>
      intro a
      obtain ⟨h1, h2⟩ := ih (max a x)
      refine ⟨Nat.le_trans (Nat.le_max_left a x) h1, ?_⟩
      intro u hu
      rcases List.mem_cons.mp hu with rfl | hu
      · exact Nat.le_trans (Nat.le_max_right a u) h1
      · exact h2 u hu
  exact (key ids 0).2

/-- No height of the table is above the maximum observed height. -/
theorem le_getMaxObservedHeight (Atoms : List Row) (st : LoadState) :
    ∀ r ∈ Atoms, r.height ≤ (getMaxObservedHeight Atoms st).1 := by
  have key : ∀ (l : List Int) (a : Int), a ≤ l.foldl max a ∧ ∀ u ∈ l, u ≤ l.foldl max a := by
    intro l
    induction l with
    | nil => intro a; exact ⟨Int.le_refl _, by simp⟩
    | cons x xs ih =>
      intro a
      obtain ⟨h1, h2⟩ := ih (max a x)
      refine ⟨Int.le_trans (Int.le_max_left a x) h1, ?_⟩
      intro u hu
      rcases List.mem_cons.mp hu with rfl | hu
      · exact Int.le_trans (Int.le_max_right a u) h1
      · exact h2 u hu
  intro r hr
  have hmem : r.height ∈ Atoms.map (fun r => r.height) := List.mem_map.mpr ⟨r, hr, rfl⟩
  simp only [getMaxObservedHeight]
  cases hl : Atoms.map (fun r => r.height) with
  | nil => rw [hl] at hmem; cases hmem
  | cons h rest =>
    rw [hl] at hmem
    simp only
    rcases List.mem_cons.mp hmem with e | hm
    · rw [e]; exact (key rest h).1
    · exact (key rest h).2 _ hm

/-- The rows that a run of queries selects hold a row as often as the table
holds it, once for every query that selects it. -/
theorem selected_rows_count (Atoms : List Row) (r : Row) :
    ∀ qs : List ChunkQuery,
      (selected_rows Atoms qs).count r = Atoms.count r * qs.countP (fun q => q.selects r) := by
  intro qs
  induction qs with
  | nil => simp [selected_rows]
  | cons q rest ih =>
    have hq : (Atoms.filter (fun r => q.selects r)).count r =
        if q.selects r = true then Atoms.count r else 0 := by
      by_cases hs : q.selects r = true
      · rw [if_pos hs, List.count_filter hs]
      · rw [if_neg hs]
        apply List.count_eq_zero.mpr
        intro hmem
        exact hs (List.mem_filter.mp hmem).2
    simp only [selected_rows, List.flatMap_cons, List.count_append] at ih ⊢
    rw [ih, hq, List.countP_cons]
    by_cases hs : q.selects r = true
    · simp [hs, Nat.mul_add, Nat.add_comm]
    · simp [hs]

theorem trace_rows_append (a b : List LoadEvent) :
    trace_rows (a ++ b) = trace_rows a ++ trace_rows b := by
  simp [trace_rows, List.filterMap_append]

theorem trace_queries_append (a b : List LoadEvent) :
    trace_queries (a ++ b) = trace_queries a ++ trace_queries b := by
  simp [trace_queries, List.filterMap_append]

/-- The walk of a record set hands its rows to the row callback in order, up to
the row on which the callback throws, and executes no chunk query. -/
theorem foreach_row_trace
    (cb : Response → Row → LoadState → Option (Except MakeAtomException Unit × LoadState))
    (hcb : ∀ rp row st o st', cb rp row st = some (o, st') → st.Fetches st')
    (rp : Response) :
    ∀ (rows : List Row) (st : LoadState) (o : Except MakeAtomException Unit) (st' : LoadState),
      foreach_row cb rp rows st = some (o, st') →
      ∃ evs, st'.trace = st.trace ++ evs ∧ trace_queries evs = [] ∧
        (∃ later, trace_rows evs ++ later = rows) ∧ (o = .ok () → trace_rows evs = rows)
  | [], st, o, st', h => by
    simp only [foreach_row, Option.some.injEq, Prod.mk.injEq] at h
    obtain ⟨_, rfl⟩ := h
    exact ⟨[], by simp, rfl, ⟨[], rfl⟩, fun _ => rfl⟩
  | row :: rest, st, o, st', h => by
    simp only [foreach_row] at h
    cases hc : cb rp row (st.emit [LoadEvent.row row]) with
    | none => simp [hc] at h
    | some r =>
      obtain ⟨o1, st1⟩ := r
      obtain ⟨e1, t1, q1, r1⟩ := hcb _ _ _ _ _ hc
      have t1' : st1.trace = st.trace ++ ([LoadEvent.row row] ++ e1) := by
        rw [t1]; simp [LoadState.emit]
      have hq : trace_queries ([LoadEvent.row row] ++ e1) = [] := by
        rw [trace_queries_append, q1]; rfl
      have hr : trace_rows ([LoadEvent.row row] ++ e1) = [row] := by
        rw [trace_rows_append, r1]; rfl
      cases o1 with
      | error e =>
        simp only [hc, Option.some.injEq, Prod.mk.injEq] at h
        obtain ⟨rfl, rfl⟩ := h
        exact ⟨_, t1', hq, ⟨rest, by rw [hr]; rfl⟩, fun ho => by cases ho⟩
      | ok u =>
        cases u
        simp only [hc] at h
        obtain ⟨e2, t2, q2, ⟨later, hl⟩, hok⟩ := foreach_row_trace cb hcb rp rest st1 o st' h
        refine ⟨([LoadEvent.row row] ++ e1) ++ e2, by rw [t2, t1', List.append_assoc], ?_, ?_, ?_⟩
        · rw [trace_queries_append, hq, q2]; rfl
        · exact ⟨later, by rw [trace_rows_append, hr, List.append_assoc, hl]; rfl⟩
        · intro ho
          rw [trace_rows_append, hr, hok ho]; rfl

/-- A run of queries executes them in order and hands the rows that they
select to the row callback in order, up to the row on which the callback
throws. -/
theorem run_queries_trace
    (cb : Response → Row → LoadState → Option (Except MakeAtomException Unit × LoadState))
    (hcb : ∀ rp row st o st', cb rp row st = some (o, st') → st.Fetches st')
    (Atoms : List Row) :
    ∀ (qs : List ChunkQuery) (st : LoadState) (o : Except MakeAtomException Unit)
      (st' : LoadState),
      run_queries cb Atoms qs st = some (o, st') →
      ∃ evs, st'.trace = st.trace ++ evs ∧
        (∃ later, trace_queries evs ++ later = qs) ∧
        (∃ later, trace_rows evs ++ later = selected_rows Atoms qs) ∧
        (o = .ok () → trace_queries evs = qs ∧ trace_rows evs = selected_rows Atoms qs)
  | [], st, o, st', h => by
    simp only [run_queries, Option.some.injEq, Prod.mk.injEq] at h
    obtain ⟨_, rfl⟩ := h
    exact ⟨[], by simp, ⟨[], rfl⟩, ⟨[], rfl⟩, fun _ => ⟨rfl, rfl⟩⟩
  | q :: rest, st, o, st', h => by
    simp only [run_queries] at h
    cases hf : foreach_row cb { Response.new with height := q.height }
        (Atoms.filter (fun r => q.selects r)) (st.emit [LoadEvent.exec (Select.chunk q)]) with
    | none => simp [hf] at h
    | some r =>
      obtain ⟨o1, st1⟩ := r
      obtain ⟨e1, t1, q1, ⟨l1, hl1⟩, ok1⟩ := foreach_row_trace cb hcb _ _ _ _ _ hf
      have t1' : st1.trace = st.trace ++ ([LoadEvent.exec (Select.chunk q)] ++ e1) := by
        rw [t1]; simp [LoadState.emit]
      have hq : trace_queries ([LoadEvent.exec (Select.chunk q)] ++ e1) = [q] := by
        rw [trace_queries_append, q1]; rfl
      have hr : trace_rows ([LoadEvent.exec (Select.chunk q)] ++ e1) = trace_rows e1 := by
        rw [trace_rows_append]; rfl
      have hsel : selected_rows Atoms (q :: rest) =
          Atoms.filter (fun r => q.selects r) ++ selected_rows Atoms rest := by
        simp [selected_rows]
      cases o1 with
      | error e =>
        simp only [hf, Option.some.injEq, Prod.mk.injEq] at h
        obtain ⟨rfl, rfl⟩ := h
        refine ⟨_, t1', ⟨rest, by rw [hq]; rfl⟩,
          ⟨l1 ++ selected_rows Atoms rest, ?_⟩, fun ho => by cases ho⟩
        rw [hr, hsel, ← List.append_assoc, hl1]
      | ok u =>
        cases u
        simp only [hf] at h
        obtain ⟨e2, t2, ⟨lq, hlq⟩, ⟨lr, hlr⟩, ok2⟩ := run_queries_trace cb hcb Atoms rest st1 o st' h
        have hall := ok1 rfl
        refine ⟨([LoadEvent.exec (Select.chunk q)] ++ e1) ++ e2,
          by rw [t2, t1', List.append_assoc], ⟨lq, ?_⟩, ⟨lr, ?_⟩, ?_⟩
        · rw [trace_queries_append, hq, List.append_assoc, hlq]; rfl
        · rw [trace_rows_append, hr, hall, hsel, List.append_assoc, hlr]
        · intro ho
          obtain ⟨oq, orr⟩ := ok2 ho
          refine ⟨by rw [trace_queries_append, hq, oq]; rfl, ?_⟩
          rw [trace_rows_append, hr, hall, orr, hsel]

theorem storage_setup_none (env : StoreEnv) (s : Storage) :
    s.setup_typemap env = none ↔ setup_typemap env.cs env.TYPEMAP_SZ s.typemaps = none := by
  unfold Storage.setup_typemap
  cases setup_typemap env.cs env.TYPEMAP_SZ s.typemaps with
  | none => simp
  | some tm =>
    by_cases hl : s.typemaps.type_map_was_loaded = true <;> simp [hl]

theorem storage_setup_some (env : StoreEnv) (s s1 : Storage) (h : s.setup_typemap env = some s1) :
    setup_typemap env.cs env.TYPEMAP_SZ s.typemaps = some s1.typemaps := by
  unfold Storage.setup_typemap at h
  cases hs : setup_typemap env.cs env.TYPEMAP_SZ s.typemaps with
  | none => simp [hs] at h
  | some tm =>
    rw [hs] at h
    by_cases hl : s.typemaps.type_map_was_loaded = true
    · simp only [hl, if_true, Option.some.injEq] at h
      rw [← h]
    · simp only [hl, Bool.false_eq_true, if_false, Option.some.injEq] at h
      rw [← h]; rfl

/-- The statements of a loader before its loops, up to `setup_typemap`. -/
theorem load_begin_eq (env : LoadEnv) (Atoms : List Row) (atom_type : Option AtomType)
    (st : LoadState) :
    ∃ st0 : LoadState, st0.store.typemaps = st.store.typemaps ∧
      st0.store.max_height =
        (match atom_type with
         | none => (getMaxObservedHeight Atoms st).1
         | some t => if env.isNode t then 0 else (getMaxObservedHeight Atoms st).1) ∧
      st.Fetches st0 ∧
      load_begin env Atoms atom_type st =
        match Storage.setup_typemap env.store st0.store with
        | none => none
        | some store =>
          some ((getMaxObservedUUID (Atoms.map (fun r => r.uuid)) st.store).1,
            { st0 with store := store.emit [Event.get_conn] }) := by
  have hH : ∀ s : LoadState, (getMaxObservedHeight Atoms s).1 = (getMaxObservedHeight Atoms st).1 :=
    fun _ => rfl
  cases atom_type with
  | none =>
    refine ⟨{ (getMaxObservedHeight Atoms { st with
          store := (getMaxObservedUUID (Atoms.map (fun r => r.uuid)) st.store).2,
          tlbuf := st.tlbuf.reserve_upto
            (getMaxObservedUUID (Atoms.map (fun r => r.uuid)) st.store).1,
          load_count := 0 }).2 with
        store := { (getMaxObservedHeight Atoms { st with
          store := (getMaxObservedUUID (Atoms.map (fun r => r.uuid)) st.store).2,
          tlbuf := st.tlbuf.reserve_upto
            (getMaxObservedUUID (Atoms.map (fun r => r.uuid)) st.store).1,
          load_count := 0 }).2.store with
            max_height := (getMaxObservedHeight Atoms st).1 } },
      rfl, rfl, ⟨[LoadEvent.exec Select.max_height], rfl, rfl, rfl⟩, rfl⟩
  | some t =>
    by_cases hn : env.isNode t = true
    · refine ⟨{ st with
          store := { (getMaxObservedUUID (Atoms.map (fun r => r.uuid)) st.store).2 with
            max_height := 0 },
          tlbuf := st.tlbuf.reserve_upto
            (getMaxObservedUUID (Atoms.map (fun r => r.uuid)) st.store).1,
          load_count := 0 }, rfl, by simp [hn], ⟨[], by simp, rfl, rfl⟩, ?_⟩
      simp only [load_begin, hn, if_true]
    · have hn' : env.isNode t = false := by simpa using hn
      refine ⟨{ (getMaxObservedHeight Atoms { st with
            store := (getMaxObservedUUID (Atoms.map (fun r => r.uuid)) st.store).2,
            tlbuf := st.tlbuf.reserve_upto
              (getMaxObservedUUID (Atoms.map (fun r => r.uuid)) st.store).1,
            load_count := 0 }).2 with
          store := { (getMaxObservedHeight Atoms { st with
            store := (getMaxObservedUUID (Atoms.map (fun r => r.uuid)) st.store).2,
            tlbuf := st.tlbuf.reserve_upto
              (getMaxObservedUUID (Atoms.map (fun r => r.uuid)) st.store).1,
            load_count := 0 }).2.store with
              max_height := (getMaxObservedHeight Atoms st).1 } },
        rfl, by simp [hn'], ⟨[LoadEvent.exec Select.max_height], rfl, rfl, rfl⟩, ?_⟩
      simp only [load_begin, hn', Bool.false_eq_true, if_false]
      rfl

/-- The statements of a loader before its loops abort exactly when
`setup_typemap` does. -/
theorem load_begin_none (env : LoadEnv) (Atoms : List Row) (atom_type : Option AtomType)
    (st : LoadState) :
    load_begin env Atoms atom_type st = none ↔
      setup_typemap env.store.cs env.store.TYPEMAP_SZ st.store.typemaps = none := by
  obtain ⟨st0, htm, _, _, heq⟩ := load_begin_eq env Atoms atom_type st
  rw [heq, ← htm, ← storage_setup_none]
  cases Storage.setup_typemap env.store st0.store <;> simp

/-- The statements of a loader before its loops leave the maximum observed
UUID in `max_nrec`, the height to scan up to in `max_height` and the maps of
`setup_typemap` in the store; they execute no chunk query and hand no row to
the row callback. -/
theorem load_begin_some (env : LoadEnv) (Atoms : List Row) (atom_type : Option AtomType)
    (st st1 : LoadState) (max_nrec : UUID) :
    load_begin env Atoms atom_type st = some (max_nrec, st1) →
    max_nrec = (getMaxObservedUUID (Atoms.map (fun r => r.uuid)) st.store).1 ∧
    st1.store.max_height =
      (match atom_type with
       | none => (getMaxObservedHeight Atoms st).1
       | some t => if env.isNode t then 0 else (getMaxObservedHeight Atoms st).1) ∧
    setup_typemap env.store.cs env.store.TYPEMAP_SZ st.store.typemaps =
      some st1.store.typemaps ∧
    st.Fetches st1 := by
  intro h
  obtain ⟨st0, htm, hh, hf, heq⟩ := load_begin_eq env Atoms atom_type st
  rw [heq] at h
  cases hs : Storage.setup_typemap env.store st0.store with
  | none => simp [hs] at h
  | some store =>
    simp only [hs, Option.some.injEq, Prod.mk.injEq] at h
    obtain ⟨rfl, rfl⟩ := h
    refine ⟨rfl, ?_, ?_, ?_⟩
    · rw [← hh]
      exact (setup_typemap_storage env.store _ _ hs).2.2.1
    · rw [← htm]
      exact storage_setup_some env.store _ store hs
    · obtain ⟨evs, ht, hq, hr⟩ := hf
      exact ⟨evs, ht, hq, hr⟩

/-- The queries of a scan select a row of a UUID up to `M` once when its UUID
is not 0, its height is from 0 to `H` and its type is the one asked for, and
not at all otherwise. -/
theorem load_queries_cover (M : Nat) (hM : M + STEP < 2 ^ 64) (type : Option Int) (H : Int)
    (row : Row) (hrow : row.uuid ≤ M) :
    (load_queries type M H).countP (fun q => q.selects row) =
      if 0 < row.uuid ∧ 0 ≤ row.height ∧ row.height ≤ H ∧
          (type = none ∨ type = some row.type) then 1 else 0 := by
  rw [load_queries, height_queries_cover M type (chunks_upto M) (chunks_upto_cover M hM)
    (H + 1).toNat 0 row hrow]
  by_cases hH : 0 ≤ H + 1
  · have hcast : ((H + 1).toNat : Int) = H + 1 := Int.toNat_of_nonneg hH
    by_cases hc : 0 < row.uuid ∧ 0 ≤ row.height ∧ row.height ≤ H ∧
        (type = none ∨ type = some row.type)
    · rw [if_pos hc, if_pos]
      obtain ⟨c1, c2, c3, c4⟩ := hc
      exact ⟨c1, c2, by omega, c4⟩
    · rw [if_neg hc, if_neg]
      rintro ⟨c1, c2, c3, c4⟩
      exact hc ⟨c1, c2, by omega, c4⟩
  · have hcast : ((H + 1).toNat : Int) = 0 := by
      rw [Int.toNat_of_nonpos (by omega)]; rfl
    rw [if_neg, if_neg]
    · rintro ⟨_, c2, c3, _⟩; omega
    · rintro ⟨_, c2, c3, _⟩; omega

/-- The events of a scan, from the state before the loader: the queries
executed and the rows handed to the row callback are the first ones of the
queries of the scan and of the rows that they select, and all of them when the
scan ends without exception. -/
theorem scan_trace
    (cb : Response → Row → LoadState → Option (Except MakeAtomException Unit × LoadState))
    (hcb : ∀ rp row st o st', cb rp row st = some (o, st') → st.Fetches st')
    (Atoms : List Row) (qs : List ChunkQuery) (st b st' : LoadState)
    (o : Except MakeAtomException Unit) (hb : st.Fetches b)
    (h : load_end (run_queries cb Atoms qs b) = some (o, st')) :
    ∃ evs, st'.trace = st.trace ++ evs ∧
      (∃ later, trace_queries evs ++ later = qs) ∧
      (∃ later, trace_rows evs ++ later = selected_rows Atoms qs) ∧
      (o = .ok () → trace_queries evs = qs ∧ trace_rows evs = selected_rows Atoms qs) := by
  obtain ⟨e0, t0, q0, r0⟩ := hb
  have key : ∀ st2 : LoadState, run_queries cb Atoms qs b = some (o, st2) →
      st'.trace = st2.trace →
      ∃ evs, st'.trace = st.trace ++ evs ∧
        (∃ later, trace_queries evs ++ later = qs) ∧
        (∃ later, trace_rows evs ++ later = selected_rows Atoms qs) ∧
        (o = .ok () → trace_queries evs = qs ∧ trace_rows evs = selected_rows Atoms qs) := by
    intro st2 hr ht
    obtain ⟨e1, t1, hq, hrw, hok⟩ := run_queries_trace cb hcb Atoms qs b o st2 hr
    refine ⟨e0 ++ e1, by rw [ht, t1, t0, List.append_assoc], ?_, ?_, ?_⟩
    · rw [trace_queries_append, q0]; exact hq
    · rw [trace_rows_append, r0]; exact hrw
    · rw [trace_queries_append, q0, trace_rows_append, r0]; exact hok
  cases hr : run_queries cb Atoms qs b with
  | none => simp [hr, load_end] at h
  | some r =>
    obtain ⟨o1, st2⟩ := r
    rw [hr] at h
    cases o1 with
    | error e =>
      simp only [load_end, Option.some.injEq, Prod.mk.injEq] at h
      obtain ⟨rfl, rfl⟩ := h
      exact key _ hr rfl
    | ok u =>
      cases u
      simp only [load_end, Option.some.injEq, Prod.mk.injEq] at h
      obtain ⟨rfl, rfl⟩ := h
      exact key _ hr rfl

end opencog

/-! ## The claims -/

namespace opencog

open FreeVariables
open ODBCAtomStorage

/-- C1 (alpha-hiding): for every non-empty Variables `V` that satisfies the
invariants, every argument list that passes the arity and type checks and
every scope link `t` (met unquoted, at the root) whose declared variables
include every variable of `V`, `substitute(t, args)` returns `t` itself. -/
theorem substitute_alpha_hiding (env : Env) (V : Variables) (ty : AtomType) (out : HandleSeq)
    (args : HandleSeq) (silent : Bool)
    (hinv : V.Invariant env) (hne : V.varseq ≠ [])
    (hlen : args.length = V.varseq.length)
    (htc : V.is_type_seq env args = .ok true)
    (hsc : env.isA ty env.SCOPE_LINK = true)
    (hdecl : ∀ v ∈ V.varseq, v ∈ env.get_variables (Atom.link ty out)) :
    V.substitute env (Atom.link ty out) args silent = .ok (Atom.link ty out) := by
  rw [substitute_of_checks env V _ _ silent hlen htc]
  have hnf : V.index.find (Atom.link ty out) = none := by
    rw [find_eq_none_iff]
    intro p hp e
    have := (hinv.2.2.2.2.2.2.2.2.2 p.1 (hinv.key_mem p hp)).1
    rw [e] at this
    simp [Atom.isNode] at this
  have hah : alpha_hide V.index (env.get_variables (Atom.link ty out)) = true := by
    obtain ⟨v, vs, hv⟩ := List.exists_cons_of_ne_nil hne
    have hv0 : v ∈ V.varseq := by rw [hv]; exact List.mem_cons_self _ _
    obtain ⟨i, hi, hget⟩ := List.getElem_of_mem hv0
    have hf := hinv.2.2.2.2.1 i hi
    have : V.varseq.get ⟨i, hi⟩ = v := hget
    rw [this] at hf
    simp only [alpha_hide, List.any_eq_true]
    exact ⟨v, hdecl v hv0, by simp [hf]⟩
  rw [substitute_scoped_link_hidden env args false ty out V.index ⟨0⟩
    (by simp [Quotation.is_unquoted, hnf]) (by simp [Quotation.is_unquoted, hsc, hah])]
  have hem : (hidden_map V.index (env.get_variables (Atom.link ty out))).empty = true := by
    rw [hidden_map_eq_filter]
    simp only [HandleMapOf.empty, List.isEmpty_iff, List.filter_eq_nil_iff]
    intro p hp
    simp [hdecl p.1 (hinv.key_mem p hp)]
  simp [hem]

/-- C1 at a concrete input of the sample class server. -/
theorem substitute_alpha_hiding_witness :
    sampleVars_x.substitute sampleEnv
        (Atom.link 5 [sample_x, Atom.link 12 [sample_x, sample_x]]) [sample_a] false
      = .ok (Atom.link 5 [sample_x, Atom.link 12 [sample_x, sample_x]]) :=
  substitute_alpha_hiding sampleEnv sampleVars_x 5 [sample_x, Atom.link 12 [sample_x, sample_x]]
    [sample_a] false (by decide) (by decide) rfl rfl rfl (by decide)

/-- C2 (partial alpha-hiding): for `V = [x, y]` and `args = [a, b]`,
substituting into a scope link that declares `y` but not `x`, with a body
`g(cs)` whose children `cs` are occurrences of `x` and `y` (the claim has
`cs = [x, y]`), returns the scope link of the same type with the declaration
untouched and the body `g(cs')`, where `cs'` has `a` for every `x` and keeps
every `y`. The declaration is the bare variable or a list link around it. -/
theorem substitute_partial_hiding (env : Env) (V : Variables) (nx ny : String) (a b : Atom)
    (gty sty vlty : AtomType) (decl : Atom) (cs : HandleSeq) (silent : Bool)
    (hseq : V.varseq = [Atom.node env.VARIABLE_NODE nx, Atom.node env.VARIABLE_NODE ny])
    (hidx : V.index = [(Atom.node env.VARIABLE_NODE nx, 0), (Atom.node env.VARIABLE_NODE ny, 1)])
    (hd : env.distinct) (hxy : nx ≠ ny)
    (hg : env.plain gty) (hs : env.scope sty)
    (hdecl : decl = Atom.node env.VARIABLE_NODE ny ∨
      (decl = Atom.link vlty [Atom.node env.VARIABLE_NODE ny] ∧ env.plain vlty))
    (hvars : env.get_variables (Atom.link sty [decl, Atom.link gty cs])
      = [Atom.node env.VARIABLE_NODE ny])
    (hcs : ∀ c ∈ cs, c = Atom.node env.VARIABLE_NODE nx ∨ c = Atom.node env.VARIABLE_NODE ny)
    (htc : V.is_type_seq env [a, b] = .ok true) :
    V.substitute env (Atom.link sty [decl, Atom.link gty cs]) [a, b] silent
      = .ok (Atom.link sty [decl, Atom.link gty
          (cs.map (fun c => if c = Atom.node env.VARIABLE_NODE nx then a else c))]) := by
  simp only [Env.distinct, List.nodup_cons, List.mem_cons, List.mem_singleton, not_or,
    List.not_mem_nil, not_false_eq_true, List.nodup_nil, and_true] at hd
  obtain ⟨⟨hvg, -⟩, -⟩ := hd
  obtain ⟨hsa, hsq, hsu, hsg⟩ := hs
  have hxy' : Atom.node env.VARIABLE_NODE nx ≠ Atom.node env.VARIABLE_NODE ny := by
    intro e; injection e with _ e2; exact hxy e2
  rw [substitute_of_checks env V _ _ silent (by simp [hseq]) htc, hidx]
  rw [substitute_scoped_link_hidden env [a, b] false sty _ _ ⟨0⟩
    (by simp [Quotation.is_unquoted, HandleMapOf.find])
    (by simp [Quotation.is_unquoted, hsa, hvars, alpha_hide, HandleMapOf.find, hxy])]
  have hhid : hidden_map [(Atom.node env.VARIABLE_NODE nx, 0), (Atom.node env.VARIABLE_NODE ny, 1)]
      (env.get_variables (Atom.link sty [decl, Atom.link gty cs]))
      = [(Atom.node env.VARIABLE_NODE nx, 0)] := by
    rw [hvars]
    simp [hidden_map, HandleMapOf.erase, List.filter, hxy]
  have hq : (Quotation.update env ⟨0⟩ sty) = ⟨0⟩ := by
    simp [Quotation.update, hsq, hsu]
  rw [hhid, hq]
  have hfy : HandleMapOf.find [(Atom.node env.VARIABLE_NODE nx, (0 : Nat))]
      (Atom.node env.VARIABLE_NODE ny) = none := by
    simp [HandleMapOf.find, hxy]
  have hdec : substitute_scoped env [a, b] false decl [(Atom.node env.VARIABLE_NODE nx, 0)] ⟨0⟩
      = .ok decl := by
    apply substitute_scoped_decl env [a, b] false _ env.VARIABLE_NODE ny vlty decl hvg hfy
    rcases hdecl with h | ⟨h, hp⟩
    · exact Or.inl h
    · exact Or.inr ⟨h, hp, by rw [h]; simp [HandleMapOf.find]⟩
  have hbody : substitute_scoped env [a, b] false (Atom.link gty cs)
      [(Atom.node env.VARIABLE_NODE nx, 0)] ⟨0⟩
      = .ok (Atom.link gty
          (cs.map (fun c => if c = Atom.node env.VARIABLE_NODE nx then a else c))) := by
    rw [substitute_scoped_link_nodes env [a, b] false _ gty cs hg (by simp [HandleMapOf.find])]
    · congr 2
      apply List.map_congr_left
      intro c hc
      rcases hcs c hc with rfl | rfl
      · simp [HandleMapOf.find]
      · simp [HandleMapOf.find, hxy, Ne.symm hxy]
    · intro c hc
      rcases hcs c hc with rfl | rfl <;> simp [Atom.isNode, Atom.getType, hvg]
    · intro c hc i hi
      rcases hcs c hc with rfl | rfl
      · simp [HandleMapOf.find] at hi; simp [← hi]
      · simp [HandleMapOf.find, hxy] at hi
  simp [HandleMapOf.empty, hidden_cons env [a, b] false _ ⟨0⟩ decl decl _ _ hdec
    (hidden_cons env [a, b] false _ ⟨0⟩ _ _ [] [] hbody (hidden_nil _ _ _ _ _)), createLink]

/-- C2 at a concrete input of the sample class server. -/
theorem substitute_partial_hiding_witness :
    sampleVars_xy.substitute sampleEnv
        (Atom.link 5 [Atom.link 6 [sample_y], Atom.link 7 [sample_x, sample_y]])
        [sample_a, sample_b] false
      = .ok (Atom.link 5 [Atom.link 6 [sample_y], Atom.link 7 [sample_a, sample_y]]) :=
  substitute_partial_hiding sampleEnv sampleVars_xy "$x" "$y" sample_a sample_b 7 5 6
    (Atom.link 6 [sample_y]) [sample_x, sample_y] false rfl rfl (by decide) (by decide)
    (by decide) (by decide) (Or.inr ⟨rfl, by decide⟩) rfl (by decide) rfl

/-- C3 (non-hiding): for `V = [x]` and any argument `a`, when the inner scope
link declares only a variable `y` that is not in `V`,
`substitute(f(x, SCOPE([y], g(x, y))), [a]) = f(a, SCOPE([y], g(a, y)))`;
`f` and `g` are plain link types and `x`, `y` are VARIABLE_NODEs. -/
theorem substitute_non_hiding (env : Env) (V : Variables) (nx ny : String) (a : Atom)
    (fty gty sty vlty : AtomType) (decl : Atom) (silent : Bool)
    (hseq : V.varseq = [Atom.node env.VARIABLE_NODE nx])
    (hidx : V.index = [(Atom.node env.VARIABLE_NODE nx, 0)])
    (hd : env.distinct) (hxy : nx ≠ ny)
    (hf : env.plain fty) (hg : env.plain gty) (hs : env.scope sty)
    (hdecl : decl = Atom.node env.VARIABLE_NODE ny ∨
      (decl = Atom.link vlty [Atom.node env.VARIABLE_NODE ny] ∧ env.plain vlty))
    (hvars : env.get_variables (Atom.link sty [decl, Atom.link gty
        [Atom.node env.VARIABLE_NODE nx, Atom.node env.VARIABLE_NODE ny]])
      = [Atom.node env.VARIABLE_NODE ny])
    (htc : V.is_type_seq env [a] = .ok true) :
    V.substitute env
        (Atom.link fty [Atom.node env.VARIABLE_NODE nx,
          Atom.link sty [decl, Atom.link gty
            [Atom.node env.VARIABLE_NODE nx, Atom.node env.VARIABLE_NODE ny]]]) [a] silent
      = .ok (Atom.link fty [a,
          Atom.link sty [decl, Atom.link gty [a, Atom.node env.VARIABLE_NODE ny]]]) := by
  simp only [Env.distinct, List.nodup_cons, List.mem_cons, List.mem_singleton, not_or,
    List.not_mem_nil, not_false_eq_true, List.nodup_nil, and_true] at hd
  obtain ⟨⟨hvg, -⟩, -⟩ := hd
  obtain ⟨hsa, hsq, hsu, hsg⟩ := hs
  obtain ⟨hfq, hfu, hfg, hfs⟩ := hf
  rw [substitute_of_checks env V _ _ silent (by simp [hseq]) htc, hidx]
  have hfy : HandleMapOf.find [(Atom.node env.VARIABLE_NODE nx, (0 : Nat))]
      (Atom.node env.VARIABLE_NODE ny) = none := by
    simp [HandleMapOf.find, hxy]
  have hx : substitute_scoped env [a] false (Atom.node env.VARIABLE_NODE nx)
      [(Atom.node env.VARIABLE_NODE nx, 0)] ⟨0⟩ = .ok a := by
    rw [substitute_scoped_found env [a] false _ _ _ 0
      (by simp [Quotation.is_unquoted, HandleMapOf.find])]
    rfl
  have hdec : substitute_scoped env [a] false decl [(Atom.node env.VARIABLE_NODE nx, 0)] ⟨0⟩
      = .ok decl := by
    apply substitute_scoped_decl env [a] false _ env.VARIABLE_NODE ny vlty decl hvg hfy
    rcases hdecl with h | ⟨h, hp⟩
    · exact Or.inl h
    · exact Or.inr ⟨h, hp, by rw [h]; simp [HandleMapOf.find]⟩
  have hbody : substitute_scoped env [a] false
      (Atom.link gty [Atom.node env.VARIABLE_NODE nx, Atom.node env.VARIABLE_NODE ny])
      [(Atom.node env.VARIABLE_NODE nx, 0)] ⟨0⟩
      = .ok (Atom.link gty [a, Atom.node env.VARIABLE_NODE ny]) := by
    rw [substitute_scoped_link_nodes env [a] false _ gty _ hg (by simp [HandleMapOf.find])
      (by simp [Atom.isNode, Atom.getType, hvg])
      (by intro c _ i hi
          by_cases hc : Atom.node env.VARIABLE_NODE nx = c
          · simp [HandleMapOf.find, hc] at hi; simp [← hi]
          · simp [HandleMapOf.find, hc] at hi)]
    simp [HandleMapOf.find, hxy]
  have hq : (Quotation.update env ⟨0⟩ sty) = ⟨0⟩ := by
    simp [Quotation.update, hsq, hsu]
  have hscope : substitute_scoped env [a] false
      (Atom.link sty [decl, Atom.link gty
        [Atom.node env.VARIABLE_NODE nx, Atom.node env.VARIABLE_NODE ny]])
      [(Atom.node env.VARIABLE_NODE nx, 0)] ⟨0⟩
      = .ok (Atom.link sty [decl, Atom.link gty [a, Atom.node env.VARIABLE_NODE ny]]) := by
    rw [substitute_scoped_link env [a] false sty _ _ ⟨0⟩
      (by simp [Quotation.is_unquoted, HandleMapOf.find])
      (by simp [hvars, alpha_hide, HandleMapOf.find, hxy]), hq]
    have hdg : env.GLOB_NODE ≠ decl.getType := by
      rcases hdecl with h | ⟨h, hp⟩
      · rw [h]; exact Ne.symm hvg
      · rw [h]; exact Ne.symm hp.2.2.1
    rw [loop_cons_other env [a] false _ ⟨0⟩ decl decl _ _ hdg hdec
      (loop_cons_other env [a] false _ ⟨0⟩ _ _ [] []
        (show env.GLOB_NODE ≠ (Atom.link gty _).getType from Ne.symm hg.2.2.1) hbody
        (loop_nil _ _ _ _ _))]
    rfl
  have hq' : (Quotation.update env ⟨0⟩ fty) = ⟨0⟩ := by
    simp [Quotation.update, hfq, hfu]
  rw [substitute_scoped_link env [a] false fty _ _ ⟨0⟩
      (by simp [Quotation.is_unquoted, HandleMapOf.find]) (by simp [hfs]), hq']
  rw [loop_cons_other env [a] false _ ⟨0⟩ _ a _ _
      (show env.GLOB_NODE ≠ (Atom.node env.VARIABLE_NODE nx).getType from Ne.symm hvg) hx
      (loop_cons_other env [a] false _ ⟨0⟩ _ _ [] []
        (show env.GLOB_NODE ≠ (Atom.link sty _).getType from Ne.symm hsg) hscope
        (loop_nil _ _ _ _ _))]
  rfl

/-- C3 at a concrete input of the sample class server. -/
theorem substitute_non_hiding_witness :
    sampleVars_x.substitute sampleEnv
        (Atom.link 7 [sample_x,
          Atom.link 5 [Atom.link 6 [sample_y], Atom.link 12 [sample_x, sample_y]]])
        [sample_a] false
      = .ok (Atom.link 7 [sample_a,
          Atom.link 5 [Atom.link 6 [sample_y], Atom.link 12 [sample_a, sample_y]]]) :=
  substitute_non_hiding sampleEnv sampleVars_x "$x" "$y" sample_a 7 12 5 6
    (Atom.link 6 [sample_y]) false rfl rfl (by decide) (by decide)
    (by decide) (by decide) (by decide) (Or.inr ⟨rfl, by decide⟩) rfl rfl

/-- C4 as stated fails: with `V = [$g]` and the argument `LIST($x, $y)`, the link
`LIST(a, $g, $h)`, where `$h` is another glob, gives the node `$h`, and so does
`LIST($h, $g, b)`; the quotation link `QUOTE(a, $g, b)` gives the node `$g`, and
the scope link `SCOPE($g, a, b)`, which declares `$g`, comes back unchanged.
Each of them has `$g` as a direct child, and in none is it replaced by
`$x, $y` with the other children kept. -/
theorem substitute_glob_splice_counterexample :
    sampleVars_g.substitute sampleEnv (Atom.link 7 [sample_a, sample_g, sample_h])
        [Atom.link 7 [sample_x, sample_y]] false = .ok sample_h ∧
    sampleVars_g.substitute sampleEnv (Atom.link 7 [sample_h, sample_g, sample_b])
        [Atom.link 7 [sample_x, sample_y]] false = .ok sample_h ∧
    sampleVars_g.substitute sampleEnv (Atom.link 3 [sample_a, sample_g, sample_b])
        [Atom.link 7 [sample_x, sample_y]] false
      = .ok sample_g ∧
    sampleVars_g.substitute sampleEnv (Atom.link 5 [sample_g, sample_a, sample_b])
        [Atom.link 7 [sample_x, sample_y]] false
      = .ok (Atom.link 5 [sample_g, sample_a, sample_b]) := by
  decide

/-- C4 (glob splicing), as the code has it: for `V = [g]` with `g` a GLOB_NODE
and an argument that is a link with children `cs`, substituting into a link
that is neither a scope link nor a QUOTE_LINK or UNQUOTE_LINK and whose
children of type GLOB_NODE are all `g` itself returns the link of the same type
whose outgoing set is made of one segment per child, in the order of the
children: `cs` for a child `g`, and for any other child `c` the single atom
`substitute(c, [arg])`, which is `c` itself when `c` is a node, or when `g` does
not occur free in `c` and no link of `c` has a child of type GLOB_NODE. So
`substitute(LIST(a, g, b), [LIST(x, y)]) = LIST(a, x, y, b)`. -/
theorem substitute_glob_splice_children (env : Env) (V : Variables) (ng : String)
    (ty lty : AtomType) (out cs : HandleSeq) (silent : Bool)
    (hseq : V.varseq = [Atom.node env.GLOB_NODE ng])
    (hidx : V.index = [(Atom.node env.GLOB_NODE ng, 0)])
    (hty : env.plain ty)
    (hglob : ∀ c ∈ out, c.getType = env.GLOB_NODE → c = Atom.node env.GLOB_NODE ng)
    (htc : V.is_type_seq env [Atom.link lty cs] = .ok true) :
    ∃ segs : List HandleSeq,
      List.Forall₂ (fun c seg =>
        if c = Atom.node env.GLOB_NODE ng then seg = cs
        else ∃ c', seg = [c'] ∧
          V.substitute env c [Atom.link lty cs] silent = .ok c' ∧
          ((c.isNode = true ∨
            (c.no_free env V.index ⟨0⟩ = true ∧ c.glob_free env = true)) → c' = c))
        out segs ∧
      V.substitute env (Atom.link ty out) [Atom.link lty cs] silent
        = .ok (Atom.link ty segs.flatten) := by
  obtain ⟨htq, htu, htg, hts⟩ := hty
  obtain ⟨segs, hsegs, hloop⟩ := glob_splice_loop env V ng lty cs silent hseq hidx htc out hglob
  refine ⟨segs, hsegs, ?_⟩
  rw [substitute_of_checks env V _ _ silent (by simp [hseq]) htc]
  have hnf : (if (⟨0⟩ : Quotation).is_unquoted then V.index.find (Atom.link ty out) else none)
      = none := by
    simp [hidx, Quotation.is_unquoted, HandleMapOf.find]
  rw [substitute_scoped_link env _ false _ _ _ _ hnf (by simp [hts])]
  have hq : (Quotation.update env ⟨0⟩ ty) = ⟨0⟩ := by
    simp [Quotation.update, htq, htu]
  rw [hq, hloop]
  rfl

/-- The example of C4 and two links with a link among the other children, at
the sample class server: `LIST(a, $g, b)` gives `LIST(a, $x, $y, b)`,
`LIST(LIST(a), $g, b)` gives `LIST(LIST(a), $x, $y, b)`, and
`LIST(LIST($g), $g, $g)` gives `LIST(LIST($x, $y), $x, $y, $x, $y)`. -/
theorem substitute_glob_splice_children_witness :
    sampleVars_g.substitute sampleEnv (Atom.link 7 [sample_a, sample_g, sample_b])
        [Atom.link 7 [sample_x, sample_y]] false
      = .ok (Atom.link 7 [sample_a, sample_x, sample_y, sample_b]) ∧
    sampleVars_g.substitute sampleEnv
        (Atom.link 7 [Atom.link 7 [sample_a], sample_g, sample_b])
        [Atom.link 7 [sample_x, sample_y]] false
      = .ok (Atom.link 7 [Atom.link 7 [sample_a], sample_x, sample_y, sample_b]) ∧
    sampleVars_g.substitute sampleEnv
        (Atom.link 7 [Atom.link 7 [sample_g], sample_g, sample_g])
        [Atom.link 7 [sample_x, sample_y]] false
      = .ok (Atom.link 7 [Atom.link 7 [sample_x, sample_y], sample_x, sample_y,
          sample_x, sample_y]) := by
  refine ⟨?_, ?_, ?_⟩
  · obtain ⟨segs, hs, h⟩ := substitute_glob_splice_children sampleEnv sampleVars_g "$g" 7 7
      [sample_a, sample_g, sample_b] [sample_x, sample_y] false rfl rfl (by decide)
      (by decide) rfl
    rw [h]
    cases hs with
    | cons h1 hs =>
    cases hs with
    | cons h2 hs =>
    cases hs with
    | cons h3 hs =>
    cases hs
    rw [if_neg (by decide)] at h1 h3
    rw [if_pos (by decide)] at h2
    obtain ⟨c1, rfl, -, k1⟩ := h1
    obtain ⟨c3, rfl, -, k3⟩ := h3
    rw [h2, k1 (Or.inl rfl), k3 (Or.inl rfl)]
    rfl
  · obtain ⟨segs, hs, h⟩ := substitute_glob_splice_children sampleEnv sampleVars_g "$g" 7 7
      [Atom.link 7 [sample_a], sample_g, sample_b] [sample_x, sample_y] false rfl rfl
      (by decide) (by decide) rfl
    rw [h]
    cases hs with
    | cons h1 hs =>
    cases hs with
    | cons h2 hs =>
    cases hs with
    | cons h3 hs =>
    cases hs
    rw [if_neg (by decide)] at h1 h3
    rw [if_pos (by decide)] at h2
    obtain ⟨c1, rfl, -, k1⟩ := h1
    obtain ⟨c3, rfl, -, k3⟩ := h3
    rw [h2, k1 (Or.inr (by decide)), k3 (Or.inl rfl)]
    rfl
  · obtain ⟨segs, hs, h⟩ := substitute_glob_splice_children sampleEnv sampleVars_g "$g" 7 7
      [Atom.link 7 [sample_g], sample_g, sample_g] [sample_x, sample_y] false rfl rfl
      (by decide) (by decide) rfl
    rw [h]
    cases hs with
    | cons h1 hs =>
    cases hs with
    | cons h2 hs =>
    cases hs with
    | cons h3 hs =>
    cases hs
    rw [if_neg (by decide)] at h1
    rw [if_pos (by decide)] at h2 h3
    obtain ⟨c1, rfl, e1, -⟩ := h1
    have hc1 : c1 = Atom.link 7 [sample_x, sample_y] :=
      Except.ok.inj (e1.symm.trans (by decide))
    rw [h2, h3, hc1]
    rfl

/-- C5 (quotation example): for `V = [x]` and any argument `a`,
`substitute(QUOTE(UNQUOTE(x)), [a]) = QUOTE(UNQUOTE(a))`: the unquote inside
one quote brings the level back to 0, and both wrapper links are kept. -/
theorem substitute_quote_unquote (env : Env) (V : Variables) (nx : String) (a : Atom)
    (silent : Bool)
    (hseq : V.varseq = [Atom.node env.VARIABLE_NODE nx])
    (hidx : V.index = [(Atom.node env.VARIABLE_NODE nx, 0)])
    (hd : env.distinct)
    (hqs : env.isA env.QUOTE_LINK env.SCOPE_LINK = false)
    (htc : V.is_type_seq env [a] = .ok true) :
    V.substitute env
        (Atom.link env.QUOTE_LINK [Atom.link env.UNQUOTE_LINK [Atom.node env.VARIABLE_NODE nx]])
        [a] silent
      = .ok (Atom.link env.QUOTE_LINK [Atom.link env.UNQUOTE_LINK [a]]) := by
  simp only [Env.distinct, List.nodup_cons, List.mem_cons, List.mem_singleton, not_or,
    List.not_mem_nil, not_false_eq_true, List.nodup_nil, and_true] at hd
  obtain ⟨⟨hvg, hvq, hvu, hvs⟩, ⟨hgq, hgu, hgs⟩, ⟨hqu, hqsc⟩, husc⟩ := hd
  rw [substitute_of_checks env V _ _ silent (by simp [hseq]) htc, hidx]
  -- the variable, at level 0 again
  have hx : substitute_scoped env [a] false (Atom.node env.VARIABLE_NODE nx)
      [(Atom.node env.VARIABLE_NODE nx, 0)] ⟨0⟩ = .ok a := by
    rw [substitute_scoped_found env [a] false _ _ _ 0
      (by simp [Quotation.is_unquoted, HandleMapOf.find])]
    rfl
  -- the unquote link, entered at level 1
  have hu : substitute_scoped env [a] false
      (Atom.link env.UNQUOTE_LINK [Atom.node env.VARIABLE_NODE nx])
      [(Atom.node env.VARIABLE_NODE nx, 0)] ⟨1⟩ = .ok (Atom.link env.UNQUOTE_LINK [a]) := by
    rw [substitute_scoped_link env [a] false _ _ _ _ (by simp [Quotation.is_unquoted])
      (by simp [Quotation.is_unquoted])]
    have hq : (Quotation.update env ⟨1⟩ env.UNQUOTE_LINK) = ⟨0⟩ := by
      simp [Quotation.update, Ne.symm hqu]
    rw [hq, loop_cons_other env [a] false _ _ _ a [] [] (by simpa [Atom.getType] using Ne.symm hvg)
      hx (loop_nil _ _ _ _ _)]
    rfl
  rw [substitute_scoped_link env [a] false _ _ _ _
    (by simp [Quotation.is_unquoted, HandleMapOf.find]) (by simp [hqs])]
  have hq : (Quotation.update env ⟨0⟩ env.QUOTE_LINK) = ⟨1⟩ := by
    simp [Quotation.update]
  rw [hq, loop_cons_other env [a] false _ _ _ _ [] [] (by simpa [Atom.getType] using hgu)
      hu (loop_nil _ _ _ _ _)]
  rfl

/-- C5 at a concrete input of the sample class server. -/
theorem substitute_quote_unquote_witness :
    sampleVars_x.substitute sampleEnv (Atom.link 3 [Atom.link 4 [sample_x]]) [sample_a] false
      = .ok (Atom.link 3 [Atom.link 4 [sample_a]]) :=
  substitute_quote_unquote sampleEnv sampleVars_x "$x" sample_a false rfl rfl (by decide) rfl rfl

/-- C6 (quoted regions are left alone), evaluated where the code departs from
it: with `V = [$x]` and `args = [a]`, the body `LIST($g)` has no UNQUOTE_LINK,
yet `substitute_nocheck(QUOTE(LIST($g)), args)` is `QUOTE($g)`: the quoted
list link is replaced by the glob node it holds (lines 234-238). For bodies
without a child of type GLOB_NODE the equation holds, see
`substitute_nocheck_quoted_of_glob_free`. -/
theorem substitute_nocheck_quoted_glob :
    sampleVars_x.substitute_nocheck sampleEnv (Atom.link 3 [Atom.link 7 [sample_g]])
        [sample_a] false = .ok (Atom.link 3 [sample_g]) ∧
    sampleVars_x.substitute_nocheck sampleEnv (Atom.link 3 [Atom.link 7 [sample_g]])
        [sample_a] false ≠ .ok (Atom.link 3 [Atom.link 7 [sample_g]]) := by
  decide

/-- C7 (substitution identity on constants), evaluated where the code departs
from it: with `V = [$x]` and `args = [a]`, no variable of `V` occurs in
`LIST($g)`, yet `substitute(LIST($g), args)` is the glob node `$g`, not the
term (lines 234-238). For terms without a child of type GLOB_NODE the
identity holds, see `substitute_identity_of_glob_free`. -/
theorem substitute_constant_glob :
    sampleVars_x.substitute sampleEnv (Atom.link 7 [sample_g]) [sample_a] false
      = .ok sample_g ∧
    sampleVars_x.substitute sampleEnv (Atom.link 7 [sample_g]) [sample_a] false
      ≠ .ok (Atom.link 7 [sample_g]) := by
  decide

/-- C9 as stated fails: the Variables `[$x, $y]` with `$x` restricted to
CONCEPT satisfy the invariants and are given two arguments, so the arity is
right, and `substitute` fails all the same, with the type-check error. -/
theorem substitute_arity_iff_counterexample :
    sampleVars_S1.Invariant sampleEnv ∧
    ([sample_three, sample_two] : HandleSeq).length = sampleVars_S1.varseq.length ∧
    sampleVars_S1.substitute sampleEnv sample_S1_term [sample_three, sample_two] false
      = .error .SyntaxException_typecheck := by
  decide

/-- C9, amended: for every Variables that satisfies the invariants, every term
and every argument list, `substitute(t, args)` fails if and only if the number
of arguments differs from the number of variables or the type check
`is_type(args)` does not return true. -/
theorem substitute_fails_iff (env : Env) (V : Variables) (term : Atom) (args : HandleSeq)
    (silent : Bool) (hinv : V.Invariant env) :
    (∃ e, V.substitute env term args silent = .error e) ↔
      (args.length ≠ V.varseq.length ∨ V.is_type_seq env args ≠ .ok true) := by
  by_cases hlen : args.length = V.varseq.length
  · cases htc : V.is_type_seq env args with
    | error e =>
      simp [Variables.substitute, hlen, htc]
    | ok b =>
      cases b with
      | false =>
        rw [substitute_of_type_error env V term args silent hlen htc]
        simp
      | true =>
        rw [substitute_of_checks env V term args silent hlen htc]
        obtain ⟨r, hr⟩ := substitute_scoped_ok env args false term V.index ⟨0⟩
          (fun p hp => by rw [hlen]; exact hinv.value_lt p hp)
        simp [hr, hlen]
  · simp [Variables.substitute, hlen]

/-- C9, amended, at a concrete input of the sample class server. -/
theorem substitute_fails_iff_witness :
    (∃ e, sampleVars_S1.substitute sampleEnv sample_S1_term [sample_three, sample_two] false
        = .error e) ↔
      (([sample_three, sample_two] : HandleSeq).length ≠ sampleVars_S1.varseq.length ∨
        sampleVars_S1.is_type_seq sampleEnv [sample_three, sample_two] ≠ .ok true) :=
  substitute_fails_iff sampleEnv sampleVars_S1 sample_S1_term [sample_three, sample_two] false
    (by decide)

/-- C10 as stated fails: in scenario S1 the result is not
`Eval(P, List(Concept("one"), Number(2)))`. -/
theorem substitute_S1_counterexample :
    sampleVars_S1.substitute sampleEnv sample_S1_term [sample_one, sample_two] false
      ≠ .ok (Atom.link 11 [Atom.node 10 "something", Atom.link 7 [sample_one, sample_two]]) := by
  decide

/-- C10, amended (scenario S1): with Variables `[$x, $y]` where `$x` is
restricted to CONCEPT, `substitute(Eval(P, List($y, $x)), [Concept("one"),
Number(2)])` returns `Eval(P, List(Number(2), Concept("one")))`: `$y` takes
the second argument and `$x` the first, in the order of the template. -/
theorem substitute_S1 (env : Env) (nx ny np : String) (concept number pred eval list : AtomType)
    (silent : Bool)
    (hd : env.distinct) (hxy : nx ≠ ny) (he : env.plain eval) (hl : env.plain list)
    (hp : pred ≠ env.GLOB_NODE) (hpv : pred ≠ env.VARIABLE_NODE) :
    (vars_S1 env nx ny concept).substitute env
        (Atom.link eval [Atom.node pred np,
          Atom.link list [Atom.node env.VARIABLE_NODE ny, Atom.node env.VARIABLE_NODE nx]])
        [Atom.node concept "one", Atom.node number "2"] silent
      = .ok (Atom.link eval [Atom.node pred np,
          Atom.link list [Atom.node number "2", Atom.node concept "one"]]) := by
  simp only [Env.distinct, List.nodup_cons, List.mem_cons, List.mem_singleton, not_or,
    List.not_mem_nil, not_false_eq_true, List.nodup_nil, and_true] at hd
  obtain ⟨⟨hvg, -⟩, -⟩ := hd
  have htc : (vars_S1 env nx ny concept).is_type_seq env
      [Atom.node concept "one", Atom.node number "2"] = .ok true := by
    simp [Variables.is_type_seq, vars_S1, Variables.is_type_loop, Variables.is_type,
      HandleMapOf.find, Atom.getType, hxy]
  rw [substitute_of_checks env _ _ _ silent (by simp [vars_S1]) htc]
  simp only [vars_S1]
  have hlist := substitute_scoped_link_nodes env
    [Atom.node concept "one", Atom.node number "2"] false
    [(Atom.node env.VARIABLE_NODE nx, 0), (Atom.node env.VARIABLE_NODE ny, 1)] list
    [Atom.node env.VARIABLE_NODE ny, Atom.node env.VARIABLE_NODE nx] hl
    (by simp [HandleMapOf.find]) (by simp [Atom.isNode, Atom.getType, hvg])
    (by intro c hc i hi
        have := find_some_mem _ _ _ hi
        simp at this
        rcases this with ⟨_, h⟩ | ⟨_, h⟩ <;> simp [h])
  simp only [List.map, HandleMapOf.find, hxy, Atom.node.injEq, true_and, and_self,
    if_true, if_false, Ne.symm hxy, List.getD_cons_zero, List.getD_cons_succ] at hlist
  have hP : substitute_scoped env [Atom.node concept "one", Atom.node number "2"] false
      (Atom.node pred np)
      [(Atom.node env.VARIABLE_NODE nx, 0), (Atom.node env.VARIABLE_NODE ny, 1)] ⟨0⟩
      = .ok (Atom.node pred np) :=
    substitute_scoped_node env _ false pred np _ ⟨0⟩
      (by simp [HandleMapOf.find, Ne.symm hpv])
  obtain ⟨heq, heu, heg, hes⟩ := he
  have hq : (Quotation.update env ⟨0⟩ eval) = ⟨0⟩ := by
    simp [Quotation.update, heq, heu]
  rw [substitute_scoped_link env _ false eval _ _ ⟨0⟩
      (by simp [Quotation.is_unquoted, HandleMapOf.find]) (by simp [hes]), hq]
  rw [loop_cons_other env _ false _ ⟨0⟩ _ _ _ _
      (show env.GLOB_NODE ≠ (Atom.node pred np).getType from Ne.symm hp) hP
      (loop_cons_other env _ false _ ⟨0⟩ _ _ [] []
        (show env.GLOB_NODE ≠ (Atom.link list _).getType from Ne.symm hl.2.2.1) hlist
        (loop_nil _ _ _ _ _))]
  rfl

/-- C10, amended, at a concrete input of the sample class server. -/
theorem substitute_S1_witness :
    sampleVars_S1.substitute sampleEnv sample_S1_term [sample_one, sample_two] false
      = .ok (Atom.link 11 [Atom.node 10 "something", Atom.link 7 [sample_two, sample_one]]) :=
  substitute_S1 sampleEnv "$x" "$y" "something" 8 9 10 11 7 false (by decide) (by decide)
    (by decide) (by decide) (by decide) (by decide)

/-- C11, amended (glob bound to a node): for `V = [g]` with `g` a GLOB_NODE and
an argument `n` that is a node, `substitute(g, [n]) = n`, and substituting
into a plain link (not a scope link and not a quotation link) that has `g` as
a direct child, after children `pre` none of which is of type GLOB_NODE,
returns `n` itself in place of the whole link: the other children, of any
shape, are discarded. -/
theorem substitute_glob_node (env : Env) (V : Variables) (ng : String) (ty : AtomType)
    (n : Atom) (pre post : HandleSeq) (silent : Bool)
    (hseq : V.varseq = [Atom.node env.GLOB_NODE ng])
    (hidx : V.index = [(Atom.node env.GLOB_NODE ng, 0)])
    (hn : n.isNode = true)
    (hty : env.plain ty)
    (hpre : ∀ p ∈ pre, p.getType ≠ env.GLOB_NODE)
    (htc : V.is_type_seq env [n] = .ok true) :
    V.substitute env (Atom.node env.GLOB_NODE ng) [n] silent = .ok n ∧
    V.substitute env (Atom.link ty (pre ++ [Atom.node env.GLOB_NODE ng] ++ post)) [n] silent
      = .ok n := by
  obtain ⟨htq, htu, htg, hts⟩ := hty
  have hg : substitute_scoped env [n] false (Atom.node env.GLOB_NODE ng)
      [(Atom.node env.GLOB_NODE ng, 0)] ⟨0⟩ = .ok n := by
    rw [substitute_scoped_found env _ false _ _ _ 0
      (by simp [Quotation.is_unquoted, HandleMapOf.find])]
    rfl
  constructor
  · rw [substitute_of_checks env V _ _ silent (by simp [hseq]) htc, hidx]
    exact hg
  · rw [substitute_of_checks env V _ _ silent (by simp [hseq]) htc, hidx]
    rw [substitute_scoped_link env _ false _ _ _ _
      (by simp [Quotation.is_unquoted, HandleMapOf.find]) (by simp [hts])]
    have hq : (Quotation.update env ⟨0⟩ ty) = ⟨0⟩ := by
      simp [Quotation.update, htq, htu]
    have hrest := loop_cons_glob_node env [n] false _ ⟨0⟩
      (Atom.node env.GLOB_NODE ng) n post rfl hg hn
    have hall := loop_append_early env [n] false _ ⟨0⟩ pre _ n (by simp) hpre hrest
    rw [hq, List.append_assoc, List.singleton_append, hall]

/-- C11, amended, at a concrete input of the sample class server. -/
theorem substitute_glob_node_witness :
    sampleVars_g.substitute sampleEnv sample_g [sample_a] false = .ok sample_a ∧
    sampleVars_g.substitute sampleEnv
        (Atom.link 7 [Atom.link 7 [sample_x], sample_g, sample_b]) [sample_a] false
      = .ok sample_a :=
  substitute_glob_node sampleEnv sampleVars_g "$g" 7 sample_a [Atom.link 7 [sample_x]]
    [sample_b] false rfl rfl rfl (by decide) (by decide) rfl

/-- C11 as stated fails: with `V = [$g]` and the node `a` as argument, the link
`LIST($h, $g)`, where `$h` is another glob, gives `$h` and the link
`QUOTE($g)` gives `$g`; both links are met unquoted, are not scope links and
have `$g` as a direct child, and neither gives `a`. -/
theorem substitute_glob_node_counterexample :
    sampleVars_g.substitute sampleEnv (Atom.link 7 [sample_h, sample_g]) [sample_a] false
      = .ok sample_h ∧
    sampleVars_g.substitute sampleEnv (Atom.link 3 [sample_g]) [sample_a] false
      = .ok sample_g := by
  decide

/-- C14 (`is_type(var, val)`): for every Variables that satisfies the invariants
and every `var` without fuzzy entry, `is_type(var, val)` returns, and it
returns true iff `var` is in `varset` and either `var` has neither a simple
nor a deep restriction, or the type of `val` is in the simple type set of
`var`, or some signature of the deep set of `var` accepts `val`; it returns
false whenever `var` is not in `varset`. -/
theorem is_type_iff (env : Env) (V : Variables) (var val : Atom)
    (hinv : V.Consistent) (hf : V._fuzzy_typemap.find var = none) :
    (∃ b, V.is_type env var val = .ok b ∧
      (b = true ↔ var ∈ V.varset ∧
        ((V._simple_typemap.find var = none ∧ V._deep_typemap.find var = none) ∨
         (∃ tchoice, V._simple_typemap.find var = some tchoice ∧ val.getType ∈ tchoice) ∨
         (∃ sigset, V._deep_typemap.find var = some sigset ∧
            ∃ sig ∈ sigset, env.value_is_type sig val = true)))) ∧
    (var ∉ V.varset → V.is_type env var val = .ok false) := by
  obtain ⟨-, -, -, -, -, -, hs, hd, -⟩ := hinv
  have hsv : ∀ s, V._simple_typemap.find var = some s → var ∈ V.varset :=
    fun s h => hs _ (find_some_mem _ _ _ h)
  have hdv : ∀ s, V._deep_typemap.find var = some s → var ∈ V.varset :=
    fun s h => hd _ (find_some_mem _ _ _ h)
  constructor
  · cases hsf : V._simple_typemap.find var with
    | none =>
      cases hdf : V._deep_typemap.find var with
      | none =>
        by_cases hv : var ∈ V.varset
        · exact ⟨true, by simp [Variables.is_type, hsf, hdf, hf, hv], by simp [hv]⟩
        · exact ⟨false, by simp [Variables.is_type, hsf, hdf, hf, hv], by simp [hv]⟩
      | some d =>
        have hv := hdv d hdf
        by_cases ha : d.any (fun sig => env.value_is_type sig val) = true
        · refine ⟨true, by simp [Variables.is_type, hsf, hdf, ha], ?_⟩
          simp only [List.any_eq_true] at ha
          simp only [true_iff]
          exact ⟨hv, Or.inr (Or.inr ⟨d, rfl, ha⟩)⟩
        · refine ⟨false, by simp [Variables.is_type, hsf, hdf, hf, ha, hv], ?_⟩
          simp only [List.any_eq_true] at ha
          simp only [Bool.false_eq_true, false_iff]
          rintro ⟨-, h | ⟨s, h, -⟩ | ⟨d', h, h'⟩⟩
          · simp at h
          · simp at h
          · simp only [Option.some.injEq] at h; subst h; exact ha h'
    | some s =>
      have hv := hsv s hsf
      by_cases hmem : val.getType ∈ s
      · exact ⟨true, by simp [Variables.is_type, hsf, hmem],
          by simp only [true_iff]; exact ⟨hv, Or.inr (Or.inl ⟨s, rfl, hmem⟩)⟩⟩
      · cases hdf : V._deep_typemap.find var with
        | none =>
          refine ⟨false, by simp [Variables.is_type, hsf, hdf, hf, hmem, hv], ?_⟩
          simp only [Bool.false_eq_true, false_iff]
          rintro ⟨-, h | ⟨s', h, h'⟩ | ⟨d', h, -⟩⟩
          · simp at h
          · simp only [Option.some.injEq] at h; subst h; exact hmem h'
          · simp at h
        | some d =>
          by_cases ha : d.any (fun sig => env.value_is_type sig val) = true
          · refine ⟨true, by simp [Variables.is_type, hsf, hdf, hmem, ha], ?_⟩
            simp only [List.any_eq_true] at ha
            simp only [true_iff]
            exact ⟨hv, Or.inr (Or.inr ⟨d, rfl, ha⟩)⟩
          · refine ⟨false, by simp [Variables.is_type, hsf, hdf, hf, hmem, ha, hv], ?_⟩
            simp only [List.any_eq_true] at ha
            simp only [Bool.false_eq_true, false_iff]
            rintro ⟨-, h | ⟨s', h, h'⟩ | ⟨d', h, h'⟩⟩
            · simp at h
            · simp only [Option.some.injEq] at h; subst h; exact hmem h'
            · simp only [Option.some.injEq] at h; subst h; exact ha h'
  · intro hv
    have h1 : V._simple_typemap.find var = none := by
      cases h : V._simple_typemap.find var with
      | none => rfl
      | some s => exact absurd (hsv s h) hv
    have h2 : V._deep_typemap.find var = none := by
      cases h : V._deep_typemap.find var with
      | none => rfl
      | some s => exact absurd (hdv s h) hv
    simp [Variables.is_type, h1, h2, hf, hv]

/-- C14 at a concrete input of the sample class server. -/
theorem is_type_iff_witness :
    sampleVars_S1.is_type sampleEnv sample_x sample_two = .ok false ∧
    sampleVars_S1.is_type sampleEnv sample_y sample_two = .ok true ∧
    sampleVars_S1.is_type sampleEnv sample_g sample_two = .ok false := by
  have h := is_type_iff sampleEnv sampleVars_S1 sample_g sample_two (by decide) rfl
  exact ⟨by decide, by decide, h.2 (by decide)⟩

/-- C15 as stated fails: `$x` has a fuzzy entry and the simple restriction
CONCEPT, and `is_type($x, Concept("a"))` returns true instead of failing. -/
theorem is_type_fuzzy_counterexample :
    sampleVars_x_fuzzy.Consistent ∧
    (sampleVars_x_fuzzy._fuzzy_typemap.find sample_x).isSome = true ∧
    sampleVars_x_fuzzy.is_type sampleEnv sample_x sample_a = .ok true := by
  decide

/-- C15, amended (fuzzy restrictions): for every Variables in which `var` has an
entry in the fuzzy typemap and every `val`, `is_type(var, val)` returns true
when the simple type set of `var` holds the type of `val` or a signature of
its deep set accepts `val`, and fails with the not-implemented error
otherwise. -/
theorem is_type_fuzzy (env : Env) (V : Variables) (var val : Atom) (fz : List Atom)
    (hf : V._fuzzy_typemap.find var = some fz) :
    V.is_type env var val =
      if (∃ tchoice, V._simple_typemap.find var = some tchoice ∧ val.getType ∈ tchoice) ∨
         (∃ sigset, V._deep_typemap.find var = some sigset ∧
            ∃ sig ∈ sigset, env.value_is_type sig val = true)
      then .ok true else .error .RuntimeException_not_implemented := by
  cases hsf : V._simple_typemap.find var with
  | none =>
    cases hdf : V._deep_typemap.find var with
    | none => simp [Variables.is_type, hsf, hdf, hf]
    | some d =>
      by_cases ha : d.any (fun sig => env.value_is_type sig val) = true
      · have ha' := ha
        simp only [List.any_eq_true] at ha'
        simp [Variables.is_type, hsf, hdf, ha, ha']
      · have ha' := ha
        simp only [List.any_eq_true] at ha'
        simp [Variables.is_type, hsf, hdf, hf, ha, ha']
  | some s =>
    by_cases hmem : val.getType ∈ s
    · simp [Variables.is_type, hsf, hmem]
    · cases hdf : V._deep_typemap.find var with
      | none => simp [Variables.is_type, hsf, hdf, hf, hmem]
      | some d =>
        by_cases ha : d.any (fun sig => env.value_is_type sig val) = true
        · have ha' := ha
          simp only [List.any_eq_true] at ha'
          simp [Variables.is_type, hsf, hdf, hmem, ha, ha']
        · have ha' := ha
          simp only [List.any_eq_true] at ha'
          simp [Variables.is_type, hsf, hdf, hf, hmem, ha, ha']

/-- C15, amended, at a concrete input of the sample class server. -/
theorem is_type_fuzzy_witness :
    sampleVars_x_fuzzy.is_type sampleEnv sample_x sample_two
      = .error .RuntimeException_not_implemented := by
  refine (is_type_fuzzy sampleEnv sampleVars_x_fuzzy sample_x sample_two [sample_a] rfl).trans
    (if_neg ?_)
  simp [sampleVars_x_fuzzy, HandleMapOf.find, sample_two, Atom.getType]

/-- C17 (`is_equal` and mutual type checking), evaluated where the code departs
from it: for `A = [$x : CONCEPT]` and `B = [$y : CONCEPT]`, `A.is_equal(B)`
is true while `A.is_type(B.varseq)` and `B.is_type(A.varseq)` are false;
for the untyped `[$x]` and `[$g]`, a variable and a glob, `is_equal` is
false while both type checks are true. -/
theorem is_equal_not_mutual_is_type :
    sampleVars_x_concept.is_equal sampleVars_y_concept = true ∧
    sampleVars_x_concept.is_type_seq sampleEnv sampleVars_y_concept.varseq = .ok false ∧
    sampleVars_y_concept.is_type_seq sampleEnv sampleVars_x_concept.varseq = .ok false ∧
    sampleVars_x.is_equal sampleVars_g = false ∧
    sampleVars_x.is_type_seq sampleEnv sampleVars_g.varseq = .ok true ∧
    sampleVars_g.is_type_seq sampleEnv sampleVars_x.varseq = .ok true := by
  decide

/-- C16 (alpha equality): `A.is_equal(B)` is true iff `A` and `B` have the same
arity and at every position the two variables have the same atom type, the
same simple type set (or both none) and the same deep signature set (or both
none); so the answer does not depend on the identity or the names of the
variables, and renaming the variables of `A` consistently (one to one,
keeping the atom types) gives a Variables that `is_equal` to `A`. -/
theorem is_equal_iff (A B : Variables) :
    (A.is_equal B = true ↔
      A.varseq.length = B.varseq.length ∧
      ∀ i, (h1 : i < A.varseq.length) → (h2 : i < B.varseq.length) →
        A.alike B (A.varseq.get ⟨i, h1⟩) (B.varseq.get ⟨i, h2⟩)) ∧
    (∀ ρ : Atom → Atom, (∀ v ∈ A.varseq, (ρ v).getType = v.getType) →
      (∀ a ∈ A.renamed, ∀ b ∈ A.renamed, ρ a = ρ b → a = b) →
      A.is_equal (A.rename ρ) = true) := by
  have hiff : ∀ B : Variables, (A.is_equal B = true ↔
      A.varseq.length = B.varseq.length ∧
      ∀ i, (h1 : i < A.varseq.length) → (h2 : i < B.varseq.length) →
        A.alike B (A.varseq.get ⟨i, h1⟩) (B.varseq.get ⟨i, h2⟩)) := by
    intro B
    unfold Variables.is_equal
    by_cases hlen : A.varseq.length = B.varseq.length
    · rw [if_neg (by simpa using hlen.symm)]
      rw [is_equal_loop_iff A B A.varseq B.varseq hlen]
      exact ⟨fun h => ⟨hlen, h⟩, fun h => h.2⟩
    · have : ¬ B.varseq.length = A.varseq.length := fun e => hlen e.symm
      simp [hlen, this]
  refine ⟨hiff B, ?_⟩
  intro ρ hty hinj
  rw [hiff]
  refine ⟨by simp [Variables.rename], ?_⟩
  intro i h1 h2
  have hv : A.varseq.get ⟨i, h1⟩ ∈ A.varseq := List.get_mem _ _ _
  have hget : (A.rename ρ).varseq.get ⟨i, h2⟩ = ρ (A.varseq.get ⟨i, h1⟩) := by
    simp [Variables.rename]
  have hvr : A.varseq.get ⟨i, h1⟩ ∈ A.renamed := by
    simp only [Variables.renamed, List.mem_append]
    exact Or.inl (Or.inl hv)
  rw [hget]
  refine ⟨(hty _ hv).symm, ?_, ?_⟩
  · have : (A.rename ρ)._simple_typemap.find (ρ (A.varseq.get ⟨i, h1⟩))
        = A._simple_typemap.find (A.varseq.get ⟨i, h1⟩) := by
      apply find_map_key
      intro p hp
      apply hinj _ _ _ hvr
      simp only [Variables.renamed, List.mem_append]
      exact Or.inl (Or.inr (List.mem_map_of_mem Prod.fst hp))
    rw [this]
    exact same_restriction_refl _
  · have : (A.rename ρ)._deep_typemap.find (ρ (A.varseq.get ⟨i, h1⟩))
        = A._deep_typemap.find (A.varseq.get ⟨i, h1⟩) := by
      apply find_map_key
      intro p hp
      apply hinj _ _ _ hvr
      simp only [Variables.renamed, List.mem_append]
      exact Or.inr (List.mem_map_of_mem Prod.fst hp)
    rw [this]
    exact same_restriction_refl _

/-- C16 at a concrete input of the sample class server. -/
theorem is_equal_iff_witness :
    sampleVars_x_concept.is_equal
      (sampleVars_x_concept.rename (fun a => if a = sample_x then sample_y else a)) = true :=
  (is_equal_iff sampleVars_x_concept sampleVars_y_concept).2
    (fun a => if a = sample_x then sample_y else a) (by decide) (by decide)

/-- C12 (`find_variables`): from the empty Variables, `find_variables` on a term
forest sets `varseq` to the first appearances, in depth-first pre-order and
each once, of the free occurrences of variables: the atoms of type
VARIABLE_NODE or GLOB_NODE with an occurrence at quotation level 0 that is
not inside a scope link, met unquoted, that declares them. Examples on the
sample class server: `LIST($y, $x, AND($y, $g))` gives `[$y, $x, $g]`;
`QUOTE($x)` and `SCOPE([$y], AND($y, $y))` give nothing; and
`LIST(SCOPE([$x], AND($x)), $x)` gives `[$x]`, bound inside and free outside. -/
theorem find_variables_varseq (env : Env) (oset : HandleSeq) :
    (Variables.empty.find_variables env oset).varseq
      = first_appearances [] (free_occurrences_seq env oset ⟨0⟩ (fun _ => false)) ∧
    (Variables.empty.find_variables env oset).varseq.Nodup ∧
    (∀ v, v ∈ (Variables.empty.find_variables env oset).varseq ↔
      v ∈ free_occurrences_seq env oset ⟨0⟩ (fun _ => false)) ∧
    (Variables.empty.find_variables sampleEnv
        [Atom.link 7 [sample_y, sample_x, Atom.link 12 [sample_y, sample_g]]]).varseq
      = [sample_y, sample_x, sample_g] ∧
    (Variables.empty.find_variables sampleEnv
        [Atom.link 3 [sample_x],
         Atom.link 5 [Atom.link 6 [sample_y], Atom.link 12 [sample_y, sample_y]]]).varseq
      = [] ∧
    (Variables.empty.find_variables sampleEnv
        [Atom.link 7 [Atom.link 5 [Atom.link 6 [sample_x], Atom.link 12 [sample_x]],
          sample_x]]).varseq
      = [sample_x] := by
  have hv : (Variables.empty.find_variables env oset).varseq
      = first_appearances [] (free_occurrences_seq env oset ⟨0⟩ (fun _ => false)) := by
    unfold Variables.find_variables
    have : Variables.empty.varset = Variables.empty.varseq := rfl
    rw [this, find_vars_eq env oset ⟨⟨0⟩, []⟩ _ (fun _ => false) (by simp)]
    rfl
  refine ⟨hv, ?_, ?_, by decide!, by decide!, by decide!⟩
  · rw [hv]; exact nodup_first_appearances _ _ List.nodup_nil
  · intro v
    rw [hv, mem_first_appearances]
    simp

/-- C13 (Variables invariant): after any sequence of `find_variables` and
`extend` calls on the empty Variables, whatever their arguments, `varseq` has
no duplicates, `|varseq| = |varset| = |index|`, `index[varseq[i]] = i` for
every `i`, and every key of the type maps is a member of `varset`. -/
theorem variables_invariant (env : Env)
    (type_intersection : List AtomType → List AtomType → List AtomType) (ops : List VarOp) :
    (VarOp.run env type_intersection ops).varseq.Nodup ∧
    (VarOp.run env type_intersection ops).Consistent :=
  ⟨(canonical_run env type_intersection ops).2.1,
    (canonical_run env type_intersection ops).to_consistent⟩

/-- C18 as stated fails: `$y` has a deep restriction in `other` and is new to the
empty Variables; after `extend` it is appended but has no deep restriction,
and `is_type($y, Concept("b"))` is true where it is false in `other`. -/
theorem extend_copies_counterexample :
    Variables.empty.Consistent ∧ sampleVars_y_deep.Consistent ∧
    (Variables.empty.extend sample_type_intersection sampleVars_y_deep).varseq = [sample_y] ∧
    sampleVars_y_deep._deep_typemap.find sample_y = some [sample_a] ∧
    (Variables.empty.extend sample_type_intersection sampleVars_y_deep)._deep_typemap.find
      sample_y = none ∧
    sampleVars_y_deep.is_type sampleEnv sample_y sample_b = .ok false ∧
    (Variables.empty.extend sample_type_intersection sampleVars_y_deep).is_type sampleEnv
      sample_y sample_b = .ok true := by
  decide

/-- C18, amended (`extend` appends and copies the simple restrictions): for a
Variables that satisfies the invariants and an `other` whose `varseq` has no
duplicates, after `this.extend(other)` the `varseq` is the old one followed by
the variables of `other.varseq` that were not already known, in the order of
`other`; the deep and fuzzy type maps are left as they were; each newly
appended variable has in `this` exactly the simple type set that it has in
`other` and no deep restriction; and when it has no deep and no fuzzy
restriction in `other` either, `is_type` on it gives in `this` what it gives
in `other`. -/
theorem extend_appends_and_copies (env : Env)
    (type_intersection : List AtomType → List AtomType → List AtomType)
    (V other : Variables) (hV : V.Consistent) (hn : other.varseq.Nodup) :
    (V.extend type_intersection other).varseq
      = V.varseq ++ other.varseq.filter (fun h => decide (h ∉ V.varseq)) ∧
    (V.extend type_intersection other)._deep_typemap = V._deep_typemap ∧
    (V.extend type_intersection other)._fuzzy_typemap = V._fuzzy_typemap ∧
    (∀ h ∈ other.varseq, h ∉ V.varseq →
      (V.extend type_intersection other)._simple_typemap.find h
        = other._simple_typemap.find h ∧
      (V.extend type_intersection other)._deep_typemap.find h = none ∧
      (h ∈ other.varset → other._deep_typemap.find h = none →
        other._fuzzy_typemap.find h = none →
        ∀ val, (V.extend type_intersection other).is_type env h val
          = other.is_type env h val)) := by
  obtain ⟨f1, f2, f3, -, f5, f6⟩ := extend_fold type_intersection other other.varseq hn V
  have hfil : other.varseq.filter (fun h => (V.index.find h).isNone)
      = other.varseq.filter (fun h => decide (h ∉ V.varseq)) := by
    apply List.filter_congr
    intro h _
    by_cases hm : h ∈ V.varseq
    · have : V.index.find h ≠ none := fun e => (consistent_known_iff hV h).mp e hm
      cases hf : V.index.find h with
      | none => exact absurd hf this
      | some i => simp [hm]
    · simp [(consistent_known_iff hV h).mpr hm, hm]
  unfold Variables.extend
  refine ⟨by rw [f1, hfil], f2, f3, ?_⟩
  intro h hh hnew
  have hnone : ∀ {β : Type} (m : HandleMapOf β), (∀ p ∈ m, p.1 ∈ V.varset) →
      m.find h = none := by
    intro β m hm
    rw [find_eq_none_iff]
    intro p hp e
    apply hnew
    rw [← e]
    exact (consistent_varset_iff hV p.1).mp (hm p hp)
  have hs := hnone V._simple_typemap hV.2.2.2.2.2.2.1
  have hd := hnone V._deep_typemap hV.2.2.2.2.2.2.2.1
  have hf := hnone V._fuzzy_typemap hV.2.2.2.2.2.2.2.2
  have hi := (consistent_known_iff hV h).mpr hnew
  have hsimple := f5 h hh hi hs
  refine ⟨hsimple, by rw [f2]; exact hd, ?_⟩
  intro hvs hod hof val
  have hmem : h ∈ (List.foldl (Variables.extend_step type_intersection other) V
      other.varseq).varset := (f6 h).mpr (Or.inr ⟨hh, hi⟩)
  simp only [Variables.is_type, hsimple, f2, f3, hd, hf, hod, hof, hmem, hvs]

/-- C18, amended, at a concrete input of the sample class server. -/
theorem extend_appends_and_copies_witness :
    (sampleVars_x.extend sample_type_intersection sampleVars_y_concept).varseq
      = [sample_x, sample_y] ∧
    (sampleVars_x.extend sample_type_intersection sampleVars_y_concept)._simple_typemap.find
      sample_y = some [8] := by
  have h := extend_appends_and_copies sampleEnv sample_type_intersection sampleVars_x
    sampleVars_y_concept (by decide) (by decide)
  exact ⟨h.1, (h.2.2.2 sample_y (by decide) (by decide)).1⟩

/-- C20 (height): the height is 0 for a node and 1 plus the maximum height of
the children for a link, so 1 for a link with an empty outgoing set;
`get_height(atom)` is that height; `do_store_atom(atom)` makes the calls
`do_store_single_atom(a, get_height(a))` for the atoms `a` of the term in
post-order, stops at the first that throws, and otherwise returns
`get_height(atom)`; with a store that only records its calls, the record is
that list of atoms, each with its own height. -/
theorem do_store_atom_height {σ ε : Type} (single : Atom → Int → σ → Except ε σ)
    (atom : Atom) (s : σ) :
    (∀ t n, height (Atom.node t n) = 0) ∧
    (∀ t, height (Atom.link t []) = 1) ∧
    (∀ t out, height (Atom.link t out) = 1 + height_max out) ∧
    get_height atom = height atom ∧
    (do_store_atom single atom s =
      match run_calls single (store_calls atom) s with
      | .error e => .error e
      | .ok s' => .ok (s', get_height atom)) ∧
    (∀ p ∈ store_calls atom, p.2 = get_height p.1) ∧
    do_store_atom record_call atom [] = .ok (store_calls atom, get_height atom) := by
  refine ⟨fun _ _ => by simp [height], fun _ => by simp [height, height_max],
    fun _ _ => by simp [height], get_height_eq atom, ?_, ?_, ?_⟩
  · rw [do_store_atom_eq, get_height_eq]
  · intro p hp
    rw [get_height_eq]
    exact store_calls_height atom p hp
  · rw [do_store_atom_eq, run_calls_record, get_height_eq]
    rfl

/-- C19 (typemap round-trip): on a store whose type maps are not yet loaded and
a table `TypeCodes` whose rows have distinct ids, all below `TYPEMAP_SZ`,
with room for every local type beside the rows, where the class server finds
every local type by its name, `setup_typemap` does not abort, and afterwards
every local type `t` has `storing_typemap[t]` different from -1 and
`loading_typemap[storing_typemap[t]] = t`; so distinct local types have
distinct database ids. -/
theorem setup_typemap_round_trip (cs : ClassServer) (TYPEMAP_SZ : Nat) (st : TypeMaps)
    (hfresh : st.type_map_was_loaded = false)
    (hids : (st.TypeCodes.map Prod.fst).Nodup)
    (hrange : ∀ r ∈ st.TypeCodes, r.1 < TYPEMAP_SZ)
    (hname : ∀ t, t < cs.getNumberOfClasses → cs.getType (cs.getTypeName t) = t)
    (hfree : st.TypeCodes.length + cs.getNumberOfClasses ≤ TYPEMAP_SZ) :
    ∃ st', setup_typemap cs TYPEMAP_SZ st = some st' ∧
      (∀ t, t < cs.getNumberOfClasses →
        st'.storing_typemap t ≠ -1 ∧
        st'.loading_typemap (st'.storing_typemap t).toNat = t) ∧
      (∀ t u, t < cs.getNumberOfClasses → u < cs.getNumberOfClasses →
        st'.storing_typemap t = st'.storing_typemap u → t = u) := by
  unfold setup_typemap
  simp only [hfresh, Bool.false_eq_true, if_false]
  -- the maps after the reset
  have hc0 : TypeMaps.Coherent TYPEMAP_SZ
      { st with
        type_map_was_loaded := true,
        loading_typemap := fun i => if i < TYPEMAP_SZ then cs.NOTYPE else st.loading_typemap i,
        storing_typemap := fun i => if i < TYPEMAP_SZ then -1 else st.storing_typemap i,
        db_typename := fun i => if i < TYPEMAP_SZ then none else st.db_typename i } := by
    constructor
    · intro t ht hne
      simp [ht] at hne
    · intro i hi hsome
      simp [hi] at hsome
  have hu0 : used_slots TYPEMAP_SZ
      { st with
        type_map_was_loaded := true,
        loading_typemap := fun i => if i < TYPEMAP_SZ then cs.NOTYPE else st.loading_typemap i,
        storing_typemap := fun i => if i < TYPEMAP_SZ then -1 else st.storing_typemap i,
        db_typename := fun i => if i < TYPEMAP_SZ then none else st.db_typename i } = 0 := by
    unfold used_slots
    rw [List.countP_eq_zero]
    intro i hi
    simp [List.mem_range.mp hi]
  obtain ⟨c1, u1⟩ := load_rows_coherent cs TYPEMAP_SZ st.TypeCodes _ hc0 hids
    (fun r hr => ⟨hrange r hr, by simp [hrange r hr]⟩)
  rw [hu0] at u1
  obtain ⟨st', e1, e2, -, e4⟩ := setup_typemap_loop_ok cs TYPEMAP_SZ
    (List.range cs.getNumberOfClasses) _ c1 (by simp only [List.length_range]; omega)
    (fun t ht => ⟨by have := List.mem_range.mp ht; omega, hname t (List.mem_range.mp ht)⟩)
  have hround : ∀ t, t < cs.getNumberOfClasses →
      st'.storing_typemap t ≠ -1 ∧
      st'.loading_typemap (st'.storing_typemap t).toNat = t := by
    intro t ht
    have hne := e4 t (List.mem_range.mpr ht)
    obtain ⟨x, hx1, -, hx3, -⟩ := e2.1 t (by omega) hne
    exact ⟨hne, by rw [hx1]; simpa using hx3⟩
  refine ⟨st', e1, hround, ?_⟩
  intro t u ht hu he
  have h1 := (hround t ht).2
  have h2 := (hround u hu).2
  rw [he] at h1
  rw [← h1, h2]

/-- C19 at a concrete input: three local types, eight slots and two rows, one of
them of a type name that the class server does not know. -/
theorem setup_typemap_round_trip_witness :
    ∃ st', setup_typemap sampleClassServer 8 sampleTypeMaps = some st' ∧
      (∀ t, t < 3 →
        st'.storing_typemap t ≠ -1 ∧
        st'.loading_typemap (st'.storing_typemap t).toNat = t) ∧
      (∀ t u, t < 3 → u < 3 → st'.storing_typemap t = st'.storing_typemap u → t = u) :=
  setup_typemap_round_trip sampleClassServer 8 sampleTypeMaps rfl (by decide) (by decide)
    (by decide) (by decide)

/-- C21: within one call `do_store_atom(a)` the calls of the single-atom store
are made on the atoms of the post-order traversal of `a`, in that order and
each with its height, whatever the single-atom store does (the run stops at
the first call that throws): the recording store ends with exactly this
sequence added to its record. In the traversal of a link the traversals of
its children, left to right, come before the link, and `a` is last. -/
theorem do_store_atom_post_order {σ ε : Type} (single : Atom → Int → σ → Except ε σ)
    (a : Atom) (s : σ) (record : List (Atom × Int)) :
    (do_store_atom single a s =
      match run_calls single (store_calls a) s with
      | .error e => .error e
      | .ok s' => .ok (s', height a)) ∧
    do_store_atom record_call a record = .ok (record ++ store_calls a, height a) ∧
    (store_calls a).map Prod.fst = post_order a ∧
    (∀ t out, post_order (Atom.link t out) = post_order_seq out ++ [Atom.link t out]) ∧
    (∀ h rest, post_order_seq (h :: rest) = post_order h ++ post_order_seq rest) ∧
    (post_order a).getLast? = some a := by
  refine ⟨do_store_atom_eq single a s, ?_, store_calls_fst a, fun _ _ => by simp [post_order],
    fun _ _ => by simp [post_order_seq], post_order_getLast a⟩
  rw [do_store_atom_eq, run_calls_record]

/-- C22, the claim as stated fails: a node with the name "abc", of 3 bytes,
stored for the first time, whose truth value has a type that the store does
not know, is rejected (with the exception of the truth value type). -/
theorem do_store_single_atom_node_counterexample :
    sampleStoreEnv_other.addAtom (Atom.node 1 "abc") ∉ sampleStorage.local_id_cache ∧
    sampleStoreEnv_other.addAtom (Atom.node 1 "abc") ∉ sampleStorage.id_create_cache ∧
    "abc".utf8ByteSize ≤ 2700 ∧
    (do_store_single_atom sampleStoreEnv_other (Atom.node 1 "abc") 0 sampleStorage).map
      (fun r => r.1) = some (.error RuntimeException.unknown_truth_value_type) := by
  decide

/-- C22, amended: when a node whose truth value is absent or of one of the
five types that the store names is stored for the first time (its UUID in
neither cache, `setup_typemap` not aborting), `do_store_single_atom` returns
or throws; it throws the exception of the node name size when the name is
longer than 2700 bytes, and it returns when the name has at most 2688
bytes. -/
theorem do_store_single_atom_node_name (env : StoreEnv) (t : AtomType) (name : String)
    (aheight : Int) (st : Storage)
    (hs : (st.setup_typemap env).isSome = true)
    (h1 : env.addAtom (Atom.node t name) ∉ st.local_id_cache)
    (h2 : env.addAtom (Atom.node t name) ∉ st.id_create_cache)
    (hk : tv_known (env.getTruthValue (Atom.node t name)) = true) :
    ∃ r st', do_store_single_atom env (Atom.node t name) aheight st = some (r, st') ∧
      (2700 < name.utf8ByteSize → r = .error RuntimeException.node_name_size) ∧
      (name.utf8ByteSize ≤ 2688 → r = .ok ()) := by
  obtain ⟨r, st', h, hsize, hok⟩ := do_store_single_atom_node env t name aheight st hs h1 h2
  exact ⟨r, st', h, fun hn => hsize.2 (by omega), fun hn => hok.2 ⟨hn, hk⟩⟩

/-- The first store of the node "abc" without a truth value in the sample
store returns. -/
theorem do_store_single_atom_node_name_witness :
    (sampleStorage.setup_typemap sampleStoreEnv).isSome = true ∧
    sampleStoreEnv.addAtom (Atom.node 1 "abc") ∉ sampleStorage.local_id_cache ∧
    sampleStoreEnv.addAtom (Atom.node 1 "abc") ∉ sampleStorage.id_create_cache ∧
    tv_known (sampleStoreEnv.getTruthValue (Atom.node 1 "abc")) = true ∧
    ∃ r st', do_store_single_atom sampleStoreEnv (Atom.node 1 "abc") 0 sampleStorage =
        some (r, st') ∧
      (2700 < "abc".utf8ByteSize → r = .error RuntimeException.node_name_size) ∧
      ("abc".utf8ByteSize ≤ 2688 → r = .ok ()) :=
  ⟨by decide, by decide, by decide, by decide,
    do_store_single_atom_node_name sampleStoreEnv 1 "abc" 0 sampleStorage (by decide) (by decide)
      (by decide) (by decide)⟩

/-- C23, the claim as stated fails: a link of arity 1, stored for the first
time, whose truth value has a type that the store does not know, is rejected
(with the exception of the truth value type), though its arity is not greater
than 330. -/
theorem do_store_single_atom_link_counterexample :
    sampleStoreEnv_other.addAtom (Atom.link 2 [Atom.node 1 "x"]) ∉ sampleStorage.local_id_cache ∧
    sampleStoreEnv_other.addAtom (Atom.link 2 [Atom.node 1 "x"]) ∉ sampleStorage.id_create_cache ∧
    [Atom.node 1 "x"].length ≤ 330 ∧
    (do_store_single_atom sampleStoreEnv_other (Atom.link 2 [Atom.node 1 "x"]) 1
      sampleStorage).map (fun r => r.1) =
        some (.error RuntimeException.unknown_truth_value_type) := by
  decide

/-- C23, amended: when a link whose truth value is absent or of one of the
five types that the store names is stored for the first time (its UUID in
neither cache, `setup_typemap` not aborting), `do_store_single_atom` returns
or throws, it throws the exception of the link size if and only if the arity
is greater than 330, and it returns if and only if the arity is at most 330
(so a link of arity 330 is accepted); an accepted link with a non-empty
outgoing set has the text of `oset_to_string` for this set inside the
`INSERT` statement that the call executes. -/
theorem do_store_single_atom_link_arity (env : StoreEnv) (t : AtomType) (out : HandleSeq)
    (aheight : Int) (st : Storage)
    (hs : (st.setup_typemap env).isSome = true)
    (h1 : env.addAtom (Atom.link t out) ∉ st.local_id_cache)
    (h2 : env.addAtom (Atom.link t out) ∉ st.id_create_cache)
    (hk : tv_known (env.getTruthValue (Atom.link t out)) = true) :
    ∃ r st', do_store_single_atom env (Atom.link t out) aheight st = some (r, st') ∧
      (r = .error RuntimeException.link_size ↔ 330 < out.length) ∧
      (r = .ok () ↔ out.length ≤ 330) ∧
      (out.length = 330 → r = .ok ()) ∧
      (out.length ≤ 330 → out ≠ [] → ∃ pre post,
        is_INSERT (pre ++ oset_to_string env.addAtom out out.length ++ post) = true ∧
        Event.exec (Statement.atoms (pre ++ oset_to_string env.addAtom out out.length ++ post)) ∈
          st'.log.drop st.log.length) := by
  obtain ⟨st1, hs1⟩ := Option.isSome_iff_exists.mp hs
  obtain ⟨e1, e2, _, _⟩ := setup_typemap_storage env st st1 hs1
  have hm := maybe_create_id_new st1 _ (e1 ▸ h1) (e2 ▸ h2)
  obtain ⟨ft, hft⟩ : ∃ ft, store_first_time env
      (({ st1.emit [Event.lock Mutex.id_create_mutex, Event.lock Mutex.id_cache_mutex] with
          id_create_cache := insert (env.addAtom (Atom.link t out)) st1.id_create_cache }).emit
        [Event.unlock Mutex.id_cache_mutex]).typemaps.storing_typemap (Atom.link t out) aheight
      (({ st1.emit [Event.lock Mutex.id_create_mutex, Event.lock Mutex.id_cache_mutex] with
          id_create_cache := insert (env.addAtom (Atom.link t out)) st1.id_create_cache }).emit
        [Event.unlock Mutex.id_cache_mutex]).max_height
      (STMT false ⟨false, "INSERT INTO Atoms (", ") VALUES ("⟩ "uuid"
        (to_string (env.addAtom (Atom.link t out)))) = ft := ⟨_, rfl⟩
  have hres := do_store_single_atom_insert env _ aheight st st1 _ hs1 hm ft hft
  obtain ⟨h330, hle⟩ := store_first_time_link env
      (({ st1.emit [Event.lock Mutex.id_create_mutex, Event.lock Mutex.id_cache_mutex] with
          id_create_cache := insert (env.addAtom (Atom.link t out)) st1.id_create_cache }).emit
        [Event.unlock Mutex.id_cache_mutex]).typemaps.storing_typemap t out aheight
      (({ st1.emit [Event.lock Mutex.id_create_mutex, Event.lock Mutex.id_cache_mutex] with
          id_create_cache := insert (env.addAtom (Atom.link t out)) st1.id_create_cache }).emit
        [Event.unlock Mutex.id_cache_mutex]).max_height
      (STMT false ⟨false, "INSERT INTO Atoms (", ") VALUES ("⟩ "uuid"
        (to_string (env.addAtom (Atom.link t out))))
  rw [hft] at h330 hle
  by_cases hn : 330 < out.length
  · rw [h330 hn] at hres
    refine ⟨_, _, hres, by simp [hn], ?_, ?_, ?_⟩
    · constructor
      · intro h; cases h
      · intro h; omega
    · intro h; omega
    · intro h; omega
  · obtain ⟨c, hc, _⟩ := hle (by omega)
    rw [hc] at hres
    obtain ⟨c', hc'⟩ := store_truth_value_known env false _ c hk
    simp only [hc'] at hres
    refine ⟨_, _, hres, by simp [hn], by simp; omega, fun _ => rfl, ?_⟩
    intro _ hne
    obtain ⟨owns, setup_evs, _, ho, _, _, hok⟩ :=
      do_store_single_atom_events env _ aheight st _ _ hres
    obtain ⟨qry, mid, _, hlog, _, _, hins, _, hout⟩ := hok rfl
    have hown : owns = true := by
      cases owns with
      | true => rfl
      | false => exact absurd (ho rfl) h1
    obtain ⟨pre, post, hq⟩ := hout hown t out rfl hne
    refine ⟨pre, post, by rw [← hq, hins, hown], ?_⟩
    rw [hlog, List.drop_left, ← hq]
    simp

/-- A link of arity 330 without a truth value, stored for the first time in
the sample store, is accepted. -/
theorem do_store_single_atom_link_arity_witness :
    (sampleStorage.setup_typemap sampleStoreEnv).isSome = true ∧
    sampleStoreEnv.addAtom (Atom.link 2 (List.replicate 330 (Atom.node 1 "x"))) ∉
      sampleStorage.local_id_cache ∧
    ∃ r st', do_store_single_atom sampleStoreEnv
        (Atom.link 2 (List.replicate 330 (Atom.node 1 "x"))) 1 sampleStorage = some (r, st') ∧
      (r = .error RuntimeException.link_size ↔
        330 < (List.replicate 330 (Atom.node 1 "x")).length) ∧
      (r = .ok () ↔ (List.replicate 330 (Atom.node 1 "x")).length ≤ 330) ∧
      ((List.replicate 330 (Atom.node 1 "x")).length = 330 → r = .ok ()) ∧
      ((List.replicate 330 (Atom.node 1 "x")).length ≤ 330 →
        List.replicate 330 (Atom.node 1 "x") ≠ [] → ∃ pre post,
        is_INSERT (pre ++ oset_to_string sampleStoreEnv.addAtom
          (List.replicate 330 (Atom.node 1 "x"))
          (List.replicate 330 (Atom.node 1 "x")).length ++ post) = true ∧
        Event.exec (Statement.atoms (pre ++ oset_to_string sampleStoreEnv.addAtom
          (List.replicate 330 (Atom.node 1 "x"))
          (List.replicate 330 (Atom.node 1 "x")).length ++ post)) ∈
          st'.log.drop sampleStorage.log.length) :=
  have hu : sampleStoreEnv.addAtom (Atom.link 2 (List.replicate 330 (Atom.node 1 "x"))) = 430 := by
    simp only [sampleStoreEnv, List.length_replicate]
  ⟨by decide, by rw [hu]; decide,
    do_store_single_atom_link_arity sampleStoreEnv 2 (List.replicate 330 (Atom.node 1 "x")) 1
      sampleStorage (by decide) (by rw [hu]; decide) (by rw [hu]; decide) (by rfl)⟩

/-- C24: the sequential contract of the creation arbiter on the state
(known = `local_id_cache`, creating = `id_create_cache`). With `u` known,
`maybe_create_id(u)` returns a lock that is not held (not the creator) and
leaves both sets as they are; with `u` in neither set it returns the held
lock (creator) and adds `u` to creating; `add_id_to_cache(u)` puts `u` in
known and takes it out of creating. Both operations keep disjoint sets
disjoint. In a run of stores of one atom, one after the other, that all
return, from a state where its UUID is not known, the first store executes
`INSERT` statements only and every later store `UPDATE` statements only, each
at least one. -/
theorem creation_arbiter_sequential (st : Storage) (u : UUID) :
    (u ∈ st.local_id_cache →
      ∃ st', maybe_create_id st u = some (false, st') ∧
        st'.local_id_cache = st.local_id_cache ∧ st'.id_create_cache = st.id_create_cache) ∧
    (u ∉ st.local_id_cache → u ∉ st.id_create_cache →
      ∃ st', maybe_create_id st u = some (true, st') ∧
        st'.local_id_cache = st.local_id_cache ∧
        st'.id_create_cache = insert u st.id_create_cache) ∧
    ((add_id_to_cache st u).local_id_cache = insert u st.local_id_cache ∧
      (add_id_to_cache st u).id_create_cache = st.id_create_cache.erase u) ∧
    (Disjoint st.local_id_cache st.id_create_cache →
      (∀ owns st', maybe_create_id st u = some (owns, st') →
        Disjoint st'.local_id_cache st'.id_create_cache) ∧
      Disjoint (add_id_to_cache st u).local_id_cache (add_id_to_cache st u).id_create_cache) ∧
    (∀ (env : StoreEnv) (atom : Atom) (aheight : Int) (rest : List Int)
        (stmts : List (List String)),
      env.addAtom atom = u → u ∉ st.local_id_cache →
      (store_run env atom (aheight :: rest) st).map Prod.fst = some stmts →
      ∃ first later, stmts = first :: later ∧ later.length = rest.length ∧
        first ≠ [] ∧ (∀ q ∈ first, is_INSERT q = true ∧ is_UPDATE q = false) ∧
        ∀ l ∈ later, l ≠ [] ∧ ∀ q ∈ l, is_INSERT q = false ∧ is_UPDATE q = true) := by
  refine ⟨?_, ?_, ?_, ?_, ?_⟩
  · intro h
    exact ⟨_, maybe_create_id_known st u h, rfl, rfl⟩
  · intro h1 h2
    exact ⟨_, maybe_create_id_new st u h1 h2, rfl, rfl⟩
  · exact ⟨(add_id_to_cache_storage st u).1, (add_id_to_cache_storage st u).2.1⟩
  · intro hd
    constructor
    · intro owns st' h
      obtain ⟨m1, _, m3, m4⟩ := maybe_create_id_some st st' u owns h
      cases owns with
      | false => rw [m1, (m3 rfl).2.1]; exact hd
      | true =>
        obtain ⟨m5, _, m7, _⟩ := m4 rfl
        rw [m1, m7, Finset.disjoint_insert_right]
        exact ⟨m5, hd⟩
    · rw [(add_id_to_cache_storage st u).1, (add_id_to_cache_storage st u).2.1,
        Finset.disjoint_insert_left]
      exact ⟨by simp, Finset.disjoint_of_subset_right (Finset.erase_subset _ _) hd⟩
  · intro env atom aheight rest stmts hu hn hrun
    subst hu
    cases hrun' : store_run env atom (aheight :: rest) st with
    | none => simp [hrun'] at hrun
    | some p =>
      obtain ⟨stmts', st'⟩ := p
      simp only [hrun', Option.map_some', Option.some.injEq] at hrun
      subst hrun
      obtain ⟨st1, tail, h1, h2, rfl⟩ := store_run_cons env atom aheight rest st st' _ hrun'
      obtain ⟨hne, hq, hl, _⟩ := do_store_single_atom_statements env atom aheight st st1 h1
      obtain ⟨k1, k2⟩ := store_run_known env atom rest st1 st' tail
        (by rw [hl]; exact Finset.mem_insert_self _ _) h2
      refine ⟨_, tail, rfl, k1, hne, fun q hq' => ?_, k2⟩
      have := hq q hq'
      simpa [hn] using this

/-- The contract on the sample store, where the UUID 7 is known and the UUID 3
is in neither set: three stores of the node of UUID 3 execute one `INSERT` and
then two `UPDATE`s. -/
theorem creation_arbiter_sequential_witness :
    (7 ∈ sampleStorage.local_id_cache ∧
      ∃ st', maybe_create_id sampleStorage 7 = some (false, st') ∧
        st'.local_id_cache = sampleStorage.local_id_cache ∧
        st'.id_create_cache = sampleStorage.id_create_cache) ∧
    (3 ∉ sampleStorage.local_id_cache ∧ 3 ∉ sampleStorage.id_create_cache ∧
      ∃ st', maybe_create_id sampleStorage 3 = some (true, st') ∧
        st'.local_id_cache = sampleStorage.local_id_cache ∧
        st'.id_create_cache = insert 3 sampleStorage.id_create_cache) ∧
    (Disjoint sampleStorage.local_id_cache sampleStorage.id_create_cache ∧
      Disjoint (add_id_to_cache sampleStorage 3).local_id_cache
        (add_id_to_cache sampleStorage 3).id_create_cache) ∧
    ((store_run sampleStoreEnv (Atom.node 1 "abc") [0, 0, 0] sampleStorage).map Prod.fst =
        some [["INSERT INTO Atoms (uuid, space, type, name, height, tv_type) VALUES (3, 0, 0,  $ocp$abc$ocp$ , 0, 0);"],
          ["UPDATE Atoms SET tv_type = 0 WHERE uuid = 3;"],
          ["UPDATE Atoms SET tv_type = 0 WHERE uuid = 3;"]] ∧
      ∃ first later,
        [["INSERT INTO Atoms (uuid, space, type, name, height, tv_type) VALUES (3, 0, 0,  $ocp$abc$ocp$ , 0, 0);"],
          ["UPDATE Atoms SET tv_type = 0 WHERE uuid = 3;"],
          ["UPDATE Atoms SET tv_type = 0 WHERE uuid = 3;"]] = first :: later ∧
        later.length = [(0 : Int), 0].length ∧
        first ≠ [] ∧ (∀ q ∈ first, is_INSERT q = true ∧ is_UPDATE q = false) ∧
        ∀ l ∈ later, l ≠ [] ∧ ∀ q ∈ l, is_INSERT q = false ∧ is_UPDATE q = true) :=
  ⟨⟨by decide, (creation_arbiter_sequential sampleStorage 7).1 (by decide)⟩,
    ⟨by decide, by decide,
      (creation_arbiter_sequential sampleStorage 3).2.1 (by decide) (by decide)⟩,
    ⟨by decide, ((creation_arbiter_sequential sampleStorage 3).2.2.2.1 (by decide)).2⟩,
    ⟨by decide, (creation_arbiter_sequential sampleStorage 3).2.2.2.2 sampleStoreEnv
      (Atom.node 1 "abc") 0 [0, 0] _ (by decide) (by decide) (by decide)⟩⟩

/-- C26, the claim as stated fails. On the sample table whose row of UUID 3 has
the type code of a type that this process does not have, `makeAtom` throws on
that row: `load` ends with the exception after the first query, the rows 1, 2
and 3 are the only ones handed to the row callback, and the row 4 of the same
chunk and the row 12004 of the next chunk are never emitted, though the
maximum observed UUID is 12004 and all rows have the height 0. On the table
that holds one node row of UUID 0, `load` ends without exception after its one
query and no row is emitted. With every type code taken, `setup_typemap`
aborts and `load` does not return. -/
theorem load_chunks_counterexample :
    (load sampleLoadEnv 3 sampleAtoms_foreign sampleLoadState).map
        (fun r => (r.1, trace_queries r.2.trace, trace_rows r.2.trace)) =
      some (.error (MakeAtomException.no_such_type (some "Foo")),
        [⟨none, 0, 0, 12003⟩],
        [sampleRow_node 1 "a", sampleRow_node 2 "b", ⟨3, 2, "c", none, 0, 0, "", "", ""⟩]) ∧
    (load sampleLoadEnv 2 [sampleRow_node 0 "z"] sampleLoadState).map
        (fun r => (r.1, trace_queries r.2.trace, trace_rows r.2.trace)) =
      some (.ok (), [⟨none, 0, 0, 12003⟩], []) ∧
    (load sampleLoadEnv_small 3 sampleAtoms sampleLoadState_small).isNone = true := by
  decide!

/-- C26, amended. Let `M` be the maximum observed UUID of the table, with
`M + 12003` below 2^64, and `H` its maximum observed height; any fuel from
`M / 12003 + 2` on is enough for the loops. The queries of a scan of the
heights 0 to `H'` are `load_queries type M H'`: height by height, the chunks
`uuid > k * 12003 AND uuid <= k * 12003 + 12003` for `k` from 0 to `M / 12003`.

* Every row of the table is selected by exactly one of these queries when its
  UUID is at least 1, its height is from 0 to `H'` and its type column passes
  the test of the queries, and by none otherwise: a row of UUID 0 is selected
  by no query.
* The statements before the loops do not return exactly when `setup_typemap`
  aborts. Otherwise `load` is the run of the queries of the heights 0 to `H`
  with the row callback `load_all_atoms_cb`, and `loadType` is the run of the
  same queries with the test `type = storing_typemap[T]` added, for the heights
  0 to 0 when `T` is a node type and 0 to `H` when it is not, with the row
  callback `load_if_not_exists_cb`: the queries are executed in order and the
  rows that each selects are handed to the callback, up to the first row on
  which the callback throws or does not return.
* When the loader returns, the queries that it has executed and the rows that
  it has handed to the callback are the first ones of the plan; when it
  returns without exception they are all of them, so every row of a UUID from
  1 on and of a height from 0 on (for `loadType`: up to the height scanned, and
  of the type code asked for) has been emitted as often as the table holds it,
  and no other row has been emitted. -/
theorem load_chunks_scan (env : LoadEnv) (fuel : Nat) (Atoms : List Row) (st : LoadState)
    (M : UUID) (H : Int)
    (hMdef : (getMaxObservedUUID (Atoms.map (fun r => r.uuid)) st.store).1 = M)
    (hHdef : (getMaxObservedHeight Atoms st).1 = H)
    (hM : M + STEP < 2 ^ 64) (hfuel : M / STEP + 2 ≤ fuel) :
    (∀ r ∈ Atoms, r.uuid ≤ M ∧ r.height ≤ H) ∧
    (∀ (type : Option Int) (H' : Int) (r : Row), r ∈ Atoms →
      (load_queries type M H').countP (fun q => q.selects r) =
        if 0 < r.uuid ∧ 0 ≤ r.height ∧ r.height ≤ H' ∧
            (type = none ∨ type = some r.type) then 1 else 0) ∧
    (∀ atom_type : Option AtomType, load_begin env Atoms atom_type st = none ↔
      setup_typemap env.store.cs env.store.TYPEMAP_SZ st.store.typemaps = none) ∧
    (load env fuel Atoms st =
      match load_begin env Atoms none st with
      | none => none
      | some b =>
        load_end (run_queries (load_all_atoms_cb env Atoms fuel) Atoms
          (load_queries none M H) b.2)) ∧
    (∀ (o : Except MakeAtomException Unit) (st' : LoadState),
      load env fuel Atoms st = some (o, st') →
      ∃ evs, st'.trace = st.trace ++ evs ∧
        (∃ later, trace_queries evs ++ later = load_queries none M H) ∧
        (∃ later, trace_rows evs ++ later = selected_rows Atoms (load_queries none M H)) ∧
        (o = .ok () →
          trace_queries evs = load_queries none M H ∧
          ∀ r : Row, (trace_rows evs).count r =
            if 0 < r.uuid ∧ 0 ≤ r.height then Atoms.count r else 0)) ∧
    (∀ T : AtomType, loadType env fuel Atoms T st =
      match load_begin env Atoms (some T) st with
      | none => none
      | some b =>
        load_end (run_queries (load_if_not_exists_cb env Atoms fuel) Atoms
          (load_queries (some (b.2.store.typemaps.storing_typemap T)) M
            (if env.isNode T then 0 else H)) b.2)) ∧
    (∀ (T : AtomType) (o : Except MakeAtomException Unit) (st' : LoadState),
      loadType env fuel Atoms T st = some (o, st') →
      ∃ tm, setup_typemap env.store.cs env.store.TYPEMAP_SZ st.store.typemaps = some tm ∧
      ∃ evs, st'.trace = st.trace ++ evs ∧
        (∃ later, trace_queries evs ++ later =
          load_queries (some (tm.storing_typemap T)) M (if env.isNode T then 0 else H)) ∧
        (∃ later, trace_rows evs ++ later = selected_rows Atoms
          (load_queries (some (tm.storing_typemap T)) M (if env.isNode T then 0 else H))) ∧
        (o = .ok () →
          trace_queries evs =
            load_queries (some (tm.storing_typemap T)) M (if env.isNode T then 0 else H) ∧
          ∀ r : Row, (trace_rows evs).count r =
            if 0 < r.uuid ∧ 0 ≤ r.height ∧ r.height ≤ (if env.isNode T then 0 else H) ∧
                r.type = tm.storing_typemap T then Atoms.count r else 0)) := by
  have hbound : ∀ r ∈ Atoms, r.uuid ≤ M ∧ r.height ≤ H := by
    intro r hr
    refine ⟨?_, ?_⟩
    · rw [← hMdef]
      exact le_getMaxObservedUUID _ _ _ (List.mem_map.mpr ⟨r, hr, rfl⟩)
    · rw [← hHdef]
      exact le_getMaxObservedHeight Atoms st r hr
  have hcover : ∀ (type : Option Int) (H' : Int) (r : Row), r ∈ Atoms →
      (load_queries type M H').countP (fun q => q.selects r) =
        if 0 < r.uuid ∧ 0 ≤ r.height ∧ r.height ≤ H' ∧
            (type = none ∨ type = some r.type) then 1 else 0 :=
    fun type H' r hr => load_queries_cover M hM type H' r (hbound r hr).1
  have hchunks := chunk_loop_chunks_upto M fuel hM hfuel
  -- the rows emitted by a whole run, counted
  have hcount : ∀ (type : Option Int) (H' : Int) (r : Row),
      (selected_rows Atoms (load_queries type M H')).count r =
        if 0 < r.uuid ∧ 0 ≤ r.height ∧ r.height ≤ H' ∧
            (type = none ∨ type = some r.type) then Atoms.count r else 0 := by
    intro type H' r
    rw [selected_rows_count]
    by_cases hr : r ∈ Atoms
    · rw [hcover type H' r hr]
      split <;> simp
    · rw [List.count_eq_zero.mpr hr]
      simp
  have hload : load env fuel Atoms st =
      match load_begin env Atoms none st with
      | none => none
      | some b =>
        load_end (run_queries (load_all_atoms_cb env Atoms fuel) Atoms
          (load_queries none M H) b.2) := by
    unfold load
    cases hb : load_begin env Atoms none st with
    | none => rfl
    | some b =>
      obtain ⟨m, st1⟩ := b
      obtain ⟨hm, hh, _, _⟩ := load_begin_some env Atoms none st st1 m hb
      simp only at hh ⊢
      rw [hMdef] at hm
      rw [hHdef] at hh
      subst hm
      rw [load_heights_run _ Atoms none m fuel _ hchunks, hh]
      rfl
  have hloadType : ∀ T : AtomType, loadType env fuel Atoms T st =
      match load_begin env Atoms (some T) st with
      | none => none
      | some b =>
        load_end (run_queries (load_if_not_exists_cb env Atoms fuel) Atoms
          (load_queries (some (b.2.store.typemaps.storing_typemap T)) M
            (if env.isNode T then 0 else H)) b.2) := by
    intro T
    unfold loadType
    cases hb : load_begin env Atoms (some T) st with
    | none => rfl
    | some b =>
      obtain ⟨m, st1⟩ := b
      obtain ⟨hm, hh, _, _⟩ := load_begin_some env Atoms (some T) st st1 m hb
      simp only at hh ⊢
      rw [hMdef] at hm
      rw [hHdef] at hh
      subst hm
      rw [load_heights_run _ Atoms _ m fuel _ hchunks, hh]
      rfl
  refine ⟨hbound, hcover, fun ty => load_begin_none env Atoms ty st, hload, ?_, hloadType, ?_⟩
  · intro o st' h
    rw [hload] at h
    cases hb : load_begin env Atoms none st with
    | none => simp [hb] at h
    | some b =>
      obtain ⟨m, st1⟩ := b
      obtain ⟨_, _, _, hf⟩ := load_begin_some env Atoms none st st1 m hb
      simp only [hb] at h
      obtain ⟨evs, ht, hq, hr, hok⟩ := scan_trace _
        (fun rp row s o s' => load_all_atoms_cb_fetches env Atoms fuel rp row s s' o) Atoms _ st st1 st' o hf h
      refine ⟨evs, ht, hq, hr, fun ho => ⟨(hok ho).1, fun r => ?_⟩⟩
      rw [(hok ho).2, hcount none H r]
      by_cases hr : r ∈ Atoms
      · have := (hbound r hr).2
        by_cases hc : 0 < r.uuid ∧ 0 ≤ r.height
        · rw [if_pos ⟨hc.1, hc.2, this, Or.inl rfl⟩, if_pos hc]
        · rw [if_neg (fun h => hc ⟨h.1, h.2.1⟩), if_neg hc]
      · rw [List.count_eq_zero.mpr hr]
        simp
  · intro T o st' h
    rw [hloadType] at h
    cases hb : load_begin env Atoms (some T) st with
    | none => simp [hb] at h
    | some b =>
      obtain ⟨m, st1⟩ := b
      obtain ⟨_, _, htm, hf⟩ := load_begin_some env Atoms (some T) st st1 m hb
      simp only [hb] at h
      refine ⟨st1.store.typemaps, htm, ?_⟩
      obtain ⟨evs, ht, hq, hr, hok⟩ := scan_trace _
        (fun rp row s o s' => load_if_not_exists_cb_fetches env Atoms fuel rp row s s' o) Atoms _ st st1 st' o hf h
      refine ⟨evs, ht, hq, hr, fun ho => ⟨(hok ho).1, fun r => ?_⟩⟩
      rw [(hok ho).2, hcount _ _ r]
      by_cases hc : 0 < r.uuid ∧ 0 ≤ r.height ∧ r.height ≤ (if env.isNode T then 0 else H) ∧
          r.type = st1.store.typemaps.storing_typemap T
      · rw [if_pos hc, if_pos]
        exact ⟨hc.1, hc.2.1, hc.2.2.1, Or.inr (by rw [hc.2.2.2])⟩
      · rw [if_neg hc, if_neg]
        rintro ⟨c1, c2, c3, c4⟩
        rcases c4 with c4 | c4
        · cases c4
        · exact hc ⟨c1, c2, c3, (Option.some.inj c4).symm⟩

/-- The amended claim on the sample table of two nodes, a link over them and a
node of the second chunk, with the fuel 3: the maximum observed UUID is 12004
and the maximum observed height is 1; `load` returns without exception, it has
executed the four queries of the heights 0 and 1, and it has emitted every row
of the table once; `loadType` for the node type 1, of type code 0, returns
without exception, it has executed the two queries of the height 0 with the
test on the type code 0, and it has emitted the three node rows once and the
link row not at all. -/
theorem load_chunks_scan_witness :
    (getMaxObservedUUID (sampleAtoms.map (fun r => r.uuid)) sampleLoadState.store).1 = 12004 ∧
    (getMaxObservedHeight sampleAtoms sampleLoadState).1 = 1 ∧
    (12004 : Nat) + STEP < 2 ^ 64 ∧ 12004 / STEP + 2 ≤ 3 ∧
    (∃ st', load sampleLoadEnv 3 sampleAtoms sampleLoadState = some (.ok (), st') ∧
      trace_queries st'.trace =
        [⟨none, 0, 0, 12003⟩, ⟨none, 0, 12003, 24006⟩, ⟨none, 1, 0, 12003⟩,
          ⟨none, 1, 12003, 24006⟩] ∧
      ∀ r ∈ sampleAtoms, (trace_rows st'.trace).count r = 1) ∧
    ∃ st', loadType sampleLoadEnv 3 sampleAtoms 1 sampleLoadState = some (.ok (), st') ∧
      trace_queries st'.trace = [⟨some 0, 0, 0, 12003⟩, ⟨some 0, 0, 12003, 24006⟩] ∧
      ∀ r ∈ sampleAtoms, (trace_rows st'.trace).count r = if r.type = 0 then 1 else 0 := by
  refine ⟨by decide, by decide, by decide, by decide, ?_, ?_⟩
  · have hret : (load sampleLoadEnv 3 sampleAtoms sampleLoadState).map (fun r => r.1) =
        some (.ok ()) := by decide!
    cases hl : load sampleLoadEnv 3 sampleAtoms sampleLoadState with
    | none => rw [hl] at hret; cases hret
    | some res =>
      obtain ⟨o, st'⟩ := res
      rw [hl] at hret
      simp only [Option.map_some', Option.some.injEq] at hret
      subst hret
      obtain ⟨evs, ht, -, -, hok⟩ :=
        (load_chunks_scan sampleLoadEnv 3 sampleAtoms sampleLoadState 12004 1
          (by decide) (by decide) (by decide) (by decide)).2.2.2.2.1 (.ok ()) st' hl
      have ht' : st'.trace = evs := by rw [ht]; rfl
      obtain ⟨hq, hr⟩ := hok rfl
      refine ⟨st', rfl, ?_, ?_⟩
      · rw [ht', hq]; decide
      · intro r hrm
        rw [ht', hr r]
        have hall : ∀ r ∈ sampleAtoms,
            (if 0 < r.uuid ∧ 0 ≤ r.height then sampleAtoms.count r else 0) = 1 := by decide
        exact hall r hrm
  · have hret : (loadType sampleLoadEnv 3 sampleAtoms 1 sampleLoadState).map (fun r => r.1) =
        some (.ok ()) := by decide!
    cases hl : loadType sampleLoadEnv 3 sampleAtoms 1 sampleLoadState with
    | none => rw [hl] at hret; cases hret
    | some res =>
      obtain ⟨o, st'⟩ := res
      rw [hl] at hret
      simp only [Option.map_some', Option.some.injEq] at hret
      subst hret
      obtain ⟨tm, htm, evs, ht, -, -, hok⟩ :=
        (load_chunks_scan sampleLoadEnv 3 sampleAtoms sampleLoadState 12004 1
          (by decide) (by decide) (by decide) (by decide)).2.2.2.2.2.2 1 (.ok ()) st' hl
      have hcode : tm.storing_typemap 1 = 0 := by
        have hd : (setup_typemap sampleLoadEnv.store.cs sampleLoadEnv.store.TYPEMAP_SZ
            sampleLoadState.store.typemaps).map (fun tm => tm.storing_typemap 1) = some 0 := by
          decide
        rw [htm] at hd
        exact Option.some.inj hd
      have ht' : st'.trace = evs := by rw [ht]; rfl
      obtain ⟨hq, hr⟩ := hok rfl
      rw [hcode] at hq hr
      refine ⟨st', rfl, ?_, ?_⟩
      · rw [ht', hq]; decide
      · intro r hrm
        rw [ht', hr r]
        have hall : ∀ r ∈ sampleAtoms,
            (if 0 < r.uuid ∧ 0 ≤ r.height ∧
                r.height ≤ (if sampleLoadEnv.isNode 1 = true then 0 else 1) ∧ r.type = 0
              then sampleAtoms.count r else 0) = if r.type = 0 then 1 else 0 := by decide
        exact hall r hrm

/-- C28: for a non-empty outgoing set whose UUIDs fit the 64 bits of the type
`UUID`, `oset_to_string` gives the text of the spec, a single quote, the array
text with the decimal UUIDs in order separated by a comma and one blank, and a
single quote; and the branch of `makeAtom` that reads the outgoing set gives
back exactly these UUIDs, in order, from the array text with any number of
blanks after the commas, none or one among them. -/
theorem oset_round_trip (addAtom : Atom → UUID) (out : HandleSeq) (hne : out ≠ [])
    (h64 : ∀ h ∈ out, addAtom h < 2 ^ 64) :
    oset_to_string addAtom out out.length =
      "\x27" ++ array_text 1 (out.map addAtom) ++ "\x27" ∧
    ∀ spaces, makeAtom_oset (some (array_text spaces (out.map addAtom))) = out.map addAtom := by
  cases out with
  | nil => exact absurd rfl hne
  | cons h rest =>
    constructor
    · have hq : ("\x7d\x27" : String) = "\x7d" ++ "\x27" := by decide
      have hp : ("\x27\x7b" : String) = "\x27" ++ "\x7b" := by decide
      simp only [oset_to_string, List.take_length, oset_to_string_loop, ne_eq,
        not_true_eq_false, if_false, List.map_cons, array_text]
      rw [hq, ← String.append_assoc, oset_to_string_loop_tail, hp]
      simp only [to_string, String.append_assoc]
    · intro spaces
      simp only [makeAtom_oset, List.map_cons, array_text, String.data_append]
      have := makeAtom_oset_loop_tail spaces (rest.map addAtom) (addAtom h) '\x7b' 0 []
        (['\x7b'] ++ ((Nat.repr (addAtom h)).data ++
          (array_tail spaces (rest.map addAtom)).data)).length (by decide)
        (h64 h (List.mem_cons_self _ _))
        (by
          intro x hx
          obtain ⟨a, ha, rfl⟩ := List.mem_map.mp hx
          exact h64 a (List.mem_cons_of_mem _ ha))
        (by simp)
      simpa using this

/-- The round trip for the outgoing set of the nodes "abc" and "x" of the
sample environment, of UUIDs 3 and 1. -/
theorem oset_round_trip_witness :
    [Atom.node 1 "abc", Atom.node 1 "x"] ≠ [] ∧
    oset_to_string sampleStoreEnv.addAtom [Atom.node 1 "abc", Atom.node 1 "x"] 2 = "\x27\x7b3, 1\x7d\x27" ∧
    makeAtom_oset (some "\x7b3, 1\x7d") = [3, 1] ∧ makeAtom_oset (some "\x7b3,1\x7d") = [3, 1] ∧
    (oset_to_string sampleStoreEnv.addAtom [Atom.node 1 "abc", Atom.node 1 "x"]
        [Atom.node 1 "abc", Atom.node 1 "x"].length =
      "\x27" ++ array_text 1 ([Atom.node 1 "abc", Atom.node 1 "x"].map sampleStoreEnv.addAtom) ++
        "\x27" ∧
    ∀ spaces, makeAtom_oset (some (array_text spaces
        ([Atom.node 1 "abc", Atom.node 1 "x"].map sampleStoreEnv.addAtom))) =
      [Atom.node 1 "abc", Atom.node 1 "x"].map sampleStoreEnv.addAtom) :=
  ⟨by decide, by decide, by decide, by decide,
    oset_round_trip sampleStoreEnv.addAtom [Atom.node 1 "abc", Atom.node 1 "x"] (by decide)
      (by decide)⟩

/-- C29, the divergence: the first store of a node whose truth value has a type
that the store does not know throws after `maybe_create_id` has put the UUID 3
of the node into `id_create_cache`, and nothing takes it out again: the set
of UUIDs in creation is empty before the call and holds 3 after it. A later
store of the same atom does not return, with the same truth value or with
none, where a store on the state of before the failed call executes its
`INSERT`. -/
theorem rejected_store_keeps_creating :
    sampleStorage.local_id_cache = {7} ∧ sampleStorage.id_create_cache = ∅ ∧
    (do_store_single_atom sampleStoreEnv_other (Atom.node 1 "abc") 0 sampleStorage).map
      (fun p => (p.1, p.2.local_id_cache, p.2.id_create_cache)) =
        some (.error RuntimeException.unknown_truth_value_type, {7}, {3}) ∧
    (do_store_single_atom sampleStoreEnv_other (Atom.node 1 "abc") 0 sampleStorage).bind
      (fun p => (do_store_single_atom sampleStoreEnv_other (Atom.node 1 "abc") 0 p.2).map
        (fun p' => p'.1)) = none ∧
    (do_store_single_atom sampleStoreEnv_other (Atom.node 1 "abc") 0 sampleStorage).bind
      (fun p => (do_store_single_atom sampleStoreEnv (Atom.node 1 "abc") 0 p.2).map
        (fun p' => p'.1)) = none ∧
    (do_store_single_atom sampleStoreEnv (Atom.node 1 "abc") 0 sampleStorage).map
      (fun p => (p.1, atoms_statements p.2.log)) =
        some (.ok (), ["INSERT INTO Atoms (uuid, space, type, name, height, tv_type) VALUES (3, 0, 0,  $ocp$abc$ocp$ , 0, 0);"]) := by
  decide

/-- C30, the divergence: for a node name of 1000 characters the text of the
query has 1058 characters, more than the 999 that the limit `4*BUFSZ` given to
`snprintf` leaves room for and fewer than the 9999 of the overflow test
`40*BUFSZ-1 <= nc`: `getNode` reports no overflow and executes the first 999
characters of the text, a query cut inside the name. -/
theorem getNode_truncated_query :
    ∃ tm, setup_typemap sampleClassServer 8 sampleTypeMaps = some tm ∧
      (getNode_text tm.storing_typemap 1 (List.replicate 1000 'a')).length = 1058 ∧
      getNode sampleClassServer 8 sampleTypeMaps 1 (List.replicate 1000 'a') =
        some (GetNode.query
          ((getNode_text tm.storing_typemap 1 (List.replicate 1000 'a')).take 999)) ∧
      ((getNode_text tm.storing_typemap 1 (List.replicate 1000 'a')).take 999).length = 999 ∧
      (getNode_text tm.storing_typemap 1 (List.replicate 1000 'a')).take 999 ≠
        getNode_text tm.storing_typemap 1 (List.replicate 1000 'a') := by
  obtain ⟨tm, htm⟩ := Option.isSome_iff_exists.mp
    (by decide : (setup_typemap sampleClassServer 8 sampleTypeMaps).isSome = true)
  have hcode : (setup_typemap sampleClassServer 8 sampleTypeMaps).map
      (fun tm => tm.storing_typemap 1) = some 0 := by decide
  rw [htm] at hcode
  simp only [Option.map_some', Option.some.injEq] at hcode
  have hlen : (getNode_text tm.storing_typemap 1 (List.replicate 1000 'a')).length = 1058 := by
    rw [getNode_text_length, hcode, List.length_replicate]
    decide
  obtain ⟨h1, _, h3⟩ := getNode_cases sampleClassServer 8 sampleTypeMaps tm 1
    (List.replicate 1000 'a') htm
  refine ⟨tm, htm, hlen, h1 (by omega), ?_, ?_⟩
  · rw [List.length_take, hlen]
    rfl
  · intro h
    have := h3.mp h
    omega

end opencog
